import Mathlib

/-! The BSV generator of cambridgehackers/protobuf.

A shallow embedding of `src/google/protobuf/compiler/bsv/bsv_generator.cc`.

* A `std::string` is a list of characters (`Str`).
* The descriptor tree handed to the generator is plain data: every accessor
  the generator calls is a field of the same name.
* `io::Printer` is driven through `Print`, `Indent` and `Outdent`; a run of the
  generator is the list of those calls in program order (`PrinterCall`), and
  `Printer.run` turns the calls into the text that reaches the sink.
* A failed `GOOGLE_CHECK` aborts the process; a function that contains one
  returns an `Option`, `none` standing for the abort.
-/

namespace Bsv

/-- A `std::string`. -/
abbrev Str := List Char

/-! ## Helpers from `google/protobuf/stubs/strutil` -/

/-- Modelled from the spec: `HasSuffixString` of stubs/strutil (not under src/):
the string ends with the given suffix. -/
def HasSuffixString (str suffix : Str) : Bool :=
  suffix.length ≤ str.length && str.drop (str.length - suffix.length) == suffix

/-- Modelled from the spec: `StripSuffixString` of stubs/strutil (not under src/):
the string without the suffix when it ends with it, the string itself otherwise. -/
def StripSuffixString (str suffix : Str) : Str :=
  if HasSuffixString str suffix then str.take (str.length - suffix.length) else str

/-- Modelled from the spec: `StripString(&s, remove, replacewith)` of stubs/strutil
(not under src/): every character of `s` that occurs in `remove` is replaced
by `replacewith`. -/
def StripString (s remove : Str) (replacewith : Char) : Str :=
  s.map fun c => if c ∈ remove then replacewith else c

/-- The scanning loop of `GlobalReplaceSubstring`: matches are looked for from
left to right and do not overlap.  The counter is the number of characters of
the current match that are still to be stepped over. -/
def GlobalReplaceSubstring.scan (substring replacement : Str) : Nat → Str → Str
  | _, [] => []
  | k + 1, _ :: t => GlobalReplaceSubstring.scan substring replacement k t
  | 0, c :: t =>
    if substring.isPrefixOf (c :: t) then
      replacement ++ GlobalReplaceSubstring.scan substring replacement (substring.length - 1) t
    else
      c :: GlobalReplaceSubstring.scan substring replacement 0 t

/-- Modelled from the spec: `GlobalReplaceSubstring(substring, replacement, &s)` of
stubs/strutil (not under src/): every occurrence of `substring` in `s`, found
from left to right without overlap, is replaced by `replacement`; an empty
`s` or an empty `substring` leaves `s` as it is. -/
def GlobalReplaceSubstring (substring replacement s : Str) : Str :=
  if s.isEmpty || substring.isEmpty then s
  else GlobalReplaceSubstring.scan substring replacement 0 s

/-- ASCII upper-casing of one character. -/
def ascii_toupper (c : Char) : Char :=
  if 'a' ≤ c ∧ c ≤ 'z' then Char.ofNat (c.toNat - 32) else c

/-- Modelled from the spec: `UpperString(&s)` of stubs/strutil (not under src/):
every ASCII lower-case letter is replaced by its upper-case letter. -/
def UpperString (s : Str) : Str :=
  s.map ascii_toupper

/-- Modelled from the spec: `SimpleItoa` of stubs/strutil (not under src/): the
decimal literal of an integer, with a leading minus sign when negative. -/
def SimpleItoa (i : Int) : Str :=
  if i < 0 then '-' :: Nat.toDigits 10 i.natAbs else Nat.toDigits 10 i.toNat

/-- The three octal digits that `CEscape` writes for a byte. -/
def CEscape.octal (n : Nat) : Str :=
  [Char.ofNat (48 + n / 64 % 8), Char.ofNat (48 + n / 8 % 8), Char.ofNat (48 + n % 8)]

/-- The escape sequence `CEscape` writes for one character. -/
def CEscape.char (c : Char) : Str :=
  if c = '\n' then ['\\', 'n']
  else if c = '\r' then ['\\', 'r']
  else if c = '\t' then ['\\', 't']
  else if c = Char.ofNat 34 then ['\\', Char.ofNat 34]
  else if c = Char.ofNat 39 then ['\\', Char.ofNat 39]
  else if c = '\\' then ['\\', '\\']
  else if 32 ≤ c.toNat ∧ c.toNat < 127 then [c]
  else '\\' :: CEscape.octal (c.toNat % 256)

/-- Modelled from the spec: `CEscape` of stubs/strutil (not under src/): the
C-style escaped form of a byte string; line feed, carriage return, tab, the
two quotes and the backslash get their two-character escapes, any other
non-printable byte a backslash and three octal digits. -/
def CEscape (src : Str) : Str :=
  src.flatMap CEscape.char

/-! ## Name resolver (lines 74-136) -/

/-- `StripProto`: a copy of `filename` with a trailing ".protodevel" or ".proto"
suffix stripped. -/
def StripProto (filename : Str) : Str :=
  let suffix := if HasSuffixString filename ".protodevel".toList
    then ".protodevel".toList else ".proto".toList
  StripSuffixString filename suffix

/-- `ModuleName`: the BSV module name expected for a given .proto filename. -/
def ModuleName (filename : Str) : Str :=
  let basename := StripProto filename
  let basename := StripString basename "-".toList '_'
  let basename := StripString basename "/".toList '.'
  basename ++ "_pb".toList

/-- The two rewriting steps of `ModuleAlias` (lines 102-103), applied to a
module name. -/
def ModuleAlias.rewrite (module_name : Str) : Str :=
  let module_name := GlobalReplaceSubstring "_".toList "__".toList module_name
  let module_name := GlobalReplaceSubstring ".".toList "_dot_".toList module_name
  module_name

/-- What the two rewriting steps of `ModuleAlias` make of one character of the
module name (used to state their combined effect). -/
def ModuleAlias.code (c : Char) : Str :=
  if c = '_' then "__".toList else if c = '.' then "_dot_".toList else [c]

/-- `ModuleAlias`: the alias assigned to the module of the given .proto filename
when importing. -/
def ModuleAlias (filename : Str) : Str :=
  ModuleAlias.rewrite (ModuleName filename)

/-- `string::rfind(c)`: the position of the last occurrence of `c`, if any. -/
def rfind (s : Str) (c : Char) : Option Nat :=
  match s.reverse.indexOf? c with
  | none => none
  | some i => some (s.length - 1 - i)

/-- `ModuleImportStatement`: an import statement of form "from X.Y.Z import T"
for the given .proto filename. -/
def ModuleImportStatement (filename : Str) : Str :=
  let module_name := ModuleName filename
  match rfind module_name '.' with
  | none => "import ".toList ++ module_name
  | some last_dot_pos =>
    "from ".toList ++ module_name.take last_dot_pos ++ " import ".toList ++
      module_name.drop (last_dot_pos + 1)

/-! ## The descriptor tree (google/protobuf/descriptor.h, read-only input) -/

/-- `FieldDescriptor::Label`. -/
inductive Label where
  | LABEL_OPTIONAL
  | LABEL_REQUIRED
  | LABEL_REPEATED
  deriving DecidableEq

/-- The integer value of a label. -/
def Label.toInt : Label → Int
  | .LABEL_OPTIONAL => 1
  | .LABEL_REQUIRED => 2
  | .LABEL_REPEATED => 3

/-- `FieldDescriptor::Type`, the declared type of a field. -/
inductive FieldType where
  | TYPE_DOUBLE | TYPE_FLOAT | TYPE_INT64 | TYPE_UINT64 | TYPE_INT32 | TYPE_FIXED64
  | TYPE_FIXED32 | TYPE_BOOL | TYPE_STRING | TYPE_GROUP | TYPE_MESSAGE | TYPE_BYTES
  | TYPE_UINT32 | TYPE_ENUM | TYPE_SFIXED32 | TYPE_SFIXED64 | TYPE_SINT32 | TYPE_SINT64
  deriving DecidableEq

/-- `FieldDescriptor::CppType`, the type category `StringifyDefaultValue` switches on. -/
inductive CppType where
  | CPPTYPE_INT32 | CPPTYPE_INT64 | CPPTYPE_UINT32 | CPPTYPE_UINT64 | CPPTYPE_DOUBLE
  | CPPTYPE_FLOAT | CPPTYPE_BOOL | CPPTYPE_ENUM | CPPTYPE_STRING | CPPTYPE_MESSAGE
  deriving DecidableEq

/-- The integer value of a declared type. -/
def FieldType.toInt : FieldType → Int
  | .TYPE_DOUBLE => 1 | .TYPE_FLOAT => 2 | .TYPE_INT64 => 3 | .TYPE_UINT64 => 4
  | .TYPE_INT32 => 5 | .TYPE_FIXED64 => 6 | .TYPE_FIXED32 => 7 | .TYPE_BOOL => 8
  | .TYPE_STRING => 9 | .TYPE_GROUP => 10 | .TYPE_MESSAGE => 11 | .TYPE_BYTES => 12
  | .TYPE_UINT32 => 13 | .TYPE_ENUM => 14 | .TYPE_SFIXED32 => 15 | .TYPE_SFIXED64 => 16
  | .TYPE_SINT32 => 17 | .TYPE_SINT64 => 18

/-- Modelled from the spec: the table `kTypeToCppTypeMap` of descriptor.cc (not under
src/), which gives the type category of each declared type. -/
def kTypeToCppTypeMap : FieldType → CppType
  | .TYPE_DOUBLE => .CPPTYPE_DOUBLE | .TYPE_FLOAT => .CPPTYPE_FLOAT
  | .TYPE_INT64 => .CPPTYPE_INT64 | .TYPE_UINT64 => .CPPTYPE_UINT64
  | .TYPE_INT32 => .CPPTYPE_INT32 | .TYPE_FIXED64 => .CPPTYPE_UINT64
  | .TYPE_FIXED32 => .CPPTYPE_UINT32 | .TYPE_BOOL => .CPPTYPE_BOOL
  | .TYPE_STRING => .CPPTYPE_STRING | .TYPE_GROUP => .CPPTYPE_MESSAGE
  | .TYPE_MESSAGE => .CPPTYPE_MESSAGE | .TYPE_BYTES => .CPPTYPE_STRING
  | .TYPE_UINT32 => .CPPTYPE_UINT32 | .TYPE_ENUM => .CPPTYPE_ENUM
  | .TYPE_SFIXED32 => .CPPTYPE_INT32 | .TYPE_SFIXED64 => .CPPTYPE_INT64
  | .TYPE_SINT32 => .CPPTYPE_INT32 | .TYPE_SINT64 => .CPPTYPE_INT64

/-- Modelled from the spec: the table `kTypeToName` of descriptor.cc (not under src/),
the primitive type name of each declared type. -/
def kTypeToName : FieldType → Str
  | .TYPE_DOUBLE => "double".toList | .TYPE_FLOAT => "float".toList
  | .TYPE_INT64 => "int64".toList | .TYPE_UINT64 => "uint64".toList
  | .TYPE_INT32 => "int32".toList | .TYPE_FIXED64 => "fixed64".toList
  | .TYPE_FIXED32 => "fixed32".toList | .TYPE_BOOL => "bool".toList
  | .TYPE_STRING => "string".toList | .TYPE_GROUP => "group".toList
  | .TYPE_MESSAGE => "message".toList | .TYPE_BYTES => "bytes".toList
  | .TYPE_UINT32 => "uint32".toList | .TYPE_ENUM => "enum".toList
  | .TYPE_SFIXED32 => "sfixed32".toList | .TYPE_SFIXED64 => "sfixed64".toList
  | .TYPE_SINT32 => "sint32".toList | .TYPE_SINT64 => "sint64".toList

/-- A `const Descriptor*` as far as the generator follows it: NULL, or a message
descriptor of which it reads `name()`, `file()` (a file is identified by its
name) and `containing_type()`. -/
inductive DescriptorPtr where
  | NULL
  | ptr (name : Str) (file : Str) (containing_type : DescriptorPtr)
  deriving DecidableEq

/-- The accessors that the templates `NamePrefixedWithNestedTypes` and
`ModuleLevelDescriptorName` read of their argument `DescriptorT` (a message or
an enum descriptor). -/
structure DescriptorT where
  name : Str
  file : Str
  containing_type : DescriptorPtr
  deriving DecidableEq

/-- A floating-point value is its IEEE-754 bit pattern: 64 bits for `double`. -/
def double_infinity : Nat := 0x7FF0000000000000

/-- The bit pattern of the `double` minus infinity. -/
def double_neg_infinity : Nat := 0xFFF0000000000000

/-- The test `value != value` on a `double`: true of the NaNs only, the patterns
with all exponent bits set and a fraction that is not zero. -/
def double_is_nan (bits : Nat) : Bool :=
  bits / 2 ^ 52 % 2 ^ 11 == 2047 && bits % 2 ^ 52 != 0

/-- The bit pattern (32 bits) of the `float` plus infinity. -/
def float_infinity : Nat := 0x7F800000

/-- The bit pattern of the `float` minus infinity. -/
def float_neg_infinity : Nat := 0xFF800000

/-- The test `value != value` on a `float`. -/
def float_is_nan (bits : Nat) : Bool :=
  bits / 2 ^ 23 % 2 ^ 8 == 255 && bits % 2 ^ 23 != 0

/-- `FieldDescriptor`.  `options` is `options().SerializeAsString()`;
`default_value_enum_number` is `default_value_enum()->number()`; the two
floating-point defaults are bit patterns. -/
structure FieldDescriptor where
  name : Str
  full_name : Str
  file : Str
  index : Nat
  number : Int
  type : FieldType
  label : Label
  message_type : Option DescriptorT
  enum_type : Option DescriptorT
  has_default_value : Bool
  default_value_int32 : Int
  default_value_int64 : Int
  default_value_uint32 : Nat
  default_value_uint64 : Nat
  default_value_double : Nat
  default_value_float : Nat
  default_value_bool : Bool
  default_value_enum_number : Int
  default_value_string : Str
  is_extension : Bool
  extension_scope : DescriptorPtr
  containing_type : DescriptorPtr
  options : Str

/-- `FieldDescriptor::cpp_type()`. -/
def FieldDescriptor.cpp_type (field : FieldDescriptor) : CppType :=
  kTypeToCppTypeMap field.type

/-- `FieldDescriptor::type_name()`. -/
def FieldDescriptor.type_name (field : FieldDescriptor) : Str :=
  kTypeToName field.type

/-- `FieldDescriptor::is_repeated()`. -/
def FieldDescriptor.is_repeated (field : FieldDescriptor) : Bool :=
  field.label == Label.LABEL_REPEATED

/-- `EnumValueDescriptor`. -/
structure EnumValueDescriptor where
  name : Str
  index : Nat
  number : Int
  options : Str

/-- `EnumDescriptor`. -/
structure EnumDescriptor where
  name : Str
  file : Str
  containing_type : DescriptorPtr
  value : List EnumValueDescriptor
  options : Str

/-- The view of an enum descriptor that the name templates read. -/
def EnumDescriptor.toDescriptorT (e : EnumDescriptor) : DescriptorT :=
  { name := e.name, file := e.file, containing_type := e.containing_type }

/-- `Descriptor::ExtensionRange`. -/
structure ExtensionRange where
  start : Int
  end_ : Int

/-- `OneofDescriptor`. -/
structure OneofDescriptor where
  name : Str
  full_name : Str
  index : Nat

/-- `Descriptor`, the descriptor of a message, with the messages nested in it. -/
inductive Descriptor where
  | mk (name full_name file : Str) (containing_type : DescriptorPtr)
      (field : List FieldDescriptor) (nested_type : List Descriptor)
      (enum_type : List EnumDescriptor) (extension : List FieldDescriptor)
      (extension_range : List ExtensionRange) (oneof_decl : List OneofDescriptor)
      (options : Str)

/-- `Descriptor::name()`. -/
def Descriptor.name : Descriptor → Str
  | .mk name _ _ _ _ _ _ _ _ _ _ => name

/-- `Descriptor::full_name()`. -/
def Descriptor.full_name : Descriptor → Str
  | .mk _ full_name _ _ _ _ _ _ _ _ _ => full_name

/-- `Descriptor::file()`, by name. -/
def Descriptor.file : Descriptor → Str
  | .mk _ _ file _ _ _ _ _ _ _ _ => file

/-- `Descriptor::containing_type()`. -/
def Descriptor.containing_type : Descriptor → DescriptorPtr
  | .mk _ _ _ containing_type _ _ _ _ _ _ _ => containing_type

/-- `Descriptor::field(i)`, all of them in declared order. -/
def Descriptor.field : Descriptor → List FieldDescriptor
  | .mk _ _ _ _ field _ _ _ _ _ _ => field

/-- `Descriptor::nested_type(i)`, all of them in declared order. -/
def Descriptor.nested_type : Descriptor → List Descriptor
  | .mk _ _ _ _ _ nested_type _ _ _ _ _ => nested_type

/-- `Descriptor::enum_type(i)`, all of them in declared order. -/
def Descriptor.enum_type : Descriptor → List EnumDescriptor
  | .mk _ _ _ _ _ _ enum_type _ _ _ _ => enum_type

/-- `Descriptor::extension(i)`, all of them in declared order. -/
def Descriptor.extension : Descriptor → List FieldDescriptor
  | .mk _ _ _ _ _ _ _ extension _ _ _ => extension

/-- `Descriptor::extension_range(i)`, all of them in declared order. -/
def Descriptor.extension_range : Descriptor → List ExtensionRange
  | .mk _ _ _ _ _ _ _ _ extension_range _ _ => extension_range

/-- `Descriptor::oneof_decl(i)`, all of them in declared order. -/
def Descriptor.oneof_decl : Descriptor → List OneofDescriptor
  | .mk _ _ _ _ _ _ _ _ _ oneof_decl _ => oneof_decl

/-- The serialized options of a message. -/
def Descriptor.options : Descriptor → Str
  | .mk _ _ _ _ _ _ _ _ _ _ options => options

/-- The view of a message descriptor that the name templates read. -/
def Descriptor.toDescriptorT (d : Descriptor) : DescriptorT :=
  { name := d.name, file := d.file, containing_type := d.containing_type }

/-- `MethodDescriptor`; of `input_type()` the generator reads the name. -/
structure MethodDescriptor where
  name : Str
  full_name : Str
  index : Nat
  input_type : DescriptorT
  options : Str

/-- `ServiceDescriptor`. -/
structure ServiceDescriptor where
  name : Str
  file : Str
  index : Nat
  method : List MethodDescriptor
  options : Str

/-- A file that the generated file depends on: the generator reads its name and
follows its public dependencies. -/
inductive ImportedFile where
  | mk (name : Str) (public_dependency : List ImportedFile)

/-- The name of an imported file. -/
def ImportedFile.name : ImportedFile → Str
  | .mk name _ => name

/-- The public dependencies of an imported file, in declared order. -/
def ImportedFile.public_dependency : ImportedFile → List ImportedFile
  | .mk _ public_dependency => public_dependency

/-- `FileDescriptor::Syntax`. -/
inductive Syntax where
  | SYNTAX_UNKNOWN
  | SYNTAX_PROTO2
  | SYNTAX_PROTO3
  deriving DecidableEq

/-- `FileDescriptor`, the file handed to `Generate`.  `serialized` is the
serialized `FileDescriptorProto` that `CopyTo` and `SerializeToString` produce
of it. -/
structure FileDescriptor where
  name : Str
  syntax_ : Syntax
  dependency : List ImportedFile
  public_dependency : List ImportedFile
  message_type : List Descriptor
  enum_type : List EnumDescriptor
  service : List ServiceDescriptor
  extension : List FieldDescriptor
  options : Str
  serialized : Str

/-! ## The printer (google/protobuf/io/printer.h) -/

/-- One call that the generator makes on `printer_`: `Print` with its vars
(name and value, in the order the code binds them) and its template text,
`Indent`, or `Outdent`. -/
inductive PrinterCall where
  | Print (vars : List (Str × Str)) (text : Str)
  | Indent
  | Outdent
  deriving DecidableEq

/-- The value bound to a variable name in a call of `Print`. -/
def lookup_variable (vars : List (Str × Str)) (varname : Str) : Option Str :=
  match vars.find? fun v => v.1 == varname with
  | none => none
  | some v => some v.2

/-- The state of an `io::Printer`: the text written to the sink so far, the
current indentation and whether the next write starts a line. -/
structure Printer where
  buffer : Str
  indent_ : Str
  at_start_of_line_ : Bool

/-- Modelled from the spec: `Printer::WriteRaw` of io/printer.cc (not under src/):
empty data writes nothing; data that starts a line and does not begin with a
line feed is preceded by the indentation. -/
def Printer.WriteRaw (p : Printer) (data : Str) : Printer :=
  match data with
  | [] => p
  | c :: _ =>
    if p.at_start_of_line_ && c != '\n' then
      { p with buffer := p.buffer ++ p.indent_ ++ data, at_start_of_line_ := false }
    else
      { p with buffer := p.buffer ++ data }

/-- The scanning loop of `Printer::Print`, with delimiter `$`.  `seg` is the
literal text read since the last write, `varname` the variable name being
read, if any.  An unclosed variable name and an undefined variable are
DFATAL errors of the library that no template of the generator runs into;
here they write nothing. -/
def Printer.scan (vars : List (Str × Str)) : Str → Str → Option Str → Printer → Printer
  | [], seg, none, p => p.WriteRaw seg
  | [], _, some _, p => p
  | c :: rest, seg, none, p =>
    if c = '\n' then
      Printer.scan vars rest [] none
        { p.WriteRaw (seg ++ ['\n']) with at_start_of_line_ := true }
    else if c = '$' then
      Printer.scan vars rest [] (some []) (p.WriteRaw seg)
    else
      Printer.scan vars rest (seg ++ [c]) none p
  | c :: rest, seg, some varname, p =>
    if c = '$' then
      Printer.scan vars rest [] none
        (if varname.isEmpty then p.WriteRaw ['$']
         else match lookup_variable vars varname with
           | some value => p.WriteRaw value
           | none => p)
    else
      Printer.scan vars rest seg (some (varname ++ [c])) p

/-- Modelled from the spec: `Printer::Print` of io/printer.cc (not under src/): the
template text is written with every `$name$` replaced by the value of the
variable `name` and `$$` by a dollar sign; the text after a line feed starts a
line. -/
def Printer.Print (p : Printer) (vars : List (Str × Str)) (text : Str) : Printer :=
  Printer.scan vars text [] none p

/-- Modelled from the spec: `Printer::Indent` of io/printer.cc (not under src/): two
more spaces of indentation. -/
def Printer.Indent (p : Printer) : Printer :=
  { p with indent_ := p.indent_ ++ [' ', ' '] }

/-- Modelled from the spec: `Printer::Outdent` of io/printer.cc (not under src/): two
spaces of indentation less; without indentation it is a DFATAL error and
changes nothing. -/
def Printer.Outdent (p : Printer) : Printer :=
  if p.indent_.isEmpty then p else { p with indent_ := p.indent_.take (p.indent_.length - 2) }

/-- One call applied to a printer. -/
def Printer.step (p : Printer) : PrinterCall → Printer
  | .Print vars text => p.Print vars text
  | .Indent => p.Indent
  | .Outdent => p.Outdent

/-- The text that a fresh printer (`io::Printer printer(output.get(), '$')`)
writes to the sink when it receives the given calls in order. -/
def Printer.run (calls : List PrinterCall) : Str :=
  (calls.foldl Printer.step { buffer := [], indent_ := [], at_start_of_line_ := true }).buffer

/-! ## Formatters whose code is outside the repository sources at hand -/

/-- The formatters `SimpleDtoa` and `SimpleFtoa` of stubs/strutil (not under
src/), taken as parameters: the decimal literal of a `double` and of a `float`
given by its bit pattern. -/
structure FloatFormat where
  SimpleDtoa : Nat → Str
  SimpleFtoa : Nat → Str

/-! ## Default value encoder (lines 152-223) -/

/-- `StringifyDefaultValue`: a BSV literal giving the default value for a field.
The switch covers every `CppType`, so the `GOOGLE_LOG(FATAL)` after it is not
reached. -/
def StringifyDefaultValue (fmt : FloatFormat) (field : FieldDescriptor) : Str :=
  if field.is_repeated then "[]".toList
  else
    match field.cpp_type with
    | .CPPTYPE_INT32 => SimpleItoa field.default_value_int32
    | .CPPTYPE_UINT32 => SimpleItoa field.default_value_uint32
    | .CPPTYPE_INT64 => SimpleItoa field.default_value_int64
    | .CPPTYPE_UINT64 => SimpleItoa field.default_value_uint64
    | .CPPTYPE_DOUBLE =>
      let value := field.default_value_double
      if value = double_infinity then "1e10000".toList
      else if value = double_neg_infinity then "-1e10000".toList
      else if double_is_nan value then "(1e10000 * 0)".toList
      else fmt.SimpleDtoa value
    | .CPPTYPE_FLOAT =>
      let value := field.default_value_float
      if value = float_infinity then "1e10000".toList
      else if value = float_neg_infinity then "-1e10000".toList
      else if float_is_nan value then "(1e10000 * 0)".toList
      else fmt.SimpleFtoa value
    | .CPPTYPE_BOOL => if field.default_value_bool then "True".toList else "False".toList
    | .CPPTYPE_ENUM => SimpleItoa field.default_value_enum_number
    | .CPPTYPE_STRING =>
      "_b(\"".toList ++ CEscape field.default_value_string ++
        (if field.type ≠ FieldType.TYPE_STRING then "\")".toList
         else "\").decode('utf-8')".toList)
    | .CPPTYPE_MESSAGE => "None".toList

/-- `StringifySyntax`; `none` is the `GOOGLE_LOG(FATAL)` of the last case. -/
def StringifySyntax (syntax_ : Syntax) : Option Str :=
  match syntax_ with
  | .SYNTAX_PROTO2 => some "proto2".toList
  | .SYNTAX_PROTO3 => some "proto3".toList
  | .SYNTAX_UNKNOWN => none

/-! ## Naming of descriptors and options (lines 592-690) -/

/-- The name of the class attribute that stores the descriptor. -/
def kDescriptorKey : Str := "DESCRIPTOR".toList

/-- The loop of `NamePrefixedWithNestedTypes` over the containing types, from
the innermost outwards. -/
def NamePrefixedWithNestedTypes.loop (separator : Str) : DescriptorPtr → Str → Str
  | .NULL, name => name
  | .ptr current_name _ containing_type, name =>
    NamePrefixedWithNestedTypes.loop separator containing_type (current_name ++ separator ++ name)

/-- `NamePrefixedWithNestedTypes`: the name of all containing types for descriptor,
in order from outermost to innermost, followed by its own name, each name
separated by `separator`. -/
def NamePrefixedWithNestedTypes (descriptor : DescriptorT) (separator : Str) : Str :=
  NamePrefixedWithNestedTypes.loop separator descriptor.containing_type descriptor.name

/-- `Generator::GeneratingDescriptorProto`. -/
def GeneratingDescriptorProto (file_ : FileDescriptor) : Bool :=
  file_.name == "google/protobuf/descriptor.proto".toList

/-- `Generator::OptionsValue`: a BSV expression that calls descriptor._ParseOptions
using the given descriptor class name and serialized options protobuf string. -/
def OptionsValue (file_ : FileDescriptor) (class_name serialized_options : Str) : Str :=
  if serialized_options.length == 0 || GeneratingDescriptorProto file_ then "None".toList
  else
    let full_class_name := "descriptor_pb2.".toList ++ class_name
    "_descriptor._ParseOptions(".toList ++ full_class_name ++ "(), _b('".toList ++
      CEscape serialized_options ++ "'))".toList

/-- `Generator::ModuleLevelDescriptorName`: the BSV module-level identifier given to
a descriptor, module-qualified iff it does not come from the current file. -/
def ModuleLevelDescriptorName (file_ : FileDescriptor) (descriptor : DescriptorT) : Str :=
  let name := NamePrefixedWithNestedTypes descriptor "_".toList
  let name := UpperString name
  let name := "_".toList ++ name
  if descriptor.file ≠ file_.name then
    ModuleAlias descriptor.file ++ ".".toList ++ name
  else name

/-- `Generator::ModuleLevelMessageName`. -/
def ModuleLevelMessageName (file_ : FileDescriptor) (descriptor : DescriptorT) : Str :=
  let name := NamePrefixedWithNestedTypes descriptor ".".toList
  if descriptor.file ≠ file_.name then
    ModuleAlias descriptor.file ++ ".".toList ++ name
  else name

/-- `Generator::ModuleLevelServiceDescriptorName`. -/
def ModuleLevelServiceDescriptorName (file_ : FileDescriptor)
    (descriptor : ServiceDescriptor) : Str :=
  let name := UpperString descriptor.name
  let name := "_".toList ++ name
  if descriptor.file ≠ file_.name then
    ModuleAlias descriptor.file ++ ".".toList ++ name
  else name

/-- `Generator::FieldReferencingExpression`; `none` is the failure of
`GOOGLE_CHECK_EQ(field.file(), file_)`. -/
def FieldReferencingExpression (file_ : FileDescriptor) (containing_type : DescriptorPtr)
    (field : FieldDescriptor) (bsv_dict_name : Str) : Option Str :=
  if field.file ≠ file_.name then none
  else
    match containing_type with
    | .NULL => some field.name
    | .ptr name file outer =>
      some (ModuleLevelDescriptorName file_
          { name := name, file := file, containing_type := outer } ++
        ".".toList ++ bsv_dict_name ++ "['".toList ++ field.name ++ "']".toList)

/-! ## Descriptor emitter (lines 248-510) -/

/-- `printer_->Print(text)`: a call of `Print` without vars. -/
def Print0 (text : Str) : PrinterCall :=
  .Print [] text

/-- What a member function that touches the static `enum_separator` leaves
behind: the calls it made on `printer_`, in order, and the value of
`enum_separator` when it returns. -/
structure Emitted where
  printer : List PrinterCall
  enum_separator : Str

/-- `s.c_str()` as `strcmp` and `%s` read it: the characters before the first NUL
byte.  A name without NUL byte, as every identifier is, is its own C string. -/
def c_str (s : Str) : Str :=
  s.takeWhile fun c => c != Char.ofNat 0

/-- The test `!strcmp(name.c_str(), "Empty")`. -/
def named_Empty (name : Str) : Bool :=
  c_str name == "Empty".toList

/-- The template of the record that `PrintFieldDescriptor` prints. -/
def field_record_text : Str :=
  "                    \x7b \"pname\": \"$name$\", \"ptype\": \x7b \"name\": \"$cpp_type$\"\x7d \x7d\n".toList

/-- The vars that `PrintFieldDescriptor` binds in its map `m`. -/
def PrintFieldDescriptor.m (fmt : FloatFormat) (file_ : FileDescriptor)
    (field : FieldDescriptor) (is_extension : Bool) : List (Str × Str) :=
  let options_string := field.options
  [("name".toList, field.name),
   ("full_name".toList, field.full_name),
   ("index".toList, SimpleItoa field.index),
   ("number".toList, SimpleItoa field.number),
   ("type".toList, SimpleItoa field.type.toInt),
   ("cpp_type".toList,
      match field.message_type, field.enum_type with
      | some mt, _ => mt.name
      | none, some et => et.name
      | none, none => field.type_name),
   ("label".toList, SimpleItoa field.label.toInt),
   ("has_default_value".toList, if field.has_default_value then "True".toList else "False".toList),
   ("default_value".toList, StringifyDefaultValue fmt field),
   ("is_extension".toList, if is_extension then "True".toList else "False".toList),
   ("options".toList, OptionsValue file_ "FieldOptions".toList options_string)]

/-- `Generator::PrintFieldDescriptor`: prints an expression for a BSV
FieldDescriptor for `field`. -/
def PrintFieldDescriptor (fmt : FloatFormat) (file_ : FileDescriptor)
    (field : FieldDescriptor) (is_extension : Bool) : List PrinterCall :=
  [.Print (PrintFieldDescriptor.m fmt file_ field is_extension) field_record_text]

/-- The template that opens an enum record (lines 390-392). -/
def enum_open_text : Str :=
  ("        \x7b \"dtype\": \"TypeDef\", \"tname\": \"$name$\",\n" ++
   "            \"tdtype\": \x7b\n" ++
   "                \"elements\": [ ").toList

/-- The template that closes an enum record (lines 407-411). -/
def enum_close_text : Str :=
  (" ], \n" ++
   "                \"name\": \"$name$\", \n" ++
   "                \"type\": \"Enum\"\n" ++
   "            \x7d\n" ++
   "        \x7d\n").toList

/-- The loop of `PrintEnum` over the values of the enum, from index `i` on. -/
def PrintEnum.values (file_ : FileDescriptor) : Nat → List EnumValueDescriptor → List PrinterCall
  | _, [] => []
  | i, value :: rest =>
    let options_string := value.options
    let m : List (Str × Str) :=
      [("name".toList, value.name),
       ("index".toList, SimpleItoa value.index),
       ("number".toList, SimpleItoa value.number),
       ("options".toList, OptionsValue file_ "EnumValueOptions".toList options_string)]
    (if i ≠ 0 then [PrinterCall.Print m ",".toList] else []) ++
      [PrinterCall.Print m "\"$name$\"".toList] ++
      PrintEnum.values file_ (i + 1) rest

/-- `Generator::PrintEnum`.  Its last statement sets the static `enum_separator`. -/
def PrintEnum (file_ : FileDescriptor) (enum_descriptor : EnumDescriptor) : Emitted :=
  { printer :=
      [.Print [("name".toList, enum_descriptor.name)] enum_open_text, .Indent] ++
        PrintEnum.values file_ 0 enum_descriptor.value ++
        [.Outdent, .Print [("name".toList, enum_descriptor.name)] enum_close_text]
    enum_separator := ",".toList }

/-- The second loop of `PrintNestedEnums`, over the enums of the message itself. -/
def PrintNestedEnums.enums (file_ : FileDescriptor) : List EnumDescriptor → Str → Emitted
  | [], enum_separator => { printer := [], enum_separator := enum_separator }
  | e :: rest, _ =>
    let r1 := PrintEnum file_ e
    let r2 := PrintNestedEnums.enums file_ rest r1.enum_separator
    { printer := r1.printer ++ r2.printer, enum_separator := r2.enum_separator }

mutual
/-- `Generator::PrintNestedEnums`: recursively prints enums in nested types within
descriptor, then prints enums contained at the top level in descriptor. -/
def PrintNestedEnums (file_ : FileDescriptor) : Descriptor → Str → Emitted
  | .mk _ _ _ _ _ nested_type enum_type _ _ _ _, enum_separator =>
    let r1 := PrintNestedEnums.nested file_ nested_type enum_separator
    let r2 := PrintNestedEnums.enums file_ enum_type r1.enum_separator
    { printer := r1.printer ++ r2.printer, enum_separator := r2.enum_separator }
/-- The first loop of `PrintNestedEnums`, over the nested types. -/
def PrintNestedEnums.nested (file_ : FileDescriptor) : List Descriptor → Str → Emitted
  | [], enum_separator => { printer := [], enum_separator := enum_separator }
  | d :: rest, enum_separator =>
    let r1 := PrintNestedEnums file_ d enum_separator
    let r2 := PrintNestedEnums.nested file_ rest r1.enum_separator
    { printer := r1.printer ++ r2.printer, enum_separator := r2.enum_separator }
end

/-- The template that opens a message record (lines 463-466). -/
def struct_open_text : Str :=
  ("        \x7b\n" ++
   "            \"dtype\": \"TypeDef\", \n" ++
   "            \"tdtype\": \x7b\n" ++
   "                \"elements\": [\n").toList

/-- The template that closes the field list of a message record and gives its
name and its type "Struct" (lines 475-480). -/
def struct_close_text : Str :=
  ("                ], \n" ++
   "                \"name\": \"$name$\", \n" ++
   "                \"type\": \"Struct\"\n" ++
   "            \x7d, \n" ++
   "            \"tname\": \"$name$\"\n" ++
   "      \x7d\n").toList

/-- The loop of `PrintDescriptor` over the fields, with its variable `fseparator`. -/
def PrintDescriptor.fields (fmt : FloatFormat) (file_ : FileDescriptor) :
    List FieldDescriptor → Str → List PrinterCall
  | [], _ => []
  | field :: rest, fseparator =>
    [Print0 fseparator] ++ PrintFieldDescriptor fmt file_ field false ++
      PrintDescriptor.fields fmt file_ rest ",".toList

/-- The vars that `PrintDescriptor` binds in its map `m` (lines 453-456). -/
def PrintDescriptor.m (name full_name : Str) : List (Str × Str) :=
  [("name".toList, name), ("full_name".toList, full_name), ("file".toList, kDescriptorKey)]

/-- Lines 462-510 of `PrintDescriptor`: the definition of the message itself,
printed after the separator: the opening, the field records, the closing with
the name, the extension ranges and the oneofs. -/
def PrintDescriptor.definition (fmt : FloatFormat) (file_ : FileDescriptor)
    (name full_name : Str) (field : List FieldDescriptor)
    (extension_range : List ExtensionRange) (oneof_decl : List OneofDescriptor) :
    List PrinterCall :=
  let m := PrintDescriptor.m name full_name
  [.Print m struct_open_text, .Indent] ++
    PrintDescriptor.fields fmt file_ field " ".toList ++
    [.Print m struct_close_text] ++
    (if extension_range.length ≠ 0 then
      [Print0 "extension_ranges=[".toList] ++
        (extension_range.flatMap fun range =>
          [PrinterCall.Print [("start".toList, SimpleItoa range.start),
              ("end".toList, SimpleItoa range.end_)] "($start$, $end$), ".toList]) ++
        [Print0 "],".toList]
     else []) ++
    (if oneof_decl.length ≠ 0 then
      [Print0 "oneofs=[".toList, .Indent] ++
        (oneof_decl.flatMap fun desc =>
          [PrinterCall.Print [("name".toList, desc.name), ("full_name".toList, desc.full_name),
              ("index".toList, SimpleItoa desc.index)] "OOD(name='$name$'),".toList]) ++
        [.Outdent, Print0 "],".toList]
     else []) ++
    [.Outdent]

mutual
/-- `Generator::PrintDescriptor`. -/
def PrintDescriptor (fmt : FloatFormat) (file_ : FileDescriptor) : Descriptor → List PrinterCall
  | .mk name full_name _ _ field nested_type _ _ extension_range oneof_decl _ =>
    let r := PrintDescriptor.nested fmt file_ nested_type " ".toList
    let separator := r.2
    if named_Empty name then r.1
    else
      r.1 ++ [Print0 separator] ++
        PrintDescriptor.definition fmt file_ name full_name field extension_range oneof_decl
/-- The loop of `PrintDescriptor` over the nested types (lines 443-449); it
returns the calls made and the final value of `separator`. -/
def PrintDescriptor.nested (fmt : FloatFormat) (file_ : FileDescriptor) :
    List Descriptor → Str → List PrinterCall × Str
  | [], separator => ([], separator)
  | .mk name full_name file containing_type field nested_type enum_type extension
      extension_range oneof_decl options :: rest, separator =>
    if named_Empty name then PrintDescriptor.nested fmt file_ rest separator
    else
      let r := PrintDescriptor.nested fmt file_ rest ",".toList
      ([Print0 separator] ++
        PrintDescriptor fmt file_ (.mk name full_name file containing_type field nested_type
          enum_type extension extension_range oneof_decl options) ++ r.1, r.2)
end

mutual
/-- `Generator::CopyPublicDependenciesAliases`. -/
def CopyPublicDependenciesAliases (copy_from : Str) : ImportedFile → List PrinterCall
  | .mk _ public_dependency => CopyPublicDependenciesAliases.loop copy_from public_dependency
/-- The loop of `CopyPublicDependenciesAliases` over the public dependencies. -/
def CopyPublicDependenciesAliases.loop (copy_from : Str) : List ImportedFile → List PrinterCall
  | [] => []
  | .mk name public_dependency :: rest =>
    let module_alias := ModuleAlias name
    [PrinterCall.Print [("alias".toList, module_alias), ("copy_from".toList, copy_from)]
        "$alias$ = $copy_from$.$alias$\n".toList] ++
      CopyPublicDependenciesAliases copy_from (.mk name public_dependency) ++
      CopyPublicDependenciesAliases.loop copy_from rest
end

/-- `Generator::PrintImports`: prints BSV imports for all modules imported by the
file. -/
def PrintImports (file_ : FileDescriptor) : List PrinterCall :=
  (file_.dependency.flatMap fun dep =>
    let filename := dep.name
    let import_statement := ModuleImportStatement filename
    let module_alias := ModuleAlias filename
    [PrinterCall.Print [("statement".toList, import_statement), ("alias".toList, module_alias)]
        "$statement$ as $alias$\n".toList] ++
      CopyPublicDependenciesAliases module_alias dep) ++
  (file_.public_dependency.flatMap fun dep =>
    let module_name := ModuleName dep.name
    [PrinterCall.Print [("module".toList, module_name)] "from $module$ import *\n".toList])

/-! ## Options fix-up pass (lines 712-815) -/

/-- `PrintDescriptorOptionsFixingCode`: the statement that sets the options of a
descriptor. -/
def PrintDescriptorOptionsFixingCode (descriptor options : Str) : List PrinterCall :=
  [.Print [("descriptor".toList, descriptor), ("options".toList, options)]
    "$descriptor$.has_options = True\n$descriptor$._options = $options$\n".toList]

/-- `Generator::FixOptionsForEnum`: prints expressions that set the options for an
enum descriptor and its value descriptors. -/
def FixOptionsForEnum (file_ : FileDescriptor) (enum_descriptor : EnumDescriptor) :
    List PrinterCall :=
  let descriptor_name := ModuleLevelDescriptorName file_ enum_descriptor.toDescriptorT
  let enum_options := OptionsValue file_ "EnumOptions".toList enum_descriptor.options
  (if enum_options ≠ "None".toList then
    PrintDescriptorOptionsFixingCode descriptor_name enum_options
   else []) ++
  enum_descriptor.value.flatMap fun value_descriptor =>
    let value_options := OptionsValue file_ "EnumValueOptions".toList value_descriptor.options
    if value_options ≠ "None".toList then
      PrintDescriptorOptionsFixingCode
        (c_str descriptor_name ++ ".values_by_name[\"".toList ++ c_str value_descriptor.name ++
          "\"]".toList)
        value_options
    else []

/-- `Generator::FixOptionsForField`: prints expressions that set the options for
field descriptors (including extensions); `none` when the check of
`FieldReferencingExpression` fails. -/
def FixOptionsForField (file_ : FileDescriptor) (field : FieldDescriptor) :
    Option (List PrinterCall) :=
  let field_options := OptionsValue file_ "FieldOptions".toList field.options
  if field_options ≠ "None".toList then
    let field_name : Option Str :=
      if field.is_extension then
        if field.extension_scope = DescriptorPtr.NULL then some field.name
        else FieldReferencingExpression file_ field.extension_scope field
          "extensions_by_name".toList
      else FieldReferencingExpression file_ field.containing_type field "fields_by_name".toList
    match field_name with
    | none => none
    | some field_name => some (PrintDescriptorOptionsFixingCode field_name field_options)
  else some []

/-- A loop over fields that calls `FixOptionsForField` on each, in order. -/
def FixOptionsForField.loop (file_ : FileDescriptor) :
    List FieldDescriptor → Option (List PrinterCall)
  | [] => some []
  | field :: rest =>
    match FixOptionsForField file_ field with
    | none => none
    | some p1 =>
      match FixOptionsForField.loop file_ rest with
      | none => none
      | some p2 => some (p1 ++ p2)

mutual
/-- `Generator::FixOptionsForMessage`: prints expressions that set the options for
a message and all its inner types (nested messages, nested enums, extensions,
fields). -/
def FixOptionsForMessage (file_ : FileDescriptor) : Descriptor → Option (List PrinterCall)
  | .mk name _ file containing_type field nested_type enum_type extension _ _ options =>
    match FixOptionsForMessage.nested file_ nested_type with
    | none => none
    | some p1 =>
      let p2 := enum_type.flatMap (FixOptionsForEnum file_)
      match FixOptionsForField.loop file_ field with
      | none => none
      | some p3 =>
        match FixOptionsForField.loop file_ extension with
        | none => none
        | some p4 =>
          let message_options := OptionsValue file_ "MessageOptions".toList options
          some (p1 ++ p2 ++ p3 ++ p4 ++
            (if message_options ≠ "None".toList then
              let descriptor_name := ModuleLevelDescriptorName file_
                { name := name, file := file, containing_type := containing_type }
              PrintDescriptorOptionsFixingCode descriptor_name message_options
             else []))
/-- The loop of `FixOptionsForMessage` over the nested messages (also the loop of
`FixAllDescriptorOptions` over the top-level messages). -/
def FixOptionsForMessage.nested (file_ : FileDescriptor) :
    List Descriptor → Option (List PrinterCall)
  | [] => some []
  | d :: rest =>
    match FixOptionsForMessage file_ d with
    | none => none
    | some p1 =>
      match FixOptionsForMessage.nested file_ rest with
      | none => none
      | some p2 => some (p1 ++ p2)
end

/-- `Generator::FixAllDescriptorOptions`: prints expressions that set the options
field of all descriptors. -/
def FixAllDescriptorOptions (file_ : FileDescriptor) : Option (List PrinterCall) :=
  let file_options := OptionsValue file_ "FileOptions".toList file_.options
  let p1 :=
    if file_options ≠ "None".toList then
      PrintDescriptorOptionsFixingCode kDescriptorKey file_options
    else []
  let p2 := file_.enum_type.flatMap (FixOptionsForEnum file_)
  match FixOptionsForField.loop file_ file_.extension with
  | none => none
  | some p3 =>
    match FixOptionsForMessage.nested file_ file_.message_type with
    | none => none
    | some p4 => some (p1 ++ p2 ++ p3 ++ p4)

/-! ## `Generator::Generate` (lines 248-366) -/

/-- The mutable members of a `Generator` together with the file-level static
`enum_separator`: what one run of `Generate` finds and what it leaves.
`printer_` stands for the calls received by the printer that the member
points to. -/
structure Generator where
  file_ : Option FileDescriptor
  file_descriptor_serialized_ : Str
  printer_ : List PrinterCall
  enum_separator : Str

/-- The output sink: `Open` tells whether `context->Open(filename)` gives a stream.
The stream takes every write, so `printer.failed()` stays false. -/
structure GeneratorContext where
  Open : Str → Bool

/-- The local variables that the loop over the top-level enums (lines 282-295)
carries, with the calls made. -/
structure EnumLoop where
  printer : List PrinterCall
  separator : Str
  enum_separator : Str
  top_level_enum_values : List (Str × Int)

/-- The loop of `Generate` over the top-level enums (lines 282-295). -/
def Generate.enum_types (file_ : FileDescriptor) : List EnumDescriptor → Str → Str → EnumLoop
  | [], separator, enum_separator =>
    { printer := [], separator := separator, enum_separator := enum_separator,
      top_level_enum_values := [] }
  | enum_descriptor :: rest, separator, _ =>
    let r1 := PrintEnum file_ enum_descriptor
    let r2 := Generate.enum_types file_ rest ",".toList r1.enum_separator
    { printer :=
        [Print0 "KKLK".toList, Print0 separator] ++ r1.printer ++
          [PrinterCall.Print [("name".toList, enum_descriptor.name),
              ("descriptor_name".toList,
                ModuleLevelDescriptorName file_ enum_descriptor.toDescriptorT)]
            "$name$ = enum_type_wrapper.EnumTypeWrapper($descriptor_name$)".toList] ++
          r2.printer
      separator := r2.separator
      enum_separator := r2.enum_separator
      top_level_enum_values :=
        (enum_descriptor.value.map fun value_descriptor =>
          (value_descriptor.name, value_descriptor.number)) ++ r2.top_level_enum_values }

/-- The loop of `Generate` over the top-level extensions (lines 300-310); it
returns the calls made and the final value of `separator`. -/
def Generate.extensions (fmt : FloatFormat) (file_ : FileDescriptor) :
    List FieldDescriptor → Str → List PrinterCall × Str
  | [], separator => ([], separator)
  | extension_field :: rest, separator =>
    let constant_name := UpperString (extension_field.name ++ "_FIELD_NUMBER".toList)
    let r := Generate.extensions fmt file_ rest ",".toList
    ([Print0 "KMMM".toList, Print0 separator,
      PrinterCall.Print [("constant_name".toList, constant_name),
          ("number".toList, SimpleItoa extension_field.number)]
        "$constant_name$ = $number$\n".toList,
      PrinterCall.Print [("name".toList, extension_field.name)] "$name$ = ".toList] ++
      PrintFieldDescriptor fmt file_ extension_field true ++ r.1, r.2)

/-- The loop of `Generate` that calls `PrintNestedEnums` on every top-level
message (lines 312-316). -/
def Generate.nested_enums (file_ : FileDescriptor) : List Descriptor → Str → Emitted
  | [], enum_separator => { printer := [], enum_separator := enum_separator }
  | d :: rest, enum_separator =>
    let r1 := PrintNestedEnums file_ d enum_separator
    let r2 := Generate.nested_enums file_ rest r1.enum_separator
    { printer := r1.printer ++ r2.printer, enum_separator := r2.enum_separator }

/-- The loop of `Generate` over the top-level messages (lines 318-324). -/
def Generate.message_types (fmt : FloatFormat) (file_ : FileDescriptor) :
    List Descriptor → Str → List PrinterCall
  | [], _ => []
  | d :: rest, separator =>
    if named_Empty d.name then Generate.message_types fmt file_ rest separator
    else
      [Print0 separator] ++ PrintDescriptor fmt file_ d ++
        Generate.message_types fmt file_ rest ",".toList

/-- The template of a method record (lines 355-358). -/
def method_record_text : Str :=
  ("               \x7b \"dname\": \"$name$\", \"dparams\": [\n" ++
   "                    \x7b \"pname\": \"v\", \"ptype\": \x7b \"name\": \"$input_type$\"\x7d \x7d]\n" ++
   "                \x7d\n").toList

/-- The loop of `Generate` over the methods of a service (lines 342-360), with
its variable `separator`. -/
def Generate.methods (file_ : FileDescriptor) : List MethodDescriptor → Str → List PrinterCall
  | [], _ => []
  | method :: rest, separator =>
    let options_string := method.options
    let m : List (Str × Str) :=
      [("name".toList, method.name),
       ("full_name".toList, method.full_name),
       ("index".toList, SimpleItoa method.index),
       ("serialized_options".toList, CEscape options_string),
       ("input_type".toList, method.input_type.name),
       ("options_value".toList, OptionsValue file_ "MethodOptions".toList options_string)]
    [Print0 separator, PrinterCall.Print m method_record_text] ++
      Generate.methods file_ rest ",".toList

/-- The loop of `Generate` over the services (lines 327-363), from index `outeri`
on. -/
def Generate.services (file_ : FileDescriptor) : Nat → List ServiceDescriptor → List PrinterCall
  | _, [] => []
  | outeri, service :: rest =>
    let options_string := service.options
    let m : List (Str × Str) :=
      [("name".toList, service.name),
       ("index".toList, SimpleItoa service.index),
       ("options_value".toList, OptionsValue file_ "ServiceOptions".toList options_string)]
    (if outeri ≠ 0 then [Print0 ",".toList] else []) ++
      [PrinterCall.Print m "        \x7b \"cname\": \"$name$\", \"cdecls\": [\n".toList, .Indent] ++
      Generate.methods file_ service.method " ".toList ++
      [.Outdent, Print0 "            ]\n        \x7d\n".toList] ++
      Generate.services file_ (outeri + 1) rest

/-- The text that opens the artifact (line 279). -/
def globaldecls_open_text : Str := "\x7b\n    \"globaldecls\": [\n".toList

/-- The text that closes `globaldecls` and opens `interfaces` (line 325). -/
def interfaces_open_text : Str := "    ],\n    \"interfaces\": [\n".toList

/-- The text that closes `interfaces` and the artifact (line 364). -/
def interfaces_close_text : Str := "    ]\n\x7d\n".toList

/-- What a run of `Generate` that returns leaves: the members and the static, the
name of the file it asked the sink to open, and the value it returned. -/
structure GenerateResult where
  generator : Generator
  filename : Str
  returned : Bool

/-- `Generator::Generate`.  `none` is an abort: the failure of `GOOGLE_CHECK(output.get())`
or of the check inside the options fix-up pass. -/
def Generate (fmt : FloatFormat) (context : GeneratorContext) (g : Generator)
    (file : FileDescriptor) : Option GenerateResult :=
  let file_ := file
  let module_name := ModuleName file.name
  let separator := " ".toList
  let filename := StripString module_name ".".toList '/' ++ ".json".toList
  let file_descriptor_serialized_ := file_.serialized
  if context.Open filename = false then none
  else
    let p1 := [Print0 globaldecls_open_text] ++ PrintImports file_
    let enums := Generate.enum_types file_ file_.enum_type separator g.enum_separator
    let separator := enums.separator
    let p2 := enums.printer ++
      enums.top_level_enum_values.map fun v =>
        PrinterCall.Print [("name".toList, v.1), ("value".toList, SimpleItoa v.2)]
          "$name$ = $value$\n".toList
    let exts := Generate.extensions fmt file_ file_.extension separator
    let enum_separator := " ".toList
    let nested := Generate.nested_enums file_ file_.message_type enum_separator
    let enum_separator := nested.enum_separator
    let separator := enum_separator
    let p3 := exts.1 ++ nested.printer ++
      Generate.message_types fmt file_ file_.message_type separator ++
      [Print0 interfaces_open_text]
    match FixAllDescriptorOptions file_ with
    | none => none
    | some p4 =>
      some
        { generator :=
            { file_ := some file_
              file_descriptor_serialized_ := file_descriptor_serialized_
              printer_ := p1 ++ p2 ++ p3 ++ p4 ++ Generate.services file_ 0 file_.service ++
                [Print0 interfaces_close_text]
              enum_separator := enum_separator }
          filename := filename
          returned := true }

/-- The text that a run of `Generate` wrote to the sink. -/
def GenerateResult.text (r : GenerateResult) : Str :=
  Printer.run r.generator.printer_

/-! ## Vocabulary of the statements -/

/-- The serialized options of an enum and of its values. -/
def EnumDescriptor.all_options (e : EnumDescriptor) : List Str :=
  e.options :: e.value.map fun v => v.options

mutual
/-- The serialized options of a message and of every descriptor below it. -/
def Descriptor.all_options : Descriptor → List Str
  | .mk _ _ _ _ field nested_type enum_type extension _ _ options =>
    Descriptor.all_options_list nested_type ++ enum_type.flatMap EnumDescriptor.all_options ++
      field.map (fun f => f.options) ++ extension.map (fun f => f.options) ++ [options]
/-- The serialized options of the descriptors of a list of messages. -/
def Descriptor.all_options_list : List Descriptor → List Str
  | [] => []
  | d :: rest => Descriptor.all_options d ++ Descriptor.all_options_list rest
end

/-- The serialized options of every descriptor that the options fix-up pass
visits: the file, its enums and their values, its extensions, its messages
and what they hold. -/
def FileDescriptor.all_options (file : FileDescriptor) : List Str :=
  file.options :: (file.enum_type.flatMap EnumDescriptor.all_options ++
    file.extension.map (fun f => f.options) ++ Descriptor.all_options_list file.message_type)

/-- The Enum record of an enum: the calls that `PrintEnum` makes for it. -/
def EnumRecord (file_ : FileDescriptor) (e : EnumDescriptor) : List PrinterCall :=
  (PrintEnum file_ e).printer

/-- The Struct record of a message: the calls of lines 462-510 of
`PrintDescriptor` for it. -/
def StructRecord (fmt : FloatFormat) (file_ : FileDescriptor) (d : Descriptor) :
    List PrinterCall :=
  PrintDescriptor.definition fmt file_ d.name d.full_name d.field d.extension_range d.oneof_decl

/-- The name that a call gives to a Struct record: the value of `name` in a
`Print` with the template that carries the type "Struct"; `none` for every
other call. -/
def struct_record_name : PrinterCall → Option Str
  | .Print vars text =>
    if text = struct_close_text then lookup_variable vars "name".toList else none
  | _ => none

/-- The field is of category double with the default `d`, or of category float
with the default `f` (bit patterns). -/
def has_fp_default (field : FieldDescriptor) (d f : Nat) : Prop :=
  (field.cpp_type = CppType.CPPTYPE_DOUBLE ∧ field.default_value_double = d) ∨
    (field.cpp_type = CppType.CPPTYPE_FLOAT ∧ field.default_value_float = f)

/-- The field is of category double or float and its default is a NaN. -/
def has_nan_default (field : FieldDescriptor) : Prop :=
  (field.cpp_type = CppType.CPPTYPE_DOUBLE ∧ double_is_nan field.default_value_double = true) ∨
    (field.cpp_type = CppType.CPPTYPE_FLOAT ∧ float_is_nan field.default_value_float = true)

/-- No call of the list closes a Struct record. -/
def NoStructRecord (l : List PrinterCall) : Prop :=
  ∀ c ∈ l, struct_record_name c = none

/-- No call of the list closes a Struct record named "Empty". -/
def NoEmptyRecord (l : List PrinterCall) : Prop :=
  ∀ c ∈ l, struct_record_name c ≠ some "Empty".toList

/-- The names of the variables that a template text refers to, in order;
`varname` is the variable name being read, if any. -/
def template_vars : Str → Option Str → List Str
  | [], _ => []
  | c :: rest, none =>
    if c = '\n' then template_vars rest none
    else if c = '$' then template_vars rest (some [])
    else template_vars rest none
  | c :: rest, some varname =>
    if c = '$' then varname :: template_vars rest none
    else template_vars rest (some (varname ++ [c]))

/-- The only content of the file is a message named "Point" with the two fields
`fx` and `fy`: no dependency, no enum, no extension, no service, no nested
type, no extension range, no oneof, and no options on the file or the message. -/
def only_Point (file : FileDescriptor) (full_name fname : Str) (ct : DescriptorPtr)
    (fx fy : FieldDescriptor) : Prop :=
  file.dependency = [] ∧ file.public_dependency = [] ∧ file.enum_type = [] ∧
    file.service = [] ∧ file.extension = [] ∧ file.options = [] ∧
    file.message_type = [.mk "Point".toList full_name fname ct [fx, fy] [] [] [] [] [] []]

/-- A non-repeated int32 field of the given name that refers to no message or enum
type, without explicit default (so its int32 default is zero) and without
options. -/
def plain_int32_field (f : FieldDescriptor) (name : Str) : Prop :=
  f.name = name ∧ f.type = FieldType.TYPE_INT32 ∧ f.label ≠ Label.LABEL_REPEATED ∧
    f.has_default_value = false ∧ f.default_value_int32 = 0 ∧ f.message_type = none ∧
    f.enum_type = none ∧ f.options = []

/-- The file name that `Generate` asks the sink to open (lines 263-267). -/
def output_filename (file : FileDescriptor) : Str :=
  StripString (ModuleName file.name) ".".toList '/' ++ ".json".toList

/-! ## Concrete inputs -/

/-- A formatter for the concrete runs: it writes the zero of either width as "0",
as `SimpleDtoa` and `SimpleFtoa` do, and anything else as "1". -/
def Example.fmt : FloatFormat :=
  { SimpleDtoa := fun bits => if bits = 0 then "0".toList else "1".toList
    SimpleFtoa := fun bits => if bits = 0 then "0".toList else "1".toList }

/-- A sink that opens every file. -/
def Example.context : GeneratorContext :=
  { Open := fun _ => true }

/-- A generator before its first run. -/
def Example.generator : Generator :=
  { file_ := none, file_descriptor_serialized_ := [], printer_ := [],
    enum_separator := " ".toList }

/-- A non-repeated int32 field of the message `Point` of "point.proto", without
explicit default and without options. -/
def Example.int32_field (name : Str) (index : Nat) (number : Int) : FieldDescriptor :=
  { name := name, full_name := "Point.".toList ++ name, file := "point.proto".toList,
    index := index, number := number, type := FieldType.TYPE_INT32,
    label := Label.LABEL_OPTIONAL, message_type := none, enum_type := none,
    has_default_value := false, default_value_int32 := 0, default_value_int64 := 0,
    default_value_uint32 := 0, default_value_uint64 := 0, default_value_double := 0,
    default_value_float := 0, default_value_bool := false, default_value_enum_number := 0,
    default_value_string := [], is_extension := false, extension_scope := DescriptorPtr.NULL,
    containing_type := DescriptorPtr.ptr "Point".toList "point.proto".toList DescriptorPtr.NULL,
    options := [] }

/-- The message `Point` with the int32 fields x and y. -/
def Example.Point : Descriptor :=
  .mk "Point".toList "Point".toList "point.proto".toList DescriptorPtr.NULL
    [Example.int32_field "x".toList 0 1, Example.int32_field "y".toList 1 2] [] [] [] [] [] []

/-- The file "point.proto", whose only content is the message `Point`. -/
def Example.point_file : FileDescriptor :=
  { name := "point.proto".toList, syntax_ := Syntax.SYNTAX_PROTO3, dependency := [],
    public_dependency := [], message_type := [Example.Point], enum_type := [], service := [],
    extension := [], options := [], serialized := [] }

/-- A file "opts.proto" without services and without any type, whose file options
are not empty (the serialized option java_package = "foo"). -/
def Example.options_file : FileDescriptor :=
  { name := "opts.proto".toList, syntax_ := Syntax.SYNTAX_PROTO2, dependency := [],
    public_dependency := [], message_type := [], enum_type := [], service := [],
    extension := [], options := "\n\x03foo".toList, serialized := [] }

/-- A repeated field whose declared type is a message. -/
def Example.repeated_message_field : FieldDescriptor :=
  { Example.int32_field "items".toList 0 1 with
    type := FieldType.TYPE_MESSAGE, label := Label.LABEL_REPEATED,
    message_type := some { name := "Point".toList, file := "point.proto".toList,
                           containing_type := DescriptorPtr.NULL } }

/-- A non-repeated field of declared type string with the default "hi". -/
def Example.string_field : FieldDescriptor :=
  { Example.int32_field "s".toList 0 1 with
    type := FieldType.TYPE_STRING, has_default_value := true,
    default_value_string := "hi".toList }

/-- A non-repeated field of category double with the given default (bit pattern). -/
def Example.double_field (bits : Nat) : FieldDescriptor :=
  { Example.int32_field "d".toList 0 1 with
    type := FieldType.TYPE_DOUBLE, has_default_value := true, default_value_double := bits }

/-- The result of a run of `Generate` on the file with the concrete formatter,
sink and generator (a result without calls if the run aborts). -/
def Example.run (file : FileDescriptor) : GenerateResult :=
  (Generate Example.fmt Example.context Example.generator file).getD
    { generator := Example.generator, filename := [], returned := false }

/-- The text that `Generate` writes for "point.proto". -/
def Example.point_text : Str :=
  ("\x7b\n" ++
   "    \"globaldecls\": [\n" ++
   "          \x7b\n" ++
   "            \"dtype\": \"TypeDef\", \n" ++
   "            \"tdtype\": \x7b\n" ++
   "                \"elements\": [\n" ++
   "                       \x7b \"pname\": \"x\", \"ptype\": \x7b \"name\": \"int32\"\x7d \x7d\n" ++
   "  ,                    \x7b \"pname\": \"y\", \"ptype\": \x7b \"name\": \"int32\"\x7d \x7d\n" ++
   "                  ], \n" ++
   "                  \"name\": \"Point\", \n" ++
   "                  \"type\": \"Struct\"\n" ++
   "              \x7d, \n" ++
   "              \"tname\": \"Point\"\n" ++
   "        \x7d\n" ++
   "    ],\n" ++
   "    \"interfaces\": [\n" ++
   "    ]\n" ++
   "\x7d\n").toList

/-- The text that `Generate` writes for "opts.proto". -/
def Example.options_text : Str :=
  ("\x7b\n" ++
   "    \"globaldecls\": [\n" ++
   "    ],\n" ++
   "    \"interfaces\": [\n" ++
   "DESCRIPTOR.has_options = True\n" ++
   "DESCRIPTOR._options = _descriptor._ParseOptions(descriptor_pb2.FileOptions(), _b('\\n\\003foo'))\n" ++
   "    ]\n" ++
   "\x7d\n").toList

/-- The enum `Kind` of the message `Outer.Inner` of "nest.proto". -/
def Example.Kind : EnumDescriptor :=
  { name := "Kind".toList, file := "nest.proto".toList,
    containing_type := DescriptorPtr.ptr "Inner".toList "nest.proto".toList
      (DescriptorPtr.ptr "Outer".toList "nest.proto".toList DescriptorPtr.NULL),
    value := [{ name := "A".toList, index := 0, number := 0, options := [] },
              { name := "B".toList, index := 1, number := 1, options := [] }],
    options := [] }

/-- The message `Outer.Inner`, which holds the enum `Kind`. -/
def Example.Inner : Descriptor :=
  .mk "Inner".toList "Outer.Inner".toList "nest.proto".toList
    (DescriptorPtr.ptr "Outer".toList "nest.proto".toList DescriptorPtr.NULL)
    [] [] [Example.Kind] [] [] [] []

/-- The message `Outer.Empty.Hidden`, nested in a message named "Empty". -/
def Example.Hidden : Descriptor :=
  .mk "Hidden".toList "Outer.Empty.Hidden".toList "nest.proto".toList
    (DescriptorPtr.ptr "Empty".toList "nest.proto".toList
      (DescriptorPtr.ptr "Outer".toList "nest.proto".toList DescriptorPtr.NULL))
    [] [] [] [] [] [] []

/-- The message `Outer.Empty`, a nested message named "Empty". -/
def Example.nested_Empty : Descriptor :=
  .mk "Empty".toList "Outer.Empty".toList "nest.proto".toList
    (DescriptorPtr.ptr "Outer".toList "nest.proto".toList DescriptorPtr.NULL)
    [] [Example.Hidden] [] [] [] [] []

/-- The top-level message `Outer`, with the nested messages `Empty` and `Inner`. -/
def Example.Outer : Descriptor :=
  .mk "Outer".toList "Outer".toList "nest.proto".toList DescriptorPtr.NULL
    [] [Example.nested_Empty, Example.Inner] [] [] [] [] []

/-- A top-level message named "Empty". -/
def Example.top_Empty : Descriptor :=
  .mk "Empty".toList "Empty".toList "nest.proto".toList DescriptorPtr.NULL [] [] [] [] [] [] []

/-- The file "nest.proto" with the top-level messages `Empty` and `Outer`. -/
def Example.nested_file : FileDescriptor :=
  { name := "nest.proto".toList, syntax_ := Syntax.SYNTAX_PROTO3, dependency := [],
    public_dependency := [], message_type := [Example.top_Empty, Example.Outer],
    enum_type := [], service := [], extension := [], options := [], serialized := [] }


/-! ## Vocabulary of the statements on names -/

/-- The names of the message descriptors that a `containing_type()` chain runs
through, outermost first. -/
def DescriptorPtr.names : DescriptorPtr → List Str
  | .NULL => []
  | .ptr name _ containing_type => containing_type.names ++ [name]

/-- The names n_1 .. n_k of a descriptor: those of its containing types, outermost
first, followed by its own name. -/
def DescriptorT.name_chain (d : DescriptorT) : List Str :=
  d.containing_type.names ++ [d.name]

/-- The names joined by the separator: n_1 ++ separator ++ ... ++ separator ++ n_k. -/
def join_names (separator : Str) : List Str → Str
  | [] => []
  | [n] => n
  | n :: m :: rest => n ++ separator ++ join_names separator (m :: rest)

/-- `ModuleName` as the sentence of the specification reads: the suffix stripped,
every path separator replaced by a dot, the marker "_pb" appended, and no
other character changed. -/
def ModuleName_as_stated (filename : Str) : Str :=
  (StripProto filename).map (fun c => if c = '/' then '.' else c) ++ "_pb".toList

/-- The message `Outer.A_.B` of "clash.proto". -/
def Example.A_B : Descriptor :=
  .mk "B".toList "Outer.A_.B".toList "clash.proto".toList
    (DescriptorPtr.ptr "A_".toList "clash.proto".toList
      (DescriptorPtr.ptr "Outer".toList "clash.proto".toList DescriptorPtr.NULL))
    [] [] [] [] [] [] []

/-- The message `Outer.A._B` of "clash.proto". -/
def Example.A__B : Descriptor :=
  .mk "_B".toList "Outer.A._B".toList "clash.proto".toList
    (DescriptorPtr.ptr "A".toList "clash.proto".toList
      (DescriptorPtr.ptr "Outer".toList "clash.proto".toList DescriptorPtr.NULL))
    [] [] [] [] [] [] []

/-- The top-level message `Outer` of "clash.proto", which holds `A_` with `B` and `A`
with `_B`. -/
def Example.clash_Outer : Descriptor :=
  .mk "Outer".toList "Outer".toList "clash.proto".toList DescriptorPtr.NULL []
    [.mk "A_".toList "Outer.A_".toList "clash.proto".toList
        (DescriptorPtr.ptr "Outer".toList "clash.proto".toList DescriptorPtr.NULL)
        [] [Example.A_B] [] [] [] [] [],
     .mk "A".toList "Outer.A".toList "clash.proto".toList
        (DescriptorPtr.ptr "Outer".toList "clash.proto".toList DescriptorPtr.NULL)
        [] [Example.A__B] [] [] [] [] []]
    [] [] [] [] []

/-- The message `OuterProto.ProtoA.ProtoB` of "clash.proto". -/
def Example.nested_ProtoB : Descriptor :=
  .mk "ProtoB".toList "OuterProto.ProtoA.ProtoB".toList "clash.proto".toList
    (DescriptorPtr.ptr "ProtoA".toList "clash.proto".toList
      (DescriptorPtr.ptr "OuterProto".toList "clash.proto".toList DescriptorPtr.NULL))
    [] [] [] [] [] [] []

/-- The message `OuterProto_ProtoA.ProtoB` of "clash.proto". -/
def Example.flat_ProtoB : Descriptor :=
  .mk "ProtoB".toList "OuterProto_ProtoA.ProtoB".toList "clash.proto".toList
    (DescriptorPtr.ptr "OuterProto_ProtoA".toList "clash.proto".toList DescriptorPtr.NULL)
    [] [] [] [] [] [] []

/-- The file "clash.proto" with the four shapes. -/
def Example.clash_file : FileDescriptor :=
  { name := "clash.proto".toList, syntax_ := Syntax.SYNTAX_PROTO2, dependency := [],
    public_dependency := [],
    message_type :=
      [Example.clash_Outer,
       .mk "OuterProto".toList "OuterProto".toList "clash.proto".toList DescriptorPtr.NULL []
         [.mk "ProtoA".toList "OuterProto.ProtoA".toList "clash.proto".toList
            (DescriptorPtr.ptr "OuterProto".toList "clash.proto".toList DescriptorPtr.NULL)
            [] [Example.nested_ProtoB] [] [] [] [] []]
         [] [] [] [] [],
       .mk "OuterProto_ProtoA".toList "OuterProto_ProtoA".toList "clash.proto".toList
         DescriptorPtr.NULL [] [Example.flat_ProtoB] [] [] [] [] []],
    enum_type := [], service := [], extension := [], options := [], serialized := [] }

/-- The file "a/b.proto", with the content of "point.proto". -/
def Example.path_file : FileDescriptor :=
  { Example.point_file with name := "a/b.proto".toList }

/-! ## Vocabulary of the statements on the order of the output -/

/-- The template text of a call of `Print`; `none` for `Indent` and `Outdent`. -/
def call_text : PrinterCall → Option Str
  | .Print _ text => some text
  | _ => none

/-- Every `Print` of the list has its template text in `T`. -/
def TextsIn (T : List Str) (l : List PrinterCall) : Prop :=
  ∀ c ∈ l, ∀ t, call_text c = some t → t ∈ T

/-- The template of the statement that `PrintDescriptorOptionsFixingCode` prints. -/
def option_statement_text : Str :=
  "$descriptor$.has_options = True\n$descriptor$._options = $options$\n".toList

/-- The template that opens the record of a service (line 337). -/
def service_open_text : Str :=
  "        \x7b \"cname\": \"$name$\", \"cdecls\": [\n".toList

/-- The text that closes the record of a service (line 362). -/
def service_close_text : Str :=
  "            ]\n        \x7d\n".toList

/-- The template texts of the calls that `Generate` makes up to and including the
opener of the interfaces array (lines 279-325). -/
def globaldecls_texts : List Str :=
  [globaldecls_open_text, " ".toList, ",".toList,
   "$statement$ as $alias$\n".toList, "$alias$ = $copy_from$.$alias$\n".toList,
   "from $module$ import *\n".toList,
   "KKLK".toList, enum_open_text, "\"$name$\"".toList, enum_close_text,
   "$name$ = enum_type_wrapper.EnumTypeWrapper($descriptor_name$)".toList,
   "$name$ = $value$\n".toList,
   "KMMM".toList, "$constant_name$ = $number$\n".toList, "$name$ = ".toList,
   field_record_text, struct_open_text, struct_close_text,
   "extension_ranges=[".toList, "($start$, $end$), ".toList, "],".toList,
   "oneofs=[".toList, "OOD(name='$name$'),".toList,
   interfaces_open_text]

/-- The template texts of the calls that `Generate` makes after the options fix-up
pass (lines 327-364). -/
def interfaces_texts : List Str :=
  [" ".toList, ",".toList, service_open_text, method_record_text, service_close_text,
   interfaces_close_text]

/-- The call prints an option-assignment statement. -/
def is_option_statement (c : PrinterCall) : Prop :=
  call_text c = some option_statement_text

/-- The call prints a service record or a method record. -/
def is_interface_record (c : PrinterCall) : Prop :=
  call_text c = some service_open_text ∨ call_text c = some method_record_text

/-- The call prints an import line, or a part of an enum record, of an extension
record or of a message record. -/
def is_globaldecl_record (c : PrinterCall) : Prop :=
  ∃ t ∈ ["$statement$ as $alias$\n".toList, "$alias$ = $copy_from$.$alias$\n".toList,
      "from $module$ import *\n".toList, enum_open_text, "\"$name$\"".toList, enum_close_text,
      "$constant_name$ = $number$\n".toList, "$name$ = ".toList, field_record_text,
      struct_open_text, struct_close_text],
    call_text c = some t

/-- What a call contributes to the interfaces array: the opening of the record of
a service with its `cname`, a method record with its `dname` and the `ptype`
name of its parameter, or the closing of the record of a service. -/
inductive InterfaceEvent where
  | service (cname : Str)
  | method (dname ptype : Str)
  | service_end
  deriving DecidableEq

/-- The contribution of a call to the interfaces array, if any. -/
def interface_event : PrinterCall → Option InterfaceEvent
  | .Print vars text =>
    if text = service_open_text then
      (lookup_variable vars "name".toList).map InterfaceEvent.service
    else if text = method_record_text then
      match lookup_variable vars "name".toList, lookup_variable vars "input_type".toList with
      | some dname, some ptype => some (InterfaceEvent.method dname ptype)
      | _, _ => none
    else if text = service_close_text then some InterfaceEvent.service_end
    else none
  | _ => none

/-- The interfaces array as the specification describes it: for each service, in
declared order, its record with one method record per method, in declared
order, each with the name of the method and the name of its input type. -/
def interfaces_as_stated (file : FileDescriptor) : List InterfaceEvent :=
  file.service.flatMap fun service =>
    [InterfaceEvent.service service.name] ++
      (service.method.map fun method =>
        InterfaceEvent.method method.name method.input_type.name) ++
      [InterfaceEvent.service_end]

/-- The file "point.proto" with an unknown syntax version. -/
def Example.unknown_syntax_file : FileDescriptor :=
  { Example.point_file with syntax_ := Syntax.SYNTAX_UNKNOWN }

/-- The descriptors that `FixOptionsForEnum` visits, in its order: the enum, then
its values; each with the name of its options class and its serialized
options. -/
def EnumDescriptor.option_targets (e : EnumDescriptor) : List (Str × Str) :=
  ("EnumOptions".toList, e.options) ::
    e.value.map fun v => ("EnumValueOptions".toList, v.options)

mutual
/-- The descriptors of a message in the order of the specification: its nested
messages (each in this same order), its own enums with their values, its own
fields, its own extensions, the message itself. -/
def Descriptor.option_targets : Descriptor → List (Str × Str)
  | .mk _ _ _ _ field nested_type enum_type extension _ _ options =>
    Descriptor.option_targets_list nested_type ++
      enum_type.flatMap EnumDescriptor.option_targets ++
      field.map (fun f => ("FieldOptions".toList, f.options)) ++
      extension.map (fun f => ("FieldOptions".toList, f.options)) ++
      [("MessageOptions".toList, options)]
/-- The descriptors of a list of messages, message after message. -/
def Descriptor.option_targets_list : List Descriptor → List (Str × Str)
  | [] => []
  | d :: rest => Descriptor.option_targets d ++ Descriptor.option_targets_list rest
end

/-- The descriptors of a file in the order of the specification: the file, each
top-level enum followed by its values, each top-level extension field, each
top-level message with what it holds. -/
def FileDescriptor.option_targets (file : FileDescriptor) : List (Str × Str) :=
  ("FileOptions".toList, file.options) ::
    (file.enum_type.flatMap EnumDescriptor.option_targets ++
      file.extension.map (fun f => ("FieldOptions".toList, f.options)) ++
      Descriptor.option_targets_list file.message_type)

mutual
/-- The fields and extensions that `FixOptionsForMessage` visits in a message and
below it. -/
def Descriptor.fixup_fields : Descriptor → List FieldDescriptor
  | .mk _ _ _ _ field nested_type _ extension _ _ _ =>
    Descriptor.fixup_fields_list nested_type ++ field ++ extension
/-- The fields and extensions visited in a list of messages. -/
def Descriptor.fixup_fields_list : List Descriptor → List FieldDescriptor
  | [] => []
  | d :: rest => Descriptor.fixup_fields d ++ Descriptor.fixup_fields_list rest
end

/-- The fields and extensions that the options fix-up pass visits in a file. -/
def FileDescriptor.fixup_fields (file : FileDescriptor) : List FieldDescriptor :=
  file.extension ++ Descriptor.fixup_fields_list file.message_type

/-- The deferred-parse expression for an options class and serialized options. -/
def parse_options_expression (class_name serialized_options : Str) : Str :=
  "_descriptor._ParseOptions(descriptor_pb2.".toList ++ class_name ++ "(), _b('".toList ++
    CEscape serialized_options ++ "'))".toList

/-- The options expression that a call assigns, when the call prints an
option-assignment statement; `none` for any other call. -/
def option_statement_options : PrinterCall → Option Str
  | .Print vars text =>
    if text = option_statement_text then lookup_variable vars "options".toList else none
  | _ => none

mutual
/-- The enums nested in a message at any depth, in the order in which
`PrintNestedEnums` prints them: those of the nested messages first, then its
own. -/
def Descriptor.all_enums : Descriptor → List EnumDescriptor
  | .mk _ _ _ _ _ nested_type enum_type _ _ _ _ =>
    Descriptor.all_enums_list nested_type ++ enum_type
/-- The enums nested in the messages of a list, message after message. -/
def Descriptor.all_enums_list : List Descriptor → List EnumDescriptor
  | [] => []
  | d :: rest => Descriptor.all_enums d ++ Descriptor.all_enums_list rest
end

/-- The name that a call gives to an Enum record: the value of `name` in a `Print`
with the template that carries the type "Enum"; `none` for every other call. -/
def enum_record_name : PrinterCall → Option Str
  | .Print vars text =>
    if text = enum_close_text then lookup_variable vars "name".toList else none
  | _ => none

/-- The resolved type name of a field: the name of the message type it refers to,
else the name of the enum type it refers to, else its primitive type name. -/
def FieldDescriptor.resolved_type_name (field : FieldDescriptor) : Str :=
  match field.message_type, field.enum_type with
  | some mt, _ => mt.name
  | none, some et => et.name
  | none, none => field.type_name

/-- A top-level enum `Top` of "nest.proto". -/
def Example.Top : EnumDescriptor :=
  { name := "Top".toList, file := "nest.proto".toList, containing_type := DescriptorPtr.NULL,
    value := [{ name := "T0".toList, index := 0, number := 0, options := [] }],
    options := [] }

/-- The file "nest.proto" with the top-level enum `Top` added. -/
def Example.enums_file : FileDescriptor :=
  { Example.nested_file with enum_type := [Example.Top] }

/-- A field named x of type int32 as `Example.int32_field`, but required, with
number 7, the explicit default 5 and options that are not empty. -/
def Example.other_x_field : FieldDescriptor :=
  { Example.int32_field "x".toList 3 7 with
    label := Label.LABEL_REQUIRED, has_default_value := true, default_value_int32 := 5,
    options := "\x10\x01".toList }

/-- A method `Get` of the service `Store`, whose input type is `Point`. -/
def Example.Get : MethodDescriptor :=
  { name := "Get".toList, full_name := "Store.Get".toList, index := 0,
    input_type := { name := "Point".toList, file := "point.proto".toList,
                    containing_type := DescriptorPtr.NULL },
    options := [] }

/-- The service `Store` with the methods `Get` and `Put`. -/
def Example.Store : ServiceDescriptor :=
  { name := "Store".toList, file := "point.proto".toList, index := 0,
    method := [Example.Get,
      { Example.Get with name := "Put".toList, full_name := "Store.Put".toList, index := 1 }],
    options := [] }

/-- The file "point.proto" with the service `Store` and file options. -/
def Example.service_file : FileDescriptor :=
  { Example.point_file with service := [Example.Store], options := "\n\x03foo".toList }

/-- The text that `Generate` writes for `Example.service_file`. -/
def Example.service_text : Str :=
  ("\x7b\n" ++
   "    \"globaldecls\": [\n" ++
   "          \x7b\n" ++
   "            \"dtype\": \"TypeDef\", \n" ++
   "            \"tdtype\": \x7b\n" ++
   "                \"elements\": [\n" ++
   "                       \x7b \"pname\": \"x\", \"ptype\": \x7b \"name\": \"int32\"\x7d \x7d\n" ++
   "  ,                    \x7b \"pname\": \"y\", \"ptype\": \x7b \"name\": \"int32\"\x7d \x7d\n" ++
   "                  ], \n" ++
   "                  \"name\": \"Point\", \n" ++
   "                  \"type\": \"Struct\"\n" ++
   "              \x7d, \n" ++
   "              \"tname\": \"Point\"\n" ++
   "        \x7d\n" ++
   "    ],\n" ++
   "    \"interfaces\": [\n" ++
   "DESCRIPTOR.has_options = True\n" ++
   "DESCRIPTOR._options = _descriptor._ParseOptions(descriptor_pb2.FileOptions(), _b('\\n\\003foo'))\n" ++
   "        \x7b \"cname\": \"Store\", \"cdecls\": [\n" ++
   "                  \x7b \"dname\": \"Get\", \"dparams\": [\n" ++
   "                      \x7b \"pname\": \"v\", \"ptype\": \x7b \"name\": \"Point\"\x7d \x7d]\n" ++
   "                  \x7d\n" ++
   "  ,               \x7b \"dname\": \"Put\", \"dparams\": [\n" ++
   "                      \x7b \"pname\": \"v\", \"ptype\": \x7b \"name\": \"Point\"\x7d \x7d]\n" ++
   "                  \x7d\n" ++
   "            ]\n" ++
   "        \x7d\n" ++
   "    ]\n" ++
   "\x7d\n").toList

/-- The file "nest.proto" with the top-level enum `Top`, where the file, the enum
`Top` and its value carry options that are not empty. -/
def Example.annotated_file : FileDescriptor :=
  { Example.nested_file with
    enum_type :=
      [{ Example.Top with
         value := [{ name := "T0".toList, index := 0, number := 0, options := "\x08\x01".toList }],
         options := "\x10\x01".toList }],
    options := "\n\x03foo".toList }

/-- The text of a field record with the given `pname` and `ptype` name. -/
def field_record_of (pname ptype : Str) : Str :=
  "                    \x7b \"pname\": \"".toList ++ pname ++
    "\", \"ptype\": \x7b \"name\": \"".toList ++ ptype ++ "\"\x7d \x7d\n".toList

/-- A field of declared type enum that refers to the enum `Kind`. -/
def Example.enum_field : FieldDescriptor :=
  { Example.int32_field "k".toList 0 1 with
    type := FieldType.TYPE_ENUM,
    enum_type := some Example.Kind.toDescriptorT }

/-- A top-level message `Foo` of "point.proto", as the name templates read it. -/
def Example.Foo : DescriptorT :=
  { name := "Foo".toList, file := "point.proto".toList, containing_type := DescriptorPtr.NULL }

/-- A top-level message `FOO` of "point.proto", as the name templates read it. -/
def Example.FOO : DescriptorT :=
  { name := "FOO".toList, file := "point.proto".toList, containing_type := DescriptorPtr.NULL }

mutual
/-- The messages of the subtree of a message, each with the names of its ancestors
(outermost first): the messages nested in it first, then the message. -/
def Descriptor.subtree (ancestors : List Str) : Descriptor → List (List Str × Descriptor)
  | .mk name full_name file containing_type field nested_type enum_type extension
      extension_range oneof_decl options =>
    Descriptor.subtree_list (ancestors ++ [name]) nested_type ++
      [(ancestors, .mk name full_name file containing_type field nested_type enum_type
        extension extension_range oneof_decl options)]
/-- The messages of the subtrees of a list of messages that have the given
ancestors, subtree after subtree. -/
def Descriptor.subtree_list (ancestors : List Str) :
    List Descriptor → List (List Str × Descriptor)
  | [] => []
  | d :: rest => Descriptor.subtree ancestors d ++ Descriptor.subtree_list ancestors rest
end

/-- All messages of a file, at any depth, each with the names of its ancestors. -/
def FileDescriptor.all_messages (file : FileDescriptor) : List (List Str × Descriptor) :=
  Descriptor.subtree_list [] file.message_type

/-- The message is not named "Empty" and has no ancestor named "Empty". -/
def outside_Empty (x : List Str × Descriptor) : Bool :=
  !named_Empty x.2.name && x.1.all fun a => !named_Empty a

/-- The records of a list, each after a comma and the given number of blank
separators. -/
def comma_records (items : List (Nat × List PrinterCall)) : List PrinterCall :=
  items.flatMap fun x =>
    [Print0 ",".toList] ++ List.replicate x.1 (Print0 " ".toList) ++ x.2

/-- A well-formed list of records: the first record after blank separators only,
every later record after exactly one comma and blank separators.  Each item
is a record with the number of blank separators printed before it. -/
def separated_records : List (Nat × List PrinterCall) → List PrinterCall
  | [] => []
  | x :: rest => List.replicate x.1 (Print0 " ".toList) ++ x.2 ++ comma_records rest

/-- The Struct record of a message without extension ranges and without oneofs:
the opening, the field records with their separators, the closing. -/
def plain_struct_record (fmt : FloatFormat) (file_ : FileDescriptor) (d : Descriptor) :
    List PrinterCall :=
  [.Print (PrintDescriptor.m d.name d.full_name) struct_open_text, .Indent] ++
    PrintDescriptor.fields fmt file_ d.field " ".toList ++
    [.Print (PrintDescriptor.m d.name d.full_name) struct_close_text, .Outdent]

/-- One more blank separator before the first record. -/
def one_more_blank : List (Nat × List PrinterCall) → List (Nat × List PrinterCall)
  | [] => []
  | x :: rest => (x.1 + 1, x.2) :: rest

/-- The message `Outer.Inner` without its enum. -/
def Example.plain_Inner : Descriptor :=
  .mk "Inner".toList "Outer.Inner".toList "nest.proto".toList
    (DescriptorPtr.ptr "Outer".toList "nest.proto".toList DescriptorPtr.NULL)
    [] [] [] [] [] [] []

/-- The message `Outer.Plain`, with one int32 field. -/
def Example.Plain : Descriptor :=
  .mk "Plain".toList "Outer.Plain".toList "nest.proto".toList
    (DescriptorPtr.ptr "Outer".toList "nest.proto".toList DescriptorPtr.NULL)
    [Example.int32_field "x".toList 0 1] [] [] [] [] [] []

/-- The file "nest.proto" without enum: the top-level messages `Empty` and `Outer`,
the latter with the nested messages `Empty` (which holds `Hidden`), `Plain`
and `Inner`. -/
def Example.plain_file : FileDescriptor :=
  { Example.nested_file with
    message_type := [Example.top_Empty,
      .mk "Outer".toList "Outer".toList "nest.proto".toList DescriptorPtr.NULL
        [] [Example.nested_Empty, Example.Plain, Example.plain_Inner] [] [] [] [] []] }

/-- The text that `Generate` writes for `Example.plain_file`. -/
def Example.plain_text : Str :=
  ("\x7b\n" ++
   "    \"globaldecls\": [\n" ++
   "           \x7b\n" ++
   "            \"dtype\": \"TypeDef\", \n" ++
   "            \"tdtype\": \x7b\n" ++
   "                \"elements\": [\n" ++
   "                       \x7b \"pname\": \"x\", \"ptype\": \x7b \"name\": \"int32\"\x7d \x7d\n" ++
   "                  ], \n" ++
   "                  \"name\": \"Plain\", \n" ++
   "                  \"type\": \"Struct\"\n" ++
   "              \x7d, \n" ++
   "              \"tname\": \"Plain\"\n" ++
   "        \x7d\n" ++
   ",         \x7b\n" ++
   "            \"dtype\": \"TypeDef\", \n" ++
   "            \"tdtype\": \x7b\n" ++
   "                \"elements\": [\n" ++
   "                  ], \n" ++
   "                  \"name\": \"Inner\", \n" ++
   "                  \"type\": \"Struct\"\n" ++
   "              \x7d, \n" ++
   "              \"tname\": \"Inner\"\n" ++
   "        \x7d\n" ++
   ",        \x7b\n" ++
   "            \"dtype\": \"TypeDef\", \n" ++
   "            \"tdtype\": \x7b\n" ++
   "                \"elements\": [\n" ++
   "                  ], \n" ++
   "                  \"name\": \"Outer\", \n" ++
   "                  \"type\": \"Struct\"\n" ++
   "              \x7d, \n" ++
   "              \"tname\": \"Outer\"\n" ++
   "        \x7d\n" ++
   "    ],\n" ++
   "    \"interfaces\": [\n" ++
   "    ]\n" ++
   "\x7d\n").toList

/-- What a call of the definition of a message contributes: a field record with its
`pname` and `ptype` name, an extension range pair with its two integers, or a
oneof record with its name. -/
inductive DefinitionEvent where
  | field (pname ptype : Str)
  | range (start end_ : Str)
  | oneof (name : Str)
  deriving DecidableEq

/-- The template of an extension range pair (line 486). -/
def extension_range_text : Str := "($start$, $end$), ".toList

/-- The template of a oneof record (line 499). -/
def oneof_record_text : Str := "OOD(name='$name$'),".toList

/-- The event of a call, read off its template and the variables that the template
refers to; `none` for a call that prints none of the three records. -/
def definition_event : PrinterCall → Option DefinitionEvent
  | .Print vars text =>
    if text = field_record_text then
      match lookup_variable vars "name".toList, lookup_variable vars "cpp_type".toList with
      | some pname, some ptype => some (DefinitionEvent.field pname ptype)
      | _, _ => none
    else if text = extension_range_text then
      match lookup_variable vars "start".toList, lookup_variable vars "end".toList with
      | some start, some end_ => some (DefinitionEvent.range start end_)
      | _, _ => none
    else if text = oneof_record_text then
      (lookup_variable vars "name".toList).map DefinitionEvent.oneof
    else none
  | _ => none

/-- A message `M` with one extension range and the oneof `kind` of the given index. -/
def Example.oneof_message (index : Nat) : Descriptor :=
  .mk "M".toList "M".toList "point.proto".toList DescriptorPtr.NULL
    [Example.int32_field "x".toList 0 1] [] [] []
    [{ start := 100, end_ := 200 }]
    [{ name := "kind".toList, full_name := "M.kind".toList, index := index }] []

/-- A printer without indentation that stands at the start of a line, after the
given text. -/
def Printer.at_line_start (text : Str) : Printer :=
  { buffer := text, indent_ := [], at_start_of_line_ := true }

/-- The call of `PrintImports` that prints the import line of a dependency. -/
def dependency_line_call (filename : Str) : PrinterCall :=
  .Print [("statement".toList, ModuleImportStatement filename),
      ("alias".toList, ModuleAlias filename)] "$statement$ as $alias$\n".toList

/-- The call of `CopyPublicDependenciesAliases` that prints the line
`alias = copy_from.alias`. -/
def alias_copy_call (copy_from module_alias : Str) : PrinterCall :=
  .Print [("alias".toList, module_alias), ("copy_from".toList, copy_from)]
    "$alias$ = $copy_from$.$alias$\n".toList

/-- The call of `PrintImports` that prints the wildcard line of a public
dependency. -/
def wildcard_call (filename : Str) : PrinterCall :=
  .Print [("module".toList, ModuleName filename)] "from $module$ import *\n".toList

/-- The line `alias = copy_from.alias`. -/
def alias_copy_line (copy_from module_alias : Str) : Str :=
  module_alias ++ " = ".toList ++ copy_from ++ ".".toList ++ module_alias ++ "\n".toList

/-- The text that a call writes on a printer without indentation at the start of a
line. -/
def call_line (c : PrinterCall) : Str :=
  ((Printer.at_line_start []).step c).buffer

mutual
/-- The non-empty public-dependency paths that start at a file, each as the names of
the files after it, in depth-first pre-order. -/
def ImportedFile.public_paths : ImportedFile → List (List Str)
  | .mk _ public_dependency => ImportedFile.public_paths_list public_dependency
/-- The non-empty public-dependency paths through the files of a list, file after
file: the path to the file, then the paths through it. -/
def ImportedFile.public_paths_list : List ImportedFile → List (List Str)
  | [] => []
  | .mk name public_dependency :: rest =>
    ([name] :: (ImportedFile.public_paths (.mk name public_dependency)).map
        (fun p => name :: p)) ++
      ImportedFile.public_paths_list rest
end

/-- The file "c.proto", without public dependency. -/
def Example.imported_c : ImportedFile := .mk "c.proto".toList []

/-- The file "b.proto", which publicly depends on "c.proto". -/
def Example.imported_b : ImportedFile := .mk "b.proto".toList [Example.imported_c]

/-- The file "dir/a.proto", which publicly depends on "b.proto" and on "c.proto". -/
def Example.imported_a : ImportedFile :=
  .mk "dir/a.proto".toList [Example.imported_b, Example.imported_c]

/-- The file "main.proto", which depends on "dir/a.proto" and publicly on
"c.proto". -/
def Example.importing_file : FileDescriptor :=
  { Example.point_file with
    name := "main.proto".toList, dependency := [Example.imported_a, Example.imported_c],
    public_dependency := [Example.imported_c] }

/-- The public dependencies of the files of a descriptor pool: for every file, given
by its name, the names of its public dependencies in declared order. -/
structure FilePool where
  public_dependency : Str → List Str

/-- The list `p` is a public-dependency path that starts at `file`: its first file is a
public dependency of `file`, and every later one of the file before it. -/
def FilePool.IsPath (pool : FilePool) (file : Str) (p : List Str) : Prop :=
  List.Chain (fun a b => b ∈ pool.public_dependency a) file p

/-- The non-empty public-dependency paths of at most `n` steps that start at a file,
in depth-first pre-order: for each public dependency in declared order, the
path to it, then the paths through it. -/
def FilePool.paths (pool : FilePool) : Nat → Str → List (List Str)
  | 0, _ => []
  | n + 1, file =>
    (pool.public_dependency file).flatMap fun d =>
      [d] :: (pool.paths n d).map fun p => d :: p

/-- The file of the given name with its public dependencies unfolded `n` levels
deep. -/
def FilePool.tree (pool : FilePool) : Nat → Str → ImportedFile
  | 0, file => .mk file []
  | n + 1, file => .mk file ((pool.public_dependency file).map (pool.tree n))

/-- The loop of `CopyPublicDependenciesAliases` over the public dependencies of a file
of a pool; `call` is the recursive call. -/
def CopyPublicDependenciesAliases.pool_loop (copy_from : Str)
    (call : Str → Option (List PrinterCall)) : List Str → Option (List PrinterCall)
  | [] => some []
  | dependency :: rest =>
    let module_alias := ModuleAlias dependency
    match call dependency with
    | none => none
    | some p1 =>
      match CopyPublicDependenciesAliases.pool_loop copy_from call rest with
      | none => none
      | some p2 =>
        some ([PrinterCall.Print [("alias".toList, module_alias),
            ("copy_from".toList, copy_from)] "$alias$ = $copy_from$.$alias$\n".toList] ++
          p1 ++ p2)

/-- `Generator::CopyPublicDependenciesAliases` on the files of a pool, where the
public dependencies may form any graph: `fuel` bounds the depth of the
recursion, and `none` says that the bound was reached before the call
returned. -/
def CopyPublicDependenciesAliases.on_pool (pool : FilePool) (copy_from : Str) :
    Nat → Str → Option (List PrinterCall)
  | 0, _ => none
  | fuel + 1, file =>
    CopyPublicDependenciesAliases.pool_loop copy_from
      (CopyPublicDependenciesAliases.on_pool pool copy_from fuel) (pool.public_dependency file)

/-- A pool in which "a.proto" publicly depends on "b.proto" and "c.proto", and both
of these on "d.proto". -/
def Example.diamond_pool : FilePool :=
  { public_dependency := fun file =>
      if file = "a.proto".toList then ["b.proto".toList, "c.proto".toList]
      else if file = "b.proto".toList then ["d.proto".toList]
      else if file = "c.proto".toList then ["d.proto".toList]
      else [] }

/-- A pool in which "a.proto" publicly depends on itself. -/
def Example.cyclic_pool : FilePool :=
  { public_dependency := fun file => if file = "a.proto".toList then ["a.proto".toList] else [] }

/-- The name that a call gives to a value of an Enum record: the value of `name` in a
`Print` with the template of a value; `none` for every other call. -/
def enum_value_name : PrinterCall → Option Str
  | .Print vars text =>
    if text = "\"$name$\"".toList then lookup_variable vars "name".toList else none
  | _ => none

/-- The text that `Generate` writes for "nest.proto". -/
def Example.nested_text : Str :=
  ("\x7b\n" ++
   "    \"globaldecls\": [\n" ++
   "        \x7b \"dtype\": \"TypeDef\", \"tname\": \"Kind\",\n" ++
   "            \"tdtype\": \x7b\n" ++
   "                \"elements\": [ \"A\",\"B\" ], \n" ++
   "                \"name\": \"Kind\", \n" ++
   "                \"type\": \"Enum\"\n" ++
   "            \x7d\n" ++
   "        \x7d\n" ++
   ",          \x7b\n" ++
   "            \"dtype\": \"TypeDef\", \n" ++
   "            \"tdtype\": \x7b\n" ++
   "                \"elements\": [\n" ++
   "                  ], \n" ++
   "                  \"name\": \"Inner\", \n" ++
   "                  \"type\": \"Struct\"\n" ++
   "              \x7d, \n" ++
   "              \"tname\": \"Inner\"\n" ++
   "        \x7d\n" ++
   ",        \x7b\n" ++
   "            \"dtype\": \"TypeDef\", \n" ++
   "            \"tdtype\": \x7b\n" ++
   "                \"elements\": [\n" ++
   "                  ], \n" ++
   "                  \"name\": \"Outer\", \n" ++
   "                  \"type\": \"Struct\"\n" ++
   "              \x7d, \n" ++
   "              \"tname\": \"Outer\"\n" ++
   "        \x7d\n" ++
   "    ],\n" ++
   "    \"interfaces\": [\n" ++
   "    ]\n" ++
   "\x7d\n").toList

/-- A descriptor as the options fix-up pass addresses it: the expression that refers
to the descriptor in the output, the name of its options class, and its
serialized options. -/
structure OptionTarget where
  descriptor : Str
  class_name : Str
  options : Str

/-- The option-assignment statement that a call prints: the expression of the
descriptor that the statement assigns to and the options expression that it
assigns; `none` for any other call. -/
def option_statement : PrinterCall → Option (Str × Str)
  | .Print vars text =>
    if text = option_statement_text then
      match lookup_variable vars "descriptor".toList, lookup_variable vars "options".toList with
      | some descriptor, some options => some (descriptor, options)
      | _, _ => none
    else none
  | _ => none

/-- An enum and then its values, as the fix-up pass addresses them: the enum by its
module-level name, a value by its name in `values_by_name` of the enum. -/
def EnumDescriptor.fixup_targets (file_ : FileDescriptor) (e : EnumDescriptor) :
    List OptionTarget :=
  { descriptor := ModuleLevelDescriptorName file_ e.toDescriptorT,
    class_name := "EnumOptions".toList, options := e.options } ::
    e.value.map fun v =>
      { descriptor := c_str (ModuleLevelDescriptorName file_ e.toDescriptorT) ++
          ".values_by_name[\"".toList ++ c_str v.name ++ "\"]".toList,
        class_name := "EnumValueOptions".toList, options := v.options }

/-- A field or an extension as the fix-up pass addresses it: by its name when no
message holds it (an extension at the top level of the file), else by its
name in `fields_by_name`, for an extension in `extensions_by_name`, of the
message that holds it (the extension scope of an extension, the containing
type of a field). -/
def FieldDescriptor.fixup_target (file_ : FileDescriptor) (f : FieldDescriptor) :
    OptionTarget :=
  { descriptor :=
      match (if f.is_extension then f.extension_scope else f.containing_type) with
      | .NULL => f.name
      | .ptr name file outer =>
        ModuleLevelDescriptorName file_ { name := name, file := file, containing_type := outer } ++
          ".".toList ++
          (if f.is_extension then "extensions_by_name".toList else "fields_by_name".toList) ++
          "['".toList ++ f.name ++ "']".toList
    class_name := "FieldOptions".toList
    options := f.options }

mutual
/-- The descriptors of a message in the order of the specification, as the fix-up
pass addresses them: its nested messages (each in this same order), its own
enums with their values, its own fields, its own extensions, the message
itself by its module-level name. -/
def Descriptor.fixup_targets (file_ : FileDescriptor) : Descriptor → List OptionTarget
  | .mk name _ file containing_type field nested_type enum_type extension _ _ options =>
    Descriptor.fixup_targets_list file_ nested_type ++
      enum_type.flatMap (EnumDescriptor.fixup_targets file_) ++
      field.map (FieldDescriptor.fixup_target file_) ++
      extension.map (FieldDescriptor.fixup_target file_) ++
      [{ descriptor := ModuleLevelDescriptorName file_
           { name := name, file := file, containing_type := containing_type },
         class_name := "MessageOptions".toList, options := options }]
/-- The descriptors of a list of messages, message after message. -/
def Descriptor.fixup_targets_list (file_ : FileDescriptor) :
    List Descriptor → List OptionTarget
  | [] => []
  | d :: rest => Descriptor.fixup_targets file_ d ++ Descriptor.fixup_targets_list file_ rest
end

/-- The descriptors of a file in the order of the specification, as the fix-up pass
addresses them: the file by `DESCRIPTOR`, each top-level enum followed by its
values, each top-level extension, each top-level message with what it
holds. -/
def FileDescriptor.fixup_targets (file : FileDescriptor) : List OptionTarget :=
  { descriptor := "DESCRIPTOR".toList, class_name := "FileOptions".toList,
    options := file.options } ::
    (file.enum_type.flatMap (EnumDescriptor.fixup_targets file) ++
      file.extension.map (FieldDescriptor.fixup_target file) ++
      Descriptor.fixup_targets_list file file.message_type)

/-- The statement of a descriptor with options: its expression and the deferred-parse
expression of its options. -/
def OptionTarget.statement (t : OptionTarget) : Str × Str :=
  (t.descriptor, parse_options_expression t.class_name t.options)

/-- The message `Msg.In` of "opt.proto", with message options. -/
def Example.opt_In : Descriptor :=
  .mk "In".toList "Msg.In".toList "opt.proto".toList
    (DescriptorPtr.ptr "Msg".toList "opt.proto".toList DescriptorPtr.NULL)
    [] [] [] [] [] [] "\x08\x01".toList

/-- A field of the message `Msg` of "opt.proto". -/
def Example.opt_field (name options : Str) (index : Nat) : FieldDescriptor :=
  { Example.int32_field name index (index + 1) with
    full_name := "Msg.".toList ++ name, file := "opt.proto".toList,
    containing_type := DescriptorPtr.ptr "Msg".toList "opt.proto".toList DescriptorPtr.NULL,
    options := options }

/-- The file "opt.proto": file options; the enum `Color` with options, whose value
RED has options and whose value BLUE has none; the top-level extension `ext`
with options; the message `Msg` with options, which holds the message `In`
with options, the field x with options and the field y without. -/
def Example.optioned_file : FileDescriptor :=
  { name := "opt.proto".toList, syntax_ := Syntax.SYNTAX_PROTO2, dependency := [],
    public_dependency := [],
    message_type :=
      [.mk "Msg".toList "Msg".toList "opt.proto".toList DescriptorPtr.NULL
        [Example.opt_field "x".toList "\x10\x01".toList 0,
         Example.opt_field "y".toList [] 1]
        [Example.opt_In] [] [] [] [] "\x08\x01".toList],
    enum_type :=
      [{ name := "Color".toList, file := "opt.proto".toList,
         containing_type := DescriptorPtr.NULL,
         value := [{ name := "RED".toList, index := 0, number := 0,
                     options := "\x08\x01".toList },
                   { name := "BLUE".toList, index := 1, number := 1, options := [] }],
         options := "\x10\x01".toList }],
    service := [],
    extension :=
      [{ Example.opt_field "ext".toList "\x10\x01".toList 0 with
         full_name := "ext".toList, is_extension := true,
         extension_scope := DescriptorPtr.NULL }],
    options := "\n\x03foo".toList, serialized := [] }

/-! # Theorems -/

/-! ## Name resolver -/

theorem GlobalReplaceSubstring.scan_single (p : Char) (r s : Str) :
    GlobalReplaceSubstring.scan [p] r 0 s = s.flatMap fun c => if c = p then r else [c] := by
  induction s with
  | nil => rfl
  | cons c t ih =>
    by_cases h : c = p
    · subst h
      simp [GlobalReplaceSubstring.scan, List.isPrefixOf, ih]
    · have h2 : ¬ p = c := fun e => h e.symm
      simp [GlobalReplaceSubstring.scan, List.isPrefixOf, ih, h, h2]

theorem GlobalReplaceSubstring_single (p : Char) (r s : Str) :
    GlobalReplaceSubstring [p] r s = s.flatMap fun c => if c = p then r else [c] := by
  cases s with
  | nil => rfl
  | cons c t =>
    simp only [GlobalReplaceSubstring, List.isEmpty_cons, Bool.or_self, Bool.false_eq_true,
      if_false]
    exact GlobalReplaceSubstring.scan_single p r (c :: t)

theorem ModuleAlias.rewrite_nil : ModuleAlias.rewrite [] = [] := rfl

theorem ModuleAlias.rewrite_cons (c : Char) (t : Str) :
    ModuleAlias.rewrite (c :: t) = ModuleAlias.code c ++ ModuleAlias.rewrite t := by
  have e1 : "_".toList = ['_'] := rfl
  have e2 : ".".toList = ['.'] := rfl
  simp only [ModuleAlias.rewrite, e1, e2, GlobalReplaceSubstring_single, ModuleAlias.code]
  by_cases h1 : c = '_'
  · subst h1
    simp [List.flatMap_cons, List.flatMap_append]
  · by_cases h2 : c = '.'
    · subst h2
      simp [List.flatMap_cons, List.flatMap_append]
    · simp [List.flatMap_cons, List.flatMap_append, h1, h2]

/-- The codes of `ModuleAlias.code` form a prefix code: no code word is a prefix of
another one followed by anything. -/
theorem ModuleAlias.code_prefix_free (a b : Char) (x y : Str)
    (h : ModuleAlias.code a ++ x = ModuleAlias.code b ++ y) : a = b ∧ x = y := by
  unfold ModuleAlias.code at h
  by_cases a1 : a = '_' <;> by_cases b1 : b = '_' <;>
    by_cases a2 : a = '.' <;> by_cases b2 : b = '.' <;>
    simp_all [String.toList]
  all_goals exact absurd h.1.symm b1

/-- C1. Alias injectivity: the rewriting that `ModuleAlias` applies to a module
name (every underscore doubled, then every dot replaced by "_dot_") sends two
distinct module names to two distinct aliases. -/
theorem C1_ModuleAlias_rewrite_injective (A B : Str) (h : A ≠ B) :
    ModuleAlias.rewrite A ≠ ModuleAlias.rewrite B := by
  intro e
  apply h
  clear h
  induction A generalizing B with
  | nil =>
    cases B with
    | nil => rfl
    | cons b bs =>
      rw [ModuleAlias.rewrite_nil, ModuleAlias.rewrite_cons] at e
      have : (ModuleAlias.code b ++ ModuleAlias.rewrite bs).length = 0 := by rw [← e]; rfl
      unfold ModuleAlias.code at this
      split_ifs at this <;> simp at this
  | cons a as ih =>
    cases B with
    | nil =>
      rw [ModuleAlias.rewrite_nil, ModuleAlias.rewrite_cons] at e
      have : (ModuleAlias.code a ++ ModuleAlias.rewrite as).length = 0 := by rw [e]; rfl
      unfold ModuleAlias.code at this
      split_ifs at this <;> simp at this
    | cons b bs =>
      rw [ModuleAlias.rewrite_cons, ModuleAlias.rewrite_cons] at e
      obtain ⟨hab, hrest⟩ := ModuleAlias.code_prefix_free a b _ _ e
      rw [hab, ih bs hrest]

/-- Witness of C1 at the module names "a.b_pb" and "a_dot_b_pb". -/
theorem C1_ModuleAlias_rewrite_injective_witness :
    "a.b_pb".toList ≠ "a_dot_b_pb".toList ∧
      ModuleAlias.rewrite "a.b_pb".toList ≠ ModuleAlias.rewrite "a_dot_b_pb".toList :=
  ⟨by decide, C1_ModuleAlias_rewrite_injective _ _ (by decide)⟩

/-! ## Default value encoder and options serializer -/
theorem double_nan_not_infinity (v : Nat) (h : double_is_nan v = true) :
    v ≠ double_infinity ∧ v ≠ double_neg_infinity := by
  constructor <;> intro e <;> subst e <;> revert h <;> decide

theorem float_nan_not_infinity (v : Nat) (h : float_is_nan v = true) :
    v ≠ float_infinity ∧ v ≠ float_neg_infinity := by
  constructor <;> intro e <;> subst e <;> revert h <;> decide
/-- C7. For a non-repeated field of category double or float, `StringifyDefaultValue`
returns "1e10000" when the default is plus infinity, the same expression with
a minus sign in front when it is minus infinity, and "(1e10000 * 0)" when it
is a NaN; a zero default is written by `SimpleDtoa` or `SimpleFtoa`, whose zero
literal is "0", and the three encodings "0", "1e10000" and "(1e10000 * 0)" are
pairwise distinct. -/
theorem C7_StringifyDefaultValue_infinity_nan (fmt : FloatFormat) (field : FieldDescriptor)
    (hrep : field.label ≠ Label.LABEL_REPEATED) :
    (has_fp_default field double_infinity float_infinity →
        StringifyDefaultValue fmt field = "1e10000".toList) ∧
      (has_fp_default field double_neg_infinity float_neg_infinity →
        StringifyDefaultValue fmt field = '-' :: "1e10000".toList) ∧
      (has_nan_default field → StringifyDefaultValue fmt field = "(1e10000 * 0)".toList) ∧
      (has_fp_default field 0 0 → fmt.SimpleDtoa 0 = "0".toList →
        fmt.SimpleFtoa 0 = "0".toList → StringifyDefaultValue fmt field = "0".toList) ∧
      "0".toList ≠ "1e10000".toList ∧ "0".toList ≠ "(1e10000 * 0)".toList ∧
      "1e10000".toList ≠ "(1e10000 * 0)".toList := by
  have hr : field.is_repeated = false := by simp [FieldDescriptor.is_repeated, hrep]
  refine ⟨?_, ?_, ?_, ?_, by decide, by decide, by decide⟩
  · rintro (⟨hc, hv⟩ | ⟨hc, hv⟩)
    · simp only [StringifyDefaultValue, hr, hc, hv, if_true, Bool.false_eq_true, if_false]
    · simp only [StringifyDefaultValue, hr, hc, hv, if_true, Bool.false_eq_true, if_false]
  · rintro (⟨hc, hv⟩ | ⟨hc, hv⟩)
    · simp only [StringifyDefaultValue, hr, hc, hv, Bool.false_eq_true, if_false]
      rfl
    · simp only [StringifyDefaultValue, hr, hc, hv, Bool.false_eq_true, if_false]
      rfl
  · rintro (⟨hc, hv⟩ | ⟨hc, hv⟩)
    · obtain ⟨n1, n2⟩ := double_nan_not_infinity _ hv
      simp only [StringifyDefaultValue, hr, hc, hv, n1, n2, if_true, Bool.false_eq_true,
        if_false]
    · obtain ⟨n1, n2⟩ := float_nan_not_infinity _ hv
      simp only [StringifyDefaultValue, hr, hc, hv, n1, n2, if_true, Bool.false_eq_true,
        if_false]
  · rintro (⟨hc, hv⟩ | ⟨hc, hv⟩) hd hf
    · simp only [StringifyDefaultValue, hr, hc, hv, hd, Bool.false_eq_true, if_false]
      rfl
    · simp only [StringifyDefaultValue, hr, hc, hv, hf, Bool.false_eq_true, if_false]
      rfl
/-- Witness of C7: a non-repeated double field whose default is plus infinity. -/
theorem C7_StringifyDefaultValue_infinity_nan_witness :
    (Example.double_field double_infinity).label ≠ Label.LABEL_REPEATED ∧
      has_fp_default (Example.double_field double_infinity) double_infinity float_infinity ∧
      StringifyDefaultValue Example.fmt (Example.double_field double_infinity) =
        "1e10000".toList :=
  ⟨by decide, Or.inl ⟨rfl, rfl⟩,
    (C7_StringifyDefaultValue_infinity_nan Example.fmt (Example.double_field double_infinity)
      (by decide)).1 (Or.inl ⟨rfl, rfl⟩)⟩

/-- C8. For a field whose label is repeated, `StringifyDefaultValue` returns "[]",
whatever its type category and its declared default. -/
theorem C8_StringifyDefaultValue_repeated (fmt : FloatFormat) (field : FieldDescriptor)
    (h : field.label = Label.LABEL_REPEATED) :
    StringifyDefaultValue fmt field = "[]".toList := by
  simp [StringifyDefaultValue, FieldDescriptor.is_repeated, h]

/-- Witness of C8: a repeated field of message type gives "[]", not "None". -/
theorem C8_StringifyDefaultValue_repeated_witness :
    Example.repeated_message_field.label = Label.LABEL_REPEATED ∧
      Example.repeated_message_field.cpp_type = CppType.CPPTYPE_MESSAGE ∧
      StringifyDefaultValue Example.fmt Example.repeated_message_field = "[]".toList :=
  ⟨rfl, rfl, C8_StringifyDefaultValue_repeated Example.fmt Example.repeated_message_field rfl⟩

/-- C9. For a non-repeated field of category string with default `s`,
`StringifyDefaultValue` returns the escaped literal `_b("` ++ CEscape(s) ++ `")`,
followed by the marker `.decode('utf-8')` exactly when the declared type is
string; for a bytes field it is the escaped literal without the marker. -/
theorem C9_StringifyDefaultValue_string (fmt : FloatFormat) (field : FieldDescriptor)
    (hrep : field.label ≠ Label.LABEL_REPEATED)
    (hcat : field.cpp_type = CppType.CPPTYPE_STRING) :
    StringifyDefaultValue fmt field =
        "_b(\"".toList ++ CEscape field.default_value_string ++ "\")".toList ++
          (if field.type = FieldType.TYPE_STRING then ".decode('utf-8')".toList else []) ∧
      (field.type = FieldType.TYPE_BYTES →
        StringifyDefaultValue fmt field =
          "_b(\"".toList ++ CEscape field.default_value_string ++ "\")".toList) := by
  have hr : field.is_repeated = false := by simp [FieldDescriptor.is_repeated, hrep]
  have main : StringifyDefaultValue fmt field =
        "_b(\"".toList ++ CEscape field.default_value_string ++ "\")".toList ++
          (if field.type = FieldType.TYPE_STRING then ".decode('utf-8')".toList else []) := by
    simp only [StringifyDefaultValue, hr, hcat]
    by_cases ht : field.type = FieldType.TYPE_STRING
    · simp [ht]
    · simp [ht]
  refine ⟨main, fun hb => ?_⟩
  rw [main, hb]
  simp
/-- Witness of C9: a string field with the default "hi". -/
theorem C9_StringifyDefaultValue_string_witness :
    Example.string_field.label ≠ Label.LABEL_REPEATED ∧
      Example.string_field.cpp_type = CppType.CPPTYPE_STRING ∧
      StringifyDefaultValue Example.fmt Example.string_field =
        "_b(\"hi\").decode('utf-8')".toList :=
  ⟨by decide, rfl,
    (C9_StringifyDefaultValue_string Example.fmt Example.string_field (by decide) rfl).1⟩

/-- C10. `OptionsValue` returns "None" if and only if the serialized options are
empty or the file being generated is "google/protobuf/descriptor.proto";
otherwise it returns the deferred-parse expression that embeds the class name
and the escaped options, which is never "None". -/
theorem C10_OptionsValue (file_ : FileDescriptor) (c s : Str) :
    (OptionsValue file_ c s = "None".toList ↔
        s = [] ∨ file_.name = "google/protobuf/descriptor.proto".toList) ∧
      (¬ (s = [] ∨ file_.name = "google/protobuf/descriptor.proto".toList) →
        OptionsValue file_ c s =
            "_descriptor._ParseOptions(descriptor_pb2.".toList ++ c ++ "(), _b('".toList ++
              CEscape s ++ "'))".toList ∧
          OptionsValue file_ c s ≠ "None".toList) := by
  have key : ¬ (s = [] ∨ file_.name = "google/protobuf/descriptor.proto".toList) →
      OptionsValue file_ c s =
          "_descriptor._ParseOptions(descriptor_pb2.".toList ++ c ++ "(), _b('".toList ++
            CEscape s ++ "'))".toList ∧
        OptionsValue file_ c s ≠ "None".toList := by
    intro h
    have h1 : s ≠ [] := fun e => h (Or.inl e)
    have h2 : file_.name ≠ "google/protobuf/descriptor.proto".toList := fun e => h (Or.inr e)
    have e : OptionsValue file_ c s =
        "_descriptor._ParseOptions(descriptor_pb2.".toList ++ c ++ "(), _b('".toList ++
          CEscape s ++ "'))".toList := by
      simp [OptionsValue, GeneratingDescriptorProto, h1]
      exact h2
    refine ⟨e, ?_⟩
    rw [e]
    simp [String.toList]
  refine ⟨⟨fun h => ?_, fun h => ?_⟩, key⟩
  · by_contra hn
    exact (key hn).2 h
  · rcases h with h | h
    · simp [OptionsValue, h]
    · simp [OptionsValue, GeneratingDescriptorProto, h]

/-- Witness of C10: the file options "\n\x03foo" of "opts.proto". -/
theorem C10_OptionsValue_witness :
    ¬ (Example.options_file.options = [] ∨
        Example.options_file.name = "google/protobuf/descriptor.proto".toList) ∧
      OptionsValue Example.options_file "FileOptions".toList Example.options_file.options =
        "_descriptor._ParseOptions(descriptor_pb2.FileOptions(), _b('\\n\\003foo'))".toList :=
  ⟨by decide,
    ((C10_OptionsValue Example.options_file "FileOptions".toList
      Example.options_file.options).2 (by decide)).1⟩


/-! ## The shape of a run of `Generate` -/

/-- The calls of a run of `Generate` that returns, part by part. -/
theorem Generate_some (fmt : FloatFormat) (context : GeneratorContext) (g : Generator)
    (file : FileDescriptor) (r : GenerateResult) (h : Generate fmt context g file = some r) :
    ∃ fix, FixAllDescriptorOptions file = some fix ∧
      r.generator.printer_ =
        [Print0 globaldecls_open_text] ++ PrintImports file ++
        ((Generate.enum_types file file.enum_type " ".toList g.enum_separator).printer ++
          (Generate.enum_types file file.enum_type " ".toList
              g.enum_separator).top_level_enum_values.map fun v =>
            PrinterCall.Print [("name".toList, v.1), ("value".toList, SimpleItoa v.2)]
              "$name$ = $value$\n".toList) ++
        ((Generate.extensions fmt file file.extension
            (Generate.enum_types file file.enum_type " ".toList g.enum_separator).separator).1 ++
          (Generate.nested_enums file file.message_type " ".toList).printer ++
          Generate.message_types fmt file file.message_type
            (Generate.nested_enums file file.message_type " ".toList).enum_separator ++
          [Print0 interfaces_open_text]) ++
        fix ++ Generate.services file 0 file.service ++ [Print0 interfaces_close_text] := by
  unfold Generate at h
  simp only at h
  split at h
  · exact absurd h (by simp)
  · split at h
    · exact absurd h (by simp)
    · rename_i fix hfix
      refine ⟨fix, hfix, ?_⟩
      simp only [Option.some.injEq] at h
      rw [← h]

/-- A run of `Generate` returns when the sink opens the file and the options
fix-up pass passes its checks. -/
theorem Generate_isSome (fmt : FloatFormat) (context : GeneratorContext) (g : Generator)
    (file : FileDescriptor) (fix : List PrinterCall)
    (hopen : context.Open (StripString (ModuleName file.name) ".".toList '/' ++ ".json".toList)
      = true)
    (hfix : FixAllDescriptorOptions file = some fix) :
    ∃ r, Generate fmt context g file = some r := by
  unfold Generate
  simp only [hopen, hfix]
  exact ⟨_, rfl⟩

/-- The calls of a run of `Generate` that returns hold the records of the enums
nested in messages and, right after them, what the loop over the top-level
messages prints. -/
theorem Generate_some_messages (fmt : FloatFormat) (context : GeneratorContext)
    (g : Generator) (file : FileDescriptor) (r : GenerateResult)
    (h : Generate fmt context g file = some r) :
    ∃ P Q, r.generator.printer_ =
      P ++ (Generate.nested_enums file file.message_type " ".toList).printer ++
        Generate.message_types fmt file file.message_type
          (Generate.nested_enums file file.message_type " ".toList).enum_separator ++ Q := by
  obtain ⟨fix, -, hp⟩ := Generate_some fmt context g file r h
  refine ⟨[Print0 globaldecls_open_text] ++ PrintImports file ++
      ((Generate.enum_types file file.enum_type " ".toList g.enum_separator).printer ++
        (Generate.enum_types file file.enum_type " ".toList
            g.enum_separator).top_level_enum_values.map fun v =>
          PrinterCall.Print [("name".toList, v.1), ("value".toList, SimpleItoa v.2)]
            "$name$ = $value$\n".toList) ++
      (Generate.extensions fmt file file.extension
        (Generate.enum_types file file.enum_type " ".toList g.enum_separator).separator).1,
    [Print0 interfaces_open_text] ++ fix ++ Generate.services file 0 file.service ++
      [Print0 interfaces_close_text], ?_⟩
  rw [hp]
  simp only [List.append_assoc]

/-! ## Calls that close a Struct record -/

theorem NoStructRecord_nil : NoStructRecord [] := fun _ h => absurd h (List.not_mem_nil _)

theorem NoStructRecord_cons (c : PrinterCall) (l : List PrinterCall) :
    NoStructRecord (c :: l) ↔ struct_record_name c = none ∧ NoStructRecord l := by
  simp [NoStructRecord]

theorem NoStructRecord_append (a b : List PrinterCall) :
    NoStructRecord (a ++ b) ↔ NoStructRecord a ∧ NoStructRecord b := by
  simp [NoStructRecord, or_imp, forall_and]

theorem NoStructRecord_flatMap {α : Type} (l : List α) (f : α → List PrinterCall)
    (h : ∀ x ∈ l, NoStructRecord (f x)) : NoStructRecord (l.flatMap f) := by
  intro c hc
  obtain ⟨x, hx, hcx⟩ := List.mem_flatMap.mp hc
  exact h x hx c hcx

theorem NoEmptyRecord_nil : NoEmptyRecord [] := fun _ h => absurd h (List.not_mem_nil _)

theorem NoEmptyRecord_cons (c : PrinterCall) (l : List PrinterCall) :
    NoEmptyRecord (c :: l) ↔ struct_record_name c ≠ some "Empty".toList ∧ NoEmptyRecord l := by
  simp [NoEmptyRecord]

theorem NoEmptyRecord_append (a b : List PrinterCall) :
    NoEmptyRecord (a ++ b) ↔ NoEmptyRecord a ∧ NoEmptyRecord b := by
  simp [NoEmptyRecord, or_imp, forall_and]

theorem NoStructRecord.noEmpty {l : List PrinterCall} (h : NoStructRecord l) :
    NoEmptyRecord l := by
  intro c hc
  rw [h c hc]
  exact fun e => Option.noConfusion e

theorem srn_text (vars : List (Str × Str)) (text : Str) (h : text ≠ struct_close_text) :
    struct_record_name (.Print vars text) = none := by
  simp only [struct_record_name, h, if_false]

theorem srn_Print0 (text : Str) : struct_record_name (Print0 text) = none := by
  simp only [Print0, struct_record_name, lookup_variable, List.find?_nil]
  split <;> rfl

theorem srn_Indent : struct_record_name .Indent = none := rfl

theorem srn_Outdent : struct_record_name .Outdent = none := rfl

theorem PrintFieldDescriptor_noStruct (fmt : FloatFormat) (file_ : FileDescriptor)
    (field : FieldDescriptor) (b : Bool) : NoStructRecord (PrintFieldDescriptor fmt file_ field b) := by
  simp only [PrintFieldDescriptor, NoStructRecord_cons]
  exact ⟨srn_text _ _ (by decide), NoStructRecord_nil⟩

theorem PrintEnum.values_noStruct (file_ : FileDescriptor) (vs : List EnumValueDescriptor) (i : Nat) :
    NoStructRecord (PrintEnum.values file_ i vs) := by
  induction vs generalizing i with
  | nil => exact NoStructRecord_nil
  | cons v rest ih =>
    simp only [PrintEnum.values, NoStructRecord_append, NoStructRecord_cons]
    refine ⟨⟨?_, srn_text _ _ (by decide), NoStructRecord_nil⟩, ih _⟩
    split
    · simp only [NoStructRecord_cons]
      exact ⟨srn_text _ _ (by decide), NoStructRecord_nil⟩
    · exact NoStructRecord_nil

theorem PrintEnum_noStruct (file_ : FileDescriptor) (e : EnumDescriptor) :
    NoStructRecord (PrintEnum file_ e).printer := by
  simp only [PrintEnum, NoStructRecord_append, NoStructRecord_cons]
  exact ⟨⟨⟨srn_text _ _ (by decide), srn_Indent, NoStructRecord_nil⟩,
    PrintEnum.values_noStruct _ _ _⟩, srn_Outdent, srn_text _ _ (by decide), NoStructRecord_nil⟩

theorem PrintNestedEnums.enums_noStruct (file_ : FileDescriptor) (es : List EnumDescriptor)
    (sep : Str) : NoStructRecord (PrintNestedEnums.enums file_ es sep).printer := by
  induction es generalizing sep with
  | nil => exact NoStructRecord_nil
  | cons e rest ih =>
    simp only [PrintNestedEnums.enums, NoStructRecord_append]
    exact ⟨PrintEnum_noStruct _ _, ih _⟩

mutual
theorem PrintNestedEnums_noStruct (file_ : FileDescriptor) :
    ∀ (d : Descriptor) (sep : Str), NoStructRecord (PrintNestedEnums file_ d sep).printer
  | .mk _ _ _ _ _ nested_type enum_type _ _ _ _, sep => by
    simp only [PrintNestedEnums, NoStructRecord_append]
    exact ⟨PrintNestedEnums_nested_noStruct file_ nested_type sep,
      PrintNestedEnums.enums_noStruct _ _ _⟩
theorem PrintNestedEnums_nested_noStruct (file_ : FileDescriptor) :
    ∀ (ds : List Descriptor) (sep : Str),
      NoStructRecord (PrintNestedEnums.nested file_ ds sep).printer
  | [], _ => NoStructRecord_nil
  | d :: rest, sep => by
    simp only [PrintNestedEnums.nested, NoStructRecord_append]
    exact ⟨PrintNestedEnums_noStruct file_ d sep, PrintNestedEnums_nested_noStruct file_ rest _⟩
end

theorem Generate.nested_enums_noStruct (file_ : FileDescriptor) (ds : List Descriptor)
    (sep : Str) : NoStructRecord (Generate.nested_enums file_ ds sep).printer := by
  induction ds generalizing sep with
  | nil => exact NoStructRecord_nil
  | cons d rest ih =>
    simp only [Generate.nested_enums, NoStructRecord_append]
    exact ⟨PrintNestedEnums_noStruct _ _ _, ih _⟩

mutual
theorem CopyPublicDependenciesAliases_noStruct (copy_from : Str) :
    ∀ (f : ImportedFile), NoStructRecord (CopyPublicDependenciesAliases copy_from f)
  | .mk _ public_dependency => by
    simp only [CopyPublicDependenciesAliases]
    exact CopyPublicDependenciesAliases_loop_noStruct copy_from public_dependency
theorem CopyPublicDependenciesAliases_loop_noStruct (copy_from : Str) :
    ∀ (fs : List ImportedFile), NoStructRecord (CopyPublicDependenciesAliases.loop copy_from fs)
  | [] => NoStructRecord_nil
  | .mk name public_dependency :: rest => by
    simp only [CopyPublicDependenciesAliases.loop, NoStructRecord_append, NoStructRecord_cons]
    exact ⟨⟨⟨srn_text _ _ (by decide), NoStructRecord_nil⟩,
      CopyPublicDependenciesAliases_noStruct copy_from (.mk name public_dependency)⟩,
      CopyPublicDependenciesAliases_loop_noStruct copy_from rest⟩
end

theorem PrintImports_noStruct (file_ : FileDescriptor) : NoStructRecord (PrintImports file_) := by
  simp only [PrintImports, NoStructRecord_append]
  refine ⟨NoStructRecord_flatMap _ _ fun dep _ => ?_, NoStructRecord_flatMap _ _ fun dep _ => ?_⟩
  · simp only [NoStructRecord_append, NoStructRecord_cons]
    exact ⟨⟨srn_text _ _ (by decide), NoStructRecord_nil⟩,
      CopyPublicDependenciesAliases_noStruct _ _⟩
  · simp only [NoStructRecord_cons]
    exact ⟨srn_text _ _ (by decide), NoStructRecord_nil⟩

theorem Generate.enum_types_noStruct (file_ : FileDescriptor) (es : List EnumDescriptor)
    (sep esep : Str) : NoStructRecord (Generate.enum_types file_ es sep esep).printer := by
  induction es generalizing sep esep with
  | nil => exact NoStructRecord_nil
  | cons e rest ih =>
    simp only [Generate.enum_types, NoStructRecord_append, NoStructRecord_cons]
    exact ⟨⟨⟨⟨srn_Print0 _, srn_Print0 _, NoStructRecord_nil⟩, PrintEnum_noStruct _ _⟩,
      srn_text _ _ (by decide), NoStructRecord_nil⟩, ih _ _⟩

theorem Generate.extensions_noStruct (fmt : FloatFormat) (file_ : FileDescriptor)
    (fs : List FieldDescriptor) (sep : Str) :
    NoStructRecord (Generate.extensions fmt file_ fs sep).1 := by
  induction fs generalizing sep with
  | nil => exact NoStructRecord_nil
  | cons f rest ih =>
    simp only [Generate.extensions, NoStructRecord_append, NoStructRecord_cons]
    exact ⟨⟨⟨srn_Print0 _, srn_Print0 _, srn_text _ _ (by decide), srn_text _ _ (by decide),
      NoStructRecord_nil⟩, PrintFieldDescriptor_noStruct _ _ _ _⟩, ih _⟩

theorem PrintDescriptorOptionsFixingCode_noStruct (d o : Str) :
    NoStructRecord (PrintDescriptorOptionsFixingCode d o) := by
  simp only [PrintDescriptorOptionsFixingCode, NoStructRecord_cons]
  exact ⟨srn_text _ _ (by decide), NoStructRecord_nil⟩

theorem FixOptionsForEnum_noStruct (file_ : FileDescriptor) (e : EnumDescriptor) :
    NoStructRecord (FixOptionsForEnum file_ e) := by
  simp only [FixOptionsForEnum, NoStructRecord_append]
  refine ⟨?_, NoStructRecord_flatMap _ _ fun v _ => ?_⟩
  · split
    · exact PrintDescriptorOptionsFixingCode_noStruct _ _
    · exact NoStructRecord_nil
  · split
    · exact PrintDescriptorOptionsFixingCode_noStruct _ _
    · exact NoStructRecord_nil

theorem FixOptionsForField_noStruct (file_ : FileDescriptor) (f : FieldDescriptor)
    (p : List PrinterCall) (h : FixOptionsForField file_ f = some p) : NoStructRecord p := by
  unfold FixOptionsForField at h
  simp only at h
  split at h
  · split at h
    · cases h
    · simp only [Option.some.injEq] at h
      rw [← h]
      exact PrintDescriptorOptionsFixingCode_noStruct _ _
  · simp only [Option.some.injEq] at h
    rw [← h]
    exact NoStructRecord_nil

theorem FixOptionsForField_loop_noStruct (file_ : FileDescriptor) (fs : List FieldDescriptor)
    (p : List PrinterCall) (h : FixOptionsForField.loop file_ fs = some p) :
    NoStructRecord p := by
  induction fs generalizing p with
  | nil =>
    simp only [FixOptionsForField.loop, Option.some.injEq] at h
    rw [← h]
    exact NoStructRecord_nil
  | cons f rest ih =>
    unfold FixOptionsForField.loop at h
    split at h
    · cases h
    · rename_i p1 h1
      split at h
      · cases h
      · rename_i p2 h2
        simp only [Option.some.injEq] at h
        rw [← h, NoStructRecord_append]
        exact ⟨FixOptionsForField_noStruct _ _ _ h1, ih _ h2⟩

mutual
theorem FixOptionsForMessage_noStruct (file_ : FileDescriptor) :
    ∀ (d : Descriptor) (p : List PrinterCall), FixOptionsForMessage file_ d = some p →
      NoStructRecord p
  | .mk name _ file ct field nested_type enum_type extension _ _ options, p, h => by
    unfold FixOptionsForMessage at h
    split at h
    · cases h
    · rename_i p1 h1
      simp only at h
      split at h
      · cases h
      · rename_i p3 h3
        split at h
        · cases h
        · rename_i p4 h4
          simp only [Option.some.injEq] at h
          rw [← h]
          simp only [NoStructRecord_append]
          refine ⟨⟨⟨⟨FixOptionsForMessage_nested_noStruct file_ nested_type p1 h1,
            NoStructRecord_flatMap _ _ fun e _ => FixOptionsForEnum_noStruct _ _⟩,
            FixOptionsForField_loop_noStruct _ _ _ h3⟩,
            FixOptionsForField_loop_noStruct _ _ _ h4⟩, ?_⟩
          split
          · exact PrintDescriptorOptionsFixingCode_noStruct _ _
          · exact NoStructRecord_nil
theorem FixOptionsForMessage_nested_noStruct (file_ : FileDescriptor) :
    ∀ (ds : List Descriptor) (p : List PrinterCall),
      FixOptionsForMessage.nested file_ ds = some p → NoStructRecord p
  | [], p, h => by
    simp only [FixOptionsForMessage.nested, Option.some.injEq] at h
    rw [← h]
    exact NoStructRecord_nil
  | d :: rest, p, h => by
    unfold FixOptionsForMessage.nested at h
    split at h
    · cases h
    · rename_i p1 h1
      split at h
      · cases h
      · rename_i p2 h2
        simp only [Option.some.injEq] at h
        rw [← h, NoStructRecord_append]
        exact ⟨FixOptionsForMessage_noStruct file_ d p1 h1,
          FixOptionsForMessage_nested_noStruct file_ rest p2 h2⟩
end

theorem FixAllDescriptorOptions_noStruct (file_ : FileDescriptor) (p : List PrinterCall)
    (h : FixAllDescriptorOptions file_ = some p) : NoStructRecord p := by
  unfold FixAllDescriptorOptions at h
  simp only at h
  split at h
  · cases h
  · rename_i p3 h3
    split at h
    · cases h
    · rename_i p4 h4
      simp only [Option.some.injEq] at h
      rw [← h]
      simp only [NoStructRecord_append]
      refine ⟨⟨⟨?_, NoStructRecord_flatMap _ _ fun e _ => FixOptionsForEnum_noStruct _ _⟩,
        FixOptionsForField_loop_noStruct _ _ _ h3⟩,
        FixOptionsForMessage_nested_noStruct _ _ _ h4⟩
      split
      · exact PrintDescriptorOptionsFixingCode_noStruct _ _
      · exact NoStructRecord_nil

theorem Generate.methods_noStruct (file_ : FileDescriptor) (ms : List MethodDescriptor)
    (sep : Str) : NoStructRecord (Generate.methods file_ ms sep) := by
  induction ms generalizing sep with
  | nil => exact NoStructRecord_nil
  | cons m rest ih =>
    simp only [Generate.methods, NoStructRecord_append, NoStructRecord_cons]
    exact ⟨⟨srn_Print0 _, srn_text _ _ (by decide), NoStructRecord_nil⟩, ih _⟩

theorem Generate.services_noStruct (file_ : FileDescriptor) (ss : List ServiceDescriptor)
    (i : Nat) : NoStructRecord (Generate.services file_ i ss) := by
  induction ss generalizing i with
  | nil => exact NoStructRecord_nil
  | cons s rest ih =>
    simp only [Generate.services, NoStructRecord_append, NoStructRecord_cons]
    refine ⟨⟨⟨⟨?_, srn_text _ _ (by decide), srn_Indent, NoStructRecord_nil⟩,
      Generate.methods_noStruct _ _ _⟩, srn_Outdent, srn_Print0 _, NoStructRecord_nil⟩, ih _⟩
    split
    · simp only [NoStructRecord_cons]
      exact ⟨srn_Print0 _, NoStructRecord_nil⟩
    · exact NoStructRecord_nil

theorem PrintDescriptor.fields_noStruct (fmt : FloatFormat) (file_ : FileDescriptor)
    (fs : List FieldDescriptor) (sep : Str) :
    NoStructRecord (PrintDescriptor.fields fmt file_ fs sep) := by
  induction fs generalizing sep with
  | nil => exact NoStructRecord_nil
  | cons f rest ih =>
    simp only [PrintDescriptor.fields, NoStructRecord_append, NoStructRecord_cons]
    exact ⟨⟨⟨srn_Print0 _, NoStructRecord_nil⟩, PrintFieldDescriptor_noStruct _ _ _ _⟩, ih _⟩

theorem srn_struct_close (name full_name : Str) :
    struct_record_name (.Print (PrintDescriptor.m name full_name) struct_close_text) =
      some name := by
  simp only [struct_record_name, if_true]
  rfl

theorem PrintDescriptor.definition_noEmpty (fmt : FloatFormat) (file_ : FileDescriptor)
    (name full_name : Str) (field : List FieldDescriptor) (er : List ExtensionRange)
    (od : List OneofDescriptor) (h : named_Empty name = false) :
    NoEmptyRecord (PrintDescriptor.definition fmt file_ name full_name field er od) := by
  have hname : name ≠ "Empty".toList := by
    intro e
    rw [e] at h
    exact absurd h (by decide)
  simp only [PrintDescriptor.definition, NoEmptyRecord_append, NoEmptyRecord_cons]
  refine ⟨⟨⟨⟨⟨?_, ?_⟩, ?_⟩, ?_⟩, ?_⟩, ?_⟩
  · exact ⟨by rw [srn_text _ _ (by decide)]; exact fun e => Option.noConfusion e,
      by rw [srn_Indent]; exact fun e => Option.noConfusion e, NoEmptyRecord_nil⟩
  · exact (PrintDescriptor.fields_noStruct _ _ _ _).noEmpty
  · refine ⟨?_, NoEmptyRecord_nil⟩
    rw [srn_struct_close]
    exact fun e => hname (Option.some.inj e)
  · apply NoStructRecord.noEmpty
    split
    · simp only [NoStructRecord_append, NoStructRecord_cons]
      exact ⟨⟨⟨srn_Print0 _, NoStructRecord_nil⟩,
        NoStructRecord_flatMap _ _ fun x _ => by
          simp only [NoStructRecord_cons]
          exact ⟨srn_text _ _ (by decide), NoStructRecord_nil⟩⟩,
        srn_Print0 _, NoStructRecord_nil⟩
    · exact NoStructRecord_nil
  · apply NoStructRecord.noEmpty
    split
    · simp only [NoStructRecord_append, NoStructRecord_cons]
      exact ⟨⟨⟨srn_Print0 _, srn_Indent, NoStructRecord_nil⟩,
        NoStructRecord_flatMap _ _ fun x _ => by
          simp only [NoStructRecord_cons]
          exact ⟨srn_text _ _ (by decide), NoStructRecord_nil⟩⟩,
        srn_Outdent, srn_Print0 _, NoStructRecord_nil⟩
    · exact NoStructRecord_nil
  · exact ⟨by rw [srn_Outdent]; exact fun e => Option.noConfusion e, NoEmptyRecord_nil⟩

mutual
theorem PrintDescriptor_noEmpty (fmt : FloatFormat) (file_ : FileDescriptor) :
    ∀ (d : Descriptor), NoEmptyRecord (PrintDescriptor fmt file_ d)
  | .mk name full_name _ _ field nested_type _ _ er od _ => by
    simp only [PrintDescriptor]
    split
    · exact PrintDescriptor.nested_noEmpty fmt file_ nested_type _
    · rename_i h
      simp only [NoEmptyRecord_append, NoEmptyRecord_cons]
      exact ⟨⟨PrintDescriptor.nested_noEmpty fmt file_ nested_type _,
        by rw [srn_Print0]; exact fun e => Option.noConfusion e, NoEmptyRecord_nil⟩,
        PrintDescriptor.definition_noEmpty _ _ _ _ _ _ _ (by simpa using h)⟩
theorem PrintDescriptor.nested_noEmpty (fmt : FloatFormat) (file_ : FileDescriptor) :
    ∀ (ds : List Descriptor) (sep : Str),
      NoEmptyRecord (PrintDescriptor.nested fmt file_ ds sep).1
  | [], _ => NoEmptyRecord_nil
  | .mk name full_name file ct field nested_type enum_type extension er od options :: rest,
      sep => by
    simp only [PrintDescriptor.nested]
    split
    · exact PrintDescriptor.nested_noEmpty fmt file_ rest sep
    · simp only [NoEmptyRecord_append, NoEmptyRecord_cons]
      exact ⟨⟨⟨by rw [srn_Print0]; exact fun e => Option.noConfusion e, NoEmptyRecord_nil⟩,
        PrintDescriptor_noEmpty fmt file_ _⟩,
        PrintDescriptor.nested_noEmpty fmt file_ rest _⟩
end

theorem Generate.message_types_noEmpty (fmt : FloatFormat) (file_ : FileDescriptor)
    (ds : List Descriptor) (sep : Str) :
    NoEmptyRecord (Generate.message_types fmt file_ ds sep) := by
  induction ds generalizing sep with
  | nil => exact NoEmptyRecord_nil
  | cons d rest ih =>
    simp only [Generate.message_types]
    split
    · exact ih _
    · simp only [NoEmptyRecord_append, NoEmptyRecord_cons]
      exact ⟨⟨⟨by rw [srn_Print0]; exact fun e => Option.noConfusion e, NoEmptyRecord_nil⟩,
        PrintDescriptor_noEmpty _ _ _⟩, ih _⟩

/-! ## Where the records of nested types are printed -/

theorem PrintNestedEnums.enums_infix (file_ : FileDescriptor) (es : List EnumDescriptor)
    (sep : Str) (e : EnumDescriptor) (he : e ∈ es) :
    EnumRecord file_ e <:+: (PrintNestedEnums.enums file_ es sep).printer := by
  induction es generalizing sep with
  | nil => cases he
  | cons e1 rest ih =>
    simp only [PrintNestedEnums.enums]
    rcases List.mem_cons.mp he with h | h
    · subst h
      exact (List.prefix_append _ _).isInfix
    · exact (ih _ h).trans (List.suffix_append _ _).isInfix

theorem PrintNestedEnums_own (file_ : FileDescriptor) (d : Descriptor) (sep : Str)
    (e : EnumDescriptor) (he : e ∈ d.enum_type) :
    EnumRecord file_ e <:+: (PrintNestedEnums file_ d sep).printer := by
  cases d with
  | mk name full_name file ct field nested_type enum_type extension er od options =>
    simp only [PrintNestedEnums]
    exact (PrintNestedEnums.enums_infix file_ enum_type _ e he).trans
      (List.suffix_append _ _).isInfix

theorem PrintNestedEnums_nested_infix (file_ : FileDescriptor) (ds : List Descriptor)
    (sep : Str) (d : Descriptor) (hd : d ∈ ds) :
    ∃ sep', (PrintNestedEnums file_ d sep').printer <:+:
      (PrintNestedEnums.nested file_ ds sep).printer := by
  induction ds generalizing sep with
  | nil => cases hd
  | cons d1 rest ih =>
    simp only [PrintNestedEnums.nested]
    rcases List.mem_cons.mp hd with h | h
    · subst h
      exact ⟨sep, (List.prefix_append _ _).isInfix⟩
    · obtain ⟨sep', h'⟩ := ih (PrintNestedEnums file_ d1 sep).enum_separator h
      exact ⟨sep', h'.trans (List.suffix_append _ _).isInfix⟩

theorem PrintNestedEnums_nested (file_ : FileDescriptor) (d : Descriptor) (sep : Str)
    (n : Descriptor) (hn : n ∈ d.nested_type) :
    ∃ sep', (PrintNestedEnums file_ n sep').printer <:+: (PrintNestedEnums file_ d sep).printer := by
  cases d with
  | mk name full_name file ct field nested_type enum_type extension er od options =>
    simp only [PrintNestedEnums]
    obtain ⟨sep', h'⟩ := PrintNestedEnums_nested_infix file_ nested_type sep n hn
    exact ⟨sep', h'.trans (List.prefix_append _ _).isInfix⟩

theorem Generate.nested_enums_infix (file_ : FileDescriptor) (ds : List Descriptor)
    (sep : Str) (d : Descriptor) (hd : d ∈ ds) :
    ∃ sep', (PrintNestedEnums file_ d sep').printer <:+:
      (Generate.nested_enums file_ ds sep).printer := by
  induction ds generalizing sep with
  | nil => cases hd
  | cons d1 rest ih =>
    simp only [Generate.nested_enums]
    rcases List.mem_cons.mp hd with h | h
    · subst h
      exact ⟨sep, (List.prefix_append _ _).isInfix⟩
    · obtain ⟨sep', h'⟩ := ih (PrintNestedEnums file_ d1 sep).enum_separator h
      exact ⟨sep', h'.trans (List.suffix_append _ _).isInfix⟩

/-- A message that is not named "Empty" is printed as the messages nested in it, a
separator and its own Struct record, which comes last. -/
theorem PrintDescriptor_eq (fmt : FloatFormat) (file_ : FileDescriptor) (d : Descriptor)
    (hd : named_Empty d.name = false) :
    PrintDescriptor fmt file_ d =
      (PrintDescriptor.nested fmt file_ d.nested_type " ".toList).1 ++
        [Print0 (PrintDescriptor.nested fmt file_ d.nested_type " ".toList).2] ++
        StructRecord fmt file_ d := by
  cases d with
  | mk name full_name file ct field nested_type enum_type extension er od options =>
    simp only [Descriptor.name] at hd
    simp only [PrintDescriptor, hd, StructRecord, Descriptor.name, Descriptor.full_name,
      Descriptor.field, Descriptor.extension_range, Descriptor.oneof_decl,
      Descriptor.nested_type]
    rfl

theorem PrintDescriptor_nested_infix (fmt : FloatFormat) (file_ : FileDescriptor)
    (ds : List Descriptor) (sep : Str) (d : Descriptor) (hd : d ∈ ds)
    (hne : named_Empty d.name = false) :
    PrintDescriptor fmt file_ d <:+: (PrintDescriptor.nested fmt file_ ds sep).1 := by
  induction ds generalizing sep with
  | nil => cases hd
  | cons d1 rest ih =>
    cases d1 with
    | mk name full_name file ct field nested_type enum_type extension er od options =>
      simp only [PrintDescriptor.nested]
      by_cases h1 : named_Empty name = true
      · simp only [h1, if_true]
        rcases List.mem_cons.mp hd with h | h
        · subst h
          simp only [Descriptor.name] at hne
          rw [h1] at hne
          cases hne
        · exact ih sep h
      · simp only [h1]
        rcases List.mem_cons.mp hd with h | h
        · subst h
          exact ⟨[Print0 sep], _, rfl⟩
        · exact (ih _ h).trans (List.suffix_append _ _).isInfix

theorem Generate.message_types_infix (fmt : FloatFormat) (file_ : FileDescriptor)
    (ds : List Descriptor) (sep : Str) (d : Descriptor) (hd : d ∈ ds)
    (hne : named_Empty d.name = false) :
    PrintDescriptor fmt file_ d <:+: Generate.message_types fmt file_ ds sep := by
  induction ds generalizing sep with
  | nil => cases hd
  | cons d1 rest ih =>
    simp only [Generate.message_types]
    by_cases h1 : named_Empty d1.name = true
    · simp only [h1, if_true]
      rcases List.mem_cons.mp hd with h | h
      · subst h
        rw [h1] at hne
        cases hne
      · exact ih sep h
    · simp only [h1]
      rcases List.mem_cons.mp hd with h | h
      · subst h
        exact ⟨[Print0 sep], _, rfl⟩
      · exact (ih _ h).trans (List.suffix_append _ _).isInfix

theorem named_Empty_false (name : Str) (h : c_str name ≠ "Empty".toList) :
    named_Empty name = false := by
  simp only [named_Empty, beq_eq_false_iff_ne, ne_eq]
  exact h

/-- A name without NUL byte is compared as it stands. -/
theorem c_str_eq_self (name : Str) (h : Char.ofNat 0 ∉ name) : c_str name = name := by
  unfold c_str
  rw [List.takeWhile_eq_self_iff]
  intro c hc
  simp only [bne_iff_ne, ne_eq]
  intro e
  exact h (e ▸ hc)

/-! ## The options fix-up pass on descriptors without options -/

theorem FixOptionsForEnum_nil (file_ : FileDescriptor) (e : EnumDescriptor)
    (h : ∀ s ∈ e.all_options, ∀ c, OptionsValue file_ c s = "None".toList) :
    FixOptionsForEnum file_ e = [] := by
  have h1 := h e.options (by simp [EnumDescriptor.all_options])
  have h2 : ∀ v ∈ e.value, OptionsValue file_ "EnumValueOptions".toList v.options = "None".toList :=
    fun v hv => h v.options (by simp [EnumDescriptor.all_options]; exact Or.inr ⟨v, hv, rfl⟩) _
  simp only [FixOptionsForEnum, h1, ne_eq, not_true_eq_false, if_false, List.nil_append]
  rw [List.flatMap_eq_nil_iff]
  intro v hv
  simp only [h2 v hv, ne_eq, not_true_eq_false, if_false]

theorem FixOptionsForField_nil (file_ : FileDescriptor) (f : FieldDescriptor)
    (h : ∀ c, OptionsValue file_ c f.options = "None".toList) :
    FixOptionsForField file_ f = some [] := by
  simp [FixOptionsForField, h]

theorem FixOptionsForField.loop_nil (file_ : FileDescriptor) (fs : List FieldDescriptor)
    (h : ∀ f ∈ fs, ∀ c, OptionsValue file_ c f.options = "None".toList) :
    FixOptionsForField.loop file_ fs = some [] := by
  induction fs with
  | nil => rfl
  | cons f rest ih =>
    simp [FixOptionsForField.loop, FixOptionsForField_nil file_ f (h f (by simp)),
      ih (fun f' hf' => h f' (by simp [hf']))]

mutual
theorem FixOptionsForMessage_nil (file_ : FileDescriptor) :
    ∀ (d : Descriptor), (∀ s ∈ d.all_options, ∀ c, OptionsValue file_ c s = "None".toList) →
      FixOptionsForMessage file_ d = some []
  | .mk name full_name file ct field nested_type enum_type extension er od options, h => by
    simp only [Descriptor.all_options, List.mem_append, List.mem_map, List.mem_flatMap,
      List.mem_singleton] at h
    have h1 := FixOptionsForMessage.nested_nil file_ nested_type
      (fun s hs => h s (Or.inl (Or.inl (Or.inl (Or.inl hs)))))
    have h2 : enum_type.flatMap (FixOptionsForEnum file_) = [] := by
      rw [List.flatMap_eq_nil_iff]
      intro e he
      exact FixOptionsForEnum_nil file_ e
        (fun s hs => h s (Or.inl (Or.inl (Or.inl (Or.inr ⟨e, he, hs⟩)))))
    have h3 := FixOptionsForField.loop_nil file_ field
      (fun f hf => h f.options (Or.inl (Or.inl (Or.inr ⟨f, hf, rfl⟩))))
    have h4 := FixOptionsForField.loop_nil file_ extension
      (fun f hf => h f.options (Or.inl (Or.inr ⟨f, hf, rfl⟩)))
    have h5 := h options (Or.inr rfl) "MessageOptions".toList
    simp only [FixOptionsForMessage, h1, h2, h3, h4, h5, ne_eq, not_true_eq_false, if_false,
      List.append_nil]
theorem FixOptionsForMessage.nested_nil (file_ : FileDescriptor) :
    ∀ (ds : List Descriptor),
      (∀ s ∈ Descriptor.all_options_list ds, ∀ c, OptionsValue file_ c s = "None".toList) →
      FixOptionsForMessage.nested file_ ds = some []
  | [], _ => rfl
  | d :: rest, h => by
    simp only [Descriptor.all_options_list, List.mem_append] at h
    have h1 := FixOptionsForMessage_nil file_ d (fun s hs => h s (Or.inl hs))
    have h2 := FixOptionsForMessage.nested_nil file_ rest (fun s hs => h s (Or.inr hs))
    simp [FixOptionsForMessage.nested, h1, h2]
end

theorem FixAllDescriptorOptions_nil (file_ : FileDescriptor)
    (h : ∀ s ∈ file_.all_options, ∀ c, OptionsValue file_ c s = "None".toList) :
    FixAllDescriptorOptions file_ = some [] := by
  simp only [FileDescriptor.all_options, List.mem_cons, List.mem_append, List.mem_map,
    List.mem_flatMap] at h
  have h1 := h file_.options (Or.inl rfl) "FileOptions".toList
  have h2 : file_.enum_type.flatMap (FixOptionsForEnum file_) = [] := by
    rw [List.flatMap_eq_nil_iff]
    intro e he
    exact FixOptionsForEnum_nil file_ e (fun s hs => h s (Or.inr (Or.inl (Or.inl ⟨e, he, hs⟩))))
  have h3 := FixOptionsForField.loop_nil file_ file_.extension
    (fun f hf => h f.options (Or.inr (Or.inl (Or.inr ⟨f, hf, rfl⟩))))
  have h4 := FixOptionsForMessage.nested_nil file_ file_.message_type
    (fun s hs => h s (Or.inr (Or.inr hs)))
  simp only [FixAllDescriptorOptions, h1, h2, h3, h4, ne_eq, not_true_eq_false, if_false,
    List.append_nil]

/-! ## The text of a call depends on the variables of its template only -/

theorem Printer.scan_congr (vars vars' : List (Str × Str)) (text : Str) :
    ∀ (seg : Str) (varname : Option Str) (p : Printer),
      (∀ n ∈ template_vars text varname, lookup_variable vars n = lookup_variable vars' n) →
      Printer.scan vars text seg varname p = Printer.scan vars' text seg varname p := by
  induction text with
  | nil =>
    intro seg varname p _
    cases varname <;> rfl
  | cons c rest ih =>
    intro seg varname p h
    cases varname with
    | none =>
      simp only [template_vars] at h
      simp only [Printer.scan]
      by_cases h1 : c = '\n'
      · simp only [h1, if_true] at h ⊢
        exact ih _ _ _ h
      · by_cases h2 : c = '$'
        · simp only [h1, h2, if_true, if_false] at h ⊢
          exact ih _ _ _ h
        · simp only [h1, h2, if_false] at h ⊢
          exact ih _ _ _ h
    | some v =>
      simp only [template_vars] at h
      simp only [Printer.scan]
      by_cases h2 : c = '$'
      · simp only [h2, if_true] at h ⊢
        rw [h v (List.mem_cons_self _ _)]
        exact ih _ _ _ (fun n hn => h n (List.mem_cons_of_mem _ hn))
      · simp only [h2, if_false] at h ⊢
        exact ih _ _ _ h

theorem Printer.step_congr (p : Printer) (vars vars' : List (Str × Str)) (text : Str)
    (h : ∀ n ∈ template_vars text none, lookup_variable vars n = lookup_variable vars' n) :
    p.step (.Print vars text) = p.step (.Print vars' text) :=
  Printer.scan_congr vars vars' text [] none p h

/-! ## Claims about `Generate` -/

theorem OptionsValue_nil (file_ : FileDescriptor) (c : Str) :
    OptionsValue file_ c [] = "None".toList := by
  simp [OptionsValue]

theorem OptionsValue_descriptor_proto (file_ : FileDescriptor) (c s : Str)
    (h : GeneratingDescriptorProto file_ = true) : OptionsValue file_ c s = "None".toList := by
  simp [OptionsValue, h]

set_option maxRecDepth 100000 in
/-- C2, as stated, fails: "opts.proto" has no service, yet the run of `Generate` on
it does not end with the opener of the interfaces array directly followed by
its closing; the statements of the options fix-up pass stand between them, as
the text written shows. -/
theorem C2_interfaces_not_empty_counterexample :
    Example.options_file.service = [] ∧
      (Generate Example.fmt Example.context Example.generator Example.options_file).map
          (fun r => decide ([Print0 interfaces_open_text, Print0 interfaces_close_text] <:+
            r.generator.printer_)) = some false ∧
      (Generate Example.fmt Example.context Example.generator Example.options_file).map
          (fun r => r.text) = some Example.options_text := by
  refine ⟨rfl, ?_, ?_⟩
  · decide
  · decide

/-- C2, amended. For a file with zero services, the calls of a run of `Generate` end
with the opener of the interfaces array, the statements of the options fix-up
pass (which runs right after the opener) and the closing of the array; the
fix-up pass prints nothing, so the array is present and empty, when no
descriptor of the file has serialized options or the file is
"google/protobuf/descriptor.proto", and then the run returns as soon as the
sink opens the output file. -/
theorem C2_interfaces_hold_options_fixup (fmt : FloatFormat) (context : GeneratorContext)
    (g : Generator) (file : FileDescriptor) (hs : file.service = []) :
    (∀ r, Generate fmt context g file = some r →
        ∃ pre fix, FixAllDescriptorOptions file = some fix ∧
          r.generator.printer_ =
            pre ++ [Print0 interfaces_open_text] ++ fix ++ [Print0 interfaces_close_text]) ∧
      (((∀ s ∈ file.all_options, s = []) ∨ GeneratingDescriptorProto file = true) →
        FixAllDescriptorOptions file = some [] ∧
          (context.Open (output_filename file) = true →
            ∃ r, Generate fmt context g file = some r ∧
              [Print0 interfaces_open_text, Print0 interfaces_close_text] <:+
                r.generator.printer_)) := by
  have shape : ∀ r, Generate fmt context g file = some r →
      ∃ pre fix, FixAllDescriptorOptions file = some fix ∧
        r.generator.printer_ =
          pre ++ [Print0 interfaces_open_text] ++ fix ++ [Print0 interfaces_close_text] := by
    intro r hr
    obtain ⟨fix, hfix, hp⟩ := Generate_some fmt context g file r hr
    refine ⟨[Print0 globaldecls_open_text] ++ PrintImports file ++
        ((Generate.enum_types file file.enum_type " ".toList g.enum_separator).printer ++
          (Generate.enum_types file file.enum_type " ".toList
              g.enum_separator).top_level_enum_values.map fun v =>
            PrinterCall.Print [("name".toList, v.1), ("value".toList, SimpleItoa v.2)]
              "$name$ = $value$\n".toList) ++
        ((Generate.extensions fmt file file.extension
            (Generate.enum_types file file.enum_type " ".toList g.enum_separator).separator).1 ++
          (Generate.nested_enums file file.message_type " ".toList).printer ++
          Generate.message_types fmt file file.message_type
            (Generate.nested_enums file file.message_type " ".toList).enum_separator),
      fix, hfix, ?_⟩
    rw [hp, hs]
    simp only [Generate.services, List.append_nil, List.append_assoc]
  refine ⟨shape, fun hno => ?_⟩
  have hnil : FixAllDescriptorOptions file = some [] := by
    apply FixAllDescriptorOptions_nil
    intro s hsm c
    rcases hno with h | h
    · rw [h s hsm]
      exact OptionsValue_nil file c
    · exact OptionsValue_descriptor_proto file c s h
  refine ⟨hnil, fun hopen => ?_⟩
  obtain ⟨r, hr⟩ := Generate_isSome fmt context g file [] hopen hnil
  obtain ⟨pre, fix, hfix, hp⟩ := shape r hr
  rw [hnil] at hfix
  cases hfix
  exact ⟨r, hr, pre, by rw [hp]; simp⟩

/-- Witness of C2, amended: "point.proto" has no service and no options. -/
theorem C2_interfaces_hold_options_fixup_witness :
    Example.point_file.service = [] ∧
      ((∀ s ∈ Example.point_file.all_options, s = []) ∨
        GeneratingDescriptorProto Example.point_file = true) ∧
      Example.context.Open (output_filename Example.point_file) = true ∧
      FixAllDescriptorOptions Example.point_file = some [] :=
  ⟨rfl, Or.inl (by decide), rfl,
    ((C2_interfaces_hold_options_fixup Example.fmt Example.context Example.generator
      Example.point_file rfl).2 (Or.inl (by decide))).1⟩

/-- When a top-level message M holds a nested message N that holds an enum E, and
neither M nor N is named "Empty", the calls of a run of `Generate` hold what
`PrintEnum` prints for E, later the definition of N, and later still the
definition of M. -/
theorem Generate_enum_nested_parent_records (fmt : FloatFormat) (context : GeneratorContext)
    (g : Generator) (file : FileDescriptor) (r : GenerateResult) (M N : Descriptor)
    (E : EnumDescriptor) (hr : Generate fmt context g file = some r)
    (hM : M ∈ file.message_type) (hN : N ∈ M.nested_type) (hE : E ∈ N.enum_type)
    (hMname : c_str M.name ≠ "Empty".toList) (hNname : c_str N.name ≠ "Empty".toList) :
    ∃ a b c d, r.generator.printer_ =
      a ++ EnumRecord file E ++ b ++ StructRecord fmt file N ++ c ++
        StructRecord fmt file M ++ d := by
  obtain ⟨P, Q, hp⟩ := Generate_some_messages fmt context g file r hr
  have hMe := named_Empty_false _ hMname
  have hNe := named_Empty_false _ hNname
  -- the enum record, among the nested enums
  obtain ⟨s1, i1⟩ := Generate.nested_enums_infix file file.message_type " ".toList M hM
  obtain ⟨s2, i2⟩ := PrintNestedEnums_nested file M s1 N hN
  have i3 := PrintNestedEnums_own file N s2 E hE
  obtain ⟨a1, b1, e1⟩ := (i3.trans i2).trans i1
  -- the two struct records, among the messages
  obtain ⟨a2, b2, e2⟩ := Generate.message_types_infix fmt file file.message_type
    (Generate.nested_enums file file.message_type " ".toList).enum_separator M hM hMe
  obtain ⟨a3, b3, e3⟩ := PrintDescriptor_nested_infix fmt file M.nested_type " ".toList N hN hNe
  rw [PrintDescriptor_eq fmt file M hMe, ← e3, PrintDescriptor_eq fmt file N hNe] at e2
  refine ⟨P ++ a1,
    b1 ++ a2 ++ a3 ++ (PrintDescriptor.nested fmt file N.nested_type " ".toList).1 ++
      [Print0 (PrintDescriptor.nested fmt file N.nested_type " ".toList).2],
    b3 ++ [Print0 (PrintDescriptor.nested fmt file M.nested_type " ".toList).2],
    b2 ++ Q, ?_⟩
  rw [hp, ← e1, ← e2]
  simp only [List.append_assoc]

/-- C4. Sentinel elision: no call of a run of `Generate` closes a Struct record whose
name is "Empty", wherever messages of that name stand in the file, at the top
level or nested at any depth. -/
theorem C4_no_Struct_record_named_Empty (fmt : FloatFormat) (context : GeneratorContext)
    (g : Generator) (file : FileDescriptor) (r : GenerateResult)
    (hr : Generate fmt context g file = some r) :
    ∀ c ∈ r.generator.printer_, struct_record_name c ≠ some "Empty".toList := by
  obtain ⟨fix, hfix, hp⟩ := Generate_some fmt context g file r hr
  show NoEmptyRecord r.generator.printer_
  rw [hp]
  simp only [NoEmptyRecord_append]
  refine ⟨⟨⟨⟨⟨⟨?_, ?_⟩, ?_, ?_⟩, ⟨⟨?_, ?_⟩, ?_⟩, ?_⟩, ?_⟩, ?_⟩, ?_⟩
  · exact NoStructRecord.noEmpty (by
      rw [NoStructRecord_cons]; exact ⟨srn_Print0 _, NoStructRecord_nil⟩)
  · exact (PrintImports_noStruct file).noEmpty
  · exact (Generate.enum_types_noStruct file _ _ _).noEmpty
  · apply NoStructRecord.noEmpty
    intro c hc
    obtain ⟨v, -, hv⟩ := List.mem_map.mp hc
    rw [← hv]
    exact srn_text _ _ (by decide)
  · exact (Generate.extensions_noStruct fmt file _ _).noEmpty
  · exact (Generate.nested_enums_noStruct file _ _).noEmpty
  · exact Generate.message_types_noEmpty fmt file _ _
  · exact NoStructRecord.noEmpty (by
      rw [NoStructRecord_cons]; exact ⟨srn_Print0 _, NoStructRecord_nil⟩)
  · exact (FixAllDescriptorOptions_noStruct file fix hfix).noEmpty
  · exact (Generate.services_noStruct file _ _).noEmpty
  · exact NoStructRecord.noEmpty (by
      rw [NoStructRecord_cons]; exact ⟨srn_Print0 _, NoStructRecord_nil⟩)

/-- Witness of C4: "nest.proto" has a top-level message named "Empty" and a nested
one. -/
theorem C4_no_Struct_record_named_Empty_witness :
    Generate Example.fmt Example.context Example.generator Example.nested_file =
        some (Example.run Example.nested_file) ∧
      ∀ c ∈ (Example.run Example.nested_file).generator.printer_,
        struct_record_name c ≠ some "Empty".toList :=
  ⟨rfl, C4_no_Struct_record_named_Empty Example.fmt Example.context Example.generator
    Example.nested_file (Example.run Example.nested_file) rfl⟩

set_option maxRecDepth 100000 in
/-- C5, as stated, fails: the text that `Generate` writes for "point.proto" is
`Example.point_text`; its two field records give the name and the type name of
the field and nothing else, and neither the default "0" (no character 0
occurs in the text) nor an extension flag (no "False", no "false") is in it. -/
theorem C5_Point_field_records_counterexample :
    (Generate Example.fmt Example.context Example.generator Example.point_file).map
        (fun r => r.text) = some Example.point_text ∧
      '0' ∉ Example.point_text ∧
      ¬ "False".toList <:+: Example.point_text ∧
      ¬ "false".toList <:+: Example.point_text := by
  refine ⟨?_, ?_, ?_, ?_⟩ <;> decide

set_option maxRecDepth 100000 in
/-- C5, amended. End-to-end: for a file whose only content is a message Point with
two non-repeated int32 fields x and y, without explicit defaults and without
options, and no services, `Generate` returns once the sink opens the output
file; its calls are one Struct record named Point with two field records, x
then y, and the interfaces opener directly followed by its closing.  The
field records bind the variables `name`, `cpp_type` = "int32", `default_value`
= "0" and `is_extension` = "False", and the text written, `Example.point_text`,
shows the name and the type name of each field only. -/
theorem C5_Point_end_to_end (fmt : FloatFormat) (context : GeneratorContext) (g : Generator)
    (file : FileDescriptor) (full_name fname : Str) (ct : DescriptorPtr)
    (fx fy : FieldDescriptor)
    (hopen : context.Open (output_filename file) = true)
    (hfile : only_Point file full_name fname ct fx fy)
    (hx : plain_int32_field fx "x".toList) (hy : plain_int32_field fy "y".toList) :
    ∃ r, Generate fmt context g file = some r ∧
      r.generator.printer_ =
        [Print0 globaldecls_open_text, Print0 " ".toList, Print0 " ".toList,
         .Print (PrintDescriptor.m "Point".toList full_name) struct_open_text, .Indent,
         Print0 " ".toList,
         .Print (PrintFieldDescriptor.m fmt file fx false) field_record_text,
         Print0 ",".toList,
         .Print (PrintFieldDescriptor.m fmt file fy false) field_record_text,
         .Print (PrintDescriptor.m "Point".toList full_name) struct_close_text, .Outdent,
         Print0 interfaces_open_text, Print0 interfaces_close_text] ∧
      lookup_variable (PrintFieldDescriptor.m fmt file fx false) "name".toList =
        some "x".toList ∧
      lookup_variable (PrintFieldDescriptor.m fmt file fy false) "name".toList =
        some "y".toList ∧
      lookup_variable (PrintFieldDescriptor.m fmt file fx false) "cpp_type".toList =
        some "int32".toList ∧
      lookup_variable (PrintFieldDescriptor.m fmt file fy false) "cpp_type".toList =
        some "int32".toList ∧
      lookup_variable (PrintFieldDescriptor.m fmt file fx false) "default_value".toList =
        some "0".toList ∧
      lookup_variable (PrintFieldDescriptor.m fmt file fy false) "default_value".toList =
        some "0".toList ∧
      lookup_variable (PrintFieldDescriptor.m fmt file fx false) "is_extension".toList =
        some "False".toList ∧
      lookup_variable (PrintFieldDescriptor.m fmt file fy false) "is_extension".toList =
        some "False".toList ∧
      r.text = Example.point_text := by
  unfold output_filename at hopen
  obtain ⟨h1, h2, h3, h4, h5, h6, h7⟩ := hfile
  obtain ⟨x1, x2, x3, x4, x5, x6, x7, x8⟩ := hx
  obtain ⟨y1, y2, y3, y4, y5, y6, y7, y8⟩ := hy
  have hxr : fx.is_repeated = false := by simp [FieldDescriptor.is_repeated, x3]
  have hyr : fy.is_repeated = false := by simp [FieldDescriptor.is_repeated, y3]
  have hfx : FixOptionsForField file fx = some [] :=
    FixOptionsForField_nil file fx (fun c => by rw [x8]; exact OptionsValue_nil file c)
  have hfy : FixOptionsForField file fy = some [] :=
    FixOptionsForField_nil file fy (fun c => by rw [y8]; exact OptionsValue_nil file c)
  have hfix : FixAllDescriptorOptions file = some [] := by
    simp only [FixAllDescriptorOptions, h3, h5, h6, h7, OptionsValue, List.length_nil,
      beq_self_eq_true, Bool.true_or, if_true, ne_eq, not_true_eq_false, if_false,
      List.flatMap_nil, FixOptionsForField.loop, FixOptionsForMessage.nested,
      FixOptionsForMessage, hfx, hfy, List.append_nil]
  have hmx : PrintFieldDescriptor.m fmt file fx false =
      [("name".toList, "x".toList), ("full_name".toList, fx.full_name),
       ("index".toList, SimpleItoa fx.index), ("number".toList, SimpleItoa fx.number),
       ("type".toList, SimpleItoa FieldType.TYPE_INT32.toInt),
       ("cpp_type".toList, "int32".toList), ("label".toList, SimpleItoa fx.label.toInt),
       ("has_default_value".toList, "False".toList), ("default_value".toList, "0".toList),
       ("is_extension".toList, "False".toList), ("options".toList, "None".toList)] := by
    simp only [PrintFieldDescriptor.m, x1, x2, x4, x6, x7, x8, StringifyDefaultValue, hxr,
      FieldDescriptor.cpp_type, kTypeToCppTypeMap, x5, FieldDescriptor.type_name, kTypeToName,
      OptionsValue, List.length_nil, beq_self_eq_true, Bool.true_or, if_true]
    rfl
  have hmy : PrintFieldDescriptor.m fmt file fy false =
      [("name".toList, "y".toList), ("full_name".toList, fy.full_name),
       ("index".toList, SimpleItoa fy.index), ("number".toList, SimpleItoa fy.number),
       ("type".toList, SimpleItoa FieldType.TYPE_INT32.toInt),
       ("cpp_type".toList, "int32".toList), ("label".toList, SimpleItoa fy.label.toInt),
       ("has_default_value".toList, "False".toList), ("default_value".toList, "0".toList),
       ("is_extension".toList, "False".toList), ("options".toList, "None".toList)] := by
    simp only [PrintFieldDescriptor.m, y1, y2, y4, y6, y7, y8, StringifyDefaultValue, hyr,
      FieldDescriptor.cpp_type, kTypeToCppTypeMap, y5, FieldDescriptor.type_name, kTypeToName,
      OptionsValue, List.length_nil, beq_self_eq_true, Bool.true_or, if_true]
    rfl
  have hsome : Generate fmt context g file = some
      { generator :=
          { file_ := some file
            file_descriptor_serialized_ := file.serialized
            printer_ :=
              [Print0 globaldecls_open_text, Print0 " ".toList, Print0 " ".toList,
               .Print (PrintDescriptor.m "Point".toList full_name) struct_open_text, .Indent,
               Print0 " ".toList,
               .Print (PrintFieldDescriptor.m fmt file fx false) field_record_text,
               Print0 ",".toList,
               .Print (PrintFieldDescriptor.m fmt file fy false) field_record_text,
               .Print (PrintDescriptor.m "Point".toList full_name) struct_close_text, .Outdent,
               Print0 interfaces_open_text, Print0 interfaces_close_text]
            enum_separator := " ".toList }
        filename := StripString (ModuleName file.name) ".".toList '/' ++ ".json".toList
        returned := true } := by
    simp only [Generate, hopen, hfix, h1, h2, h3, h4, h5, h7, PrintImports, List.flatMap_nil,
      Generate.enum_types, Generate.extensions, Generate.nested_enums, PrintNestedEnums,
      PrintNestedEnums.nested, PrintNestedEnums.enums, Generate.message_types,
      Generate.services, PrintDescriptor, PrintDescriptor.nested, PrintDescriptor.definition,
      PrintDescriptor.fields, PrintFieldDescriptor, Descriptor.name, List.map_nil,
      List.append_nil, List.nil_append, List.length_nil, ne_eq, not_true_eq_false, if_false]
    rfl
  refine ⟨_, hsome, rfl, ?_, ?_, ?_, ?_, ?_, ?_, ?_, ?_, ?_⟩
  · rw [hmx]; rfl
  · rw [hmy]; rfl
  · rw [hmx]; rfl
  · rw [hmy]; rfl
  · rw [hmx]; rfl
  · rw [hmy]; rfl
  · rw [hmx]; rfl
  · rw [hmy]; rfl
  · have eo : template_vars struct_open_text none = [] := by decide
    have ec : template_vars struct_close_text none = ["name".toList, "name".toList] := by
      decide
    have ef : template_vars field_record_text none = ["name".toList, "cpp_type".toList] := by
      decide
    simp only [GenerateResult.text, Printer.run, List.foldl_cons, List.foldl_nil]
    rw [Printer.step_congr _ (PrintDescriptor.m "Point".toList full_name)
        [("name".toList, "Point".toList)] struct_open_text
        (by rw [eo]; exact fun n hn => absurd hn (List.not_mem_nil _)),
      Printer.step_congr _ (PrintFieldDescriptor.m fmt file fx false)
        [("name".toList, "x".toList), ("cpp_type".toList, "int32".toList)] field_record_text
        (by
          rw [ef, hmx]
          intro n hn
          simp only [List.mem_cons, List.mem_singleton, List.not_mem_nil, or_false] at hn
          rcases hn with hn | hn <;> subst hn <;> rfl),
      Printer.step_congr _ (PrintFieldDescriptor.m fmt file fy false)
        [("name".toList, "y".toList), ("cpp_type".toList, "int32".toList)] field_record_text
        (by
          rw [ef, hmy]
          intro n hn
          simp only [List.mem_cons, List.mem_singleton, List.not_mem_nil, or_false] at hn
          rcases hn with hn | hn <;> subst hn <;> rfl),
      Printer.step_congr _ (PrintDescriptor.m "Point".toList full_name)
        [("name".toList, "Point".toList)] struct_close_text
        (by
          rw [ec]
          intro n hn
          simp only [List.mem_cons, List.mem_singleton, List.not_mem_nil, or_false] at hn
          rcases hn with hn | hn <;> subst hn <;> rfl)]
    decide

/-- Witness of C5, amended: "point.proto". -/
theorem C5_Point_end_to_end_witness :
    Example.context.Open (output_filename Example.point_file) = true ∧
      only_Point Example.point_file "Point".toList "point.proto".toList DescriptorPtr.NULL
        (Example.int32_field "x".toList 0 1) (Example.int32_field "y".toList 1 2) ∧
      plain_int32_field (Example.int32_field "x".toList 0 1) "x".toList ∧
      plain_int32_field (Example.int32_field "y".toList 1 2) "y".toList ∧
      (Example.run Example.point_file).text = Example.point_text := by
  have hfile : only_Point Example.point_file "Point".toList "point.proto".toList
      DescriptorPtr.NULL (Example.int32_field "x".toList 0 1)
      (Example.int32_field "y".toList 1 2) := ⟨rfl, rfl, rfl, rfl, rfl, rfl, rfl⟩
  have hx : plain_int32_field (Example.int32_field "x".toList 0 1) "x".toList :=
    ⟨rfl, rfl, by decide, rfl, rfl, rfl, rfl, rfl⟩
  have hy : plain_int32_field (Example.int32_field "y".toList 1 2) "y".toList :=
    ⟨rfl, rfl, by decide, rfl, rfl, rfl, rfl, rfl⟩
  obtain ⟨r, hr, -, -, -, -, -, -, -, -, -, ht⟩ :=
    C5_Point_end_to_end Example.fmt Example.context Example.generator Example.point_file
      "Point".toList "point.proto".toList DescriptorPtr.NULL
      (Example.int32_field "x".toList 0 1) (Example.int32_field "y".toList 1 2) rfl hfile hx hy
  refine ⟨rfl, hfile, hx, hy, ?_⟩
  have e : Example.run Example.point_file = r := by
    unfold Example.run
    rw [hr]
    rfl
  rw [e]
  exact ht

theorem Generate.enum_types_indep (file_ : FileDescriptor) (es : List EnumDescriptor)
    (separator e1 e2 : Str) :
    (Generate.enum_types file_ es separator e1).printer =
        (Generate.enum_types file_ es separator e2).printer ∧
      (Generate.enum_types file_ es separator e1).separator =
        (Generate.enum_types file_ es separator e2).separator ∧
      (Generate.enum_types file_ es separator e1).top_level_enum_values =
        (Generate.enum_types file_ es separator e2).top_level_enum_values := by
  cases es with
  | nil => exact ⟨rfl, rfl, rfl⟩
  | cons e rest => exact ⟨rfl, rfl, rfl⟩

/-- C6. Determinism: a run of `Generate` on a file does not depend on what earlier runs
left in the generator, neither in its members `file_`, `printer_` and
`file_descriptor_serialized_` nor in the static `enum_separator`: two runs on
the same file from any two states make the same calls (so write the same
text), open the same file and leave the same state, or both abort; and a
second run, from the state that a first run left, gives the result of the
first. -/
theorem C6_Generate_deterministic (fmt : FloatFormat) (context : GeneratorContext)
    (g1 g2 : Generator) (file : FileDescriptor) :
    Generate fmt context g1 file = Generate fmt context g2 file ∧
      ∀ r, Generate fmt context g1 file = some r →
        Generate fmt context r.generator file = some r := by
  have key : ∀ a b : Generator, Generate fmt context a file = Generate fmt context b file := by
    intro a b
    obtain ⟨h1, h2, h3⟩ := Generate.enum_types_indep file file.enum_type " ".toList
      a.enum_separator b.enum_separator
    simp only [Generate, h1, h2, h3]
  refine ⟨key g1 g2, fun r hr => ?_⟩
  rw [← hr]
  exact key r.generator g1

/-- Witness of C6: two runs on "point.proto", the second from the state left by the
first. -/
theorem C6_Generate_deterministic_witness :
    Generate Example.fmt Example.context Example.generator Example.point_file =
        some (Example.run Example.point_file) ∧
      Generate Example.fmt Example.context (Example.run Example.point_file).generator
        Example.point_file = some (Example.run Example.point_file) :=
  ⟨rfl, (C6_Generate_deterministic Example.fmt Example.context Example.generator
    Example.generator Example.point_file).2 _ rfl⟩

/-! ## Module names and descriptor names -/

theorem HasSuffixString_iff (str suffix : Str) :
    HasSuffixString str suffix = true ↔ suffix <:+ str := by
  unfold HasSuffixString
  constructor
  · intro h
    simp only [Bool.and_eq_true, decide_eq_true_eq, beq_iff_eq] at h
    rw [← h.2]
    exact List.drop_suffix _ _
  · rintro ⟨t, rfl⟩
    simp

theorem StripSuffixString_append (b suffix : Str) :
    StripSuffixString (b ++ suffix) suffix = b := by
  have h : HasSuffixString (b ++ suffix) suffix = true :=
    (HasSuffixString_iff _ _).mpr (List.suffix_append _ _)
  simp [StripSuffixString, h]

theorem StripProto_protodevel (b : Str) : StripProto (b ++ ".protodevel".toList) = b := by
  have h : HasSuffixString (b ++ ".protodevel".toList) ".protodevel".toList = true :=
    (HasSuffixString_iff _ _).mpr (List.suffix_append _ _)
  simp only [StripProto, h, if_true]
  exact StripSuffixString_append b _

theorem StripProto_proto (b : Str) : StripProto (b ++ ".proto".toList) = b := by
  have h : HasSuffixString (b ++ ".proto".toList) ".protodevel".toList = false := by
    rw [Bool.eq_false_iff]
    intro h
    rw [HasSuffixString_iff] at h
    have h2 : ".proto".toList <:+ b ++ ".proto".toList := List.suffix_append _ _
    have h3 := List.suffix_of_suffix_length_le h2 h (by decide)
    revert h3
    decide
  simp only [StripProto, h, Bool.false_eq_true, if_false]
  exact StripSuffixString_append b _

theorem StripProto_other (f : Str) (h1 : ¬ ".protodevel".toList <:+ f)
    (h2 : ¬ ".proto".toList <:+ f) : StripProto f = f := by
  have e1 : HasSuffixString f ".protodevel".toList = false := by
    rw [Bool.eq_false_iff, Ne, HasSuffixString_iff]; exact h1
  have e2 : HasSuffixString f ".proto".toList = false := by
    rw [Bool.eq_false_iff, Ne, HasSuffixString_iff]; exact h2
  simp only [StripProto, e1, Bool.false_eq_true, if_false, StripSuffixString, e2]

theorem StripSuffixString_initial (s suffix : Str) : StripSuffixString s suffix <+: s := by
  unfold StripSuffixString
  split
  · exact List.take_prefix _ _
  · exact List.prefix_refl _

theorem StripProto_initial (f : Str) : StripProto f <+: f :=
  StripSuffixString_initial f _

/-- C11, as stated, fails: `ModuleName` also replaces the hyphen of "a-b.proto" by
an underscore, a change that the statement excludes. -/
theorem C11_ModuleName_hyphen_counterexample :
    ModuleName "a-b.proto".toList = "a_b_pb".toList ∧
      ModuleName_as_stated "a-b.proto".toList = "a-b_pb".toList ∧
      ModuleName "a-b.proto".toList ≠ ModuleName_as_stated "a-b.proto".toList := by
  decide

/-- C11, amended. `ModuleName(f)` is f with a trailing ".protodevel" or ".proto" suffix
stripped, every hyphen replaced by an underscore and every path separator by
a dot, with "_pb" appended; no other character changes, so for a file name
without hyphen it is what the statement says. -/
theorem C11_ModuleName_strip_replace_append (f : Str) :
    ModuleName f =
        (StripProto f).map (fun c => if c = '-' then '_' else if c = '/' then '.' else c) ++
          "_pb".toList ∧
      (∀ b, f = b ++ ".protodevel".toList → StripProto f = b) ∧
      (∀ b, f = b ++ ".proto".toList → StripProto f = b) ∧
      (¬ ".protodevel".toList <:+ f → ¬ ".proto".toList <:+ f → StripProto f = f) ∧
      ('-' ∉ f → ModuleName f = ModuleName_as_stated f) := by
  have main : ∀ s : Str, StripString (StripString s "-".toList '_') "/".toList '.' =
      s.map (fun c => if c = '-' then '_' else if c = '/' then '.' else c) := by
    intro s
    simp only [StripString, List.map_map]
    apply List.map_congr_left
    intro c _
    by_cases h1 : c = '-'
    · subst h1; decide
    · by_cases h2 : c = '/'
      · subst h2; decide
      · simp [h1, h2, String.toList]
  refine ⟨?_, ?_, ?_, ?_, ?_⟩
  · simp only [ModuleName, main]
  · rintro b rfl; exact StripProto_protodevel b
  · rintro b rfl; exact StripProto_proto b
  · exact StripProto_other f
  · intro h
    simp only [ModuleName, main, ModuleName_as_stated]
    congr 1
    apply List.map_congr_left
    intro c hc
    have hcf : c ∈ f := by
      exact (StripProto_initial f).subset hc
    have : c ≠ '-' := fun e => h (e ▸ hcf)
    simp [this]


/-- Witness of C11, amended: "dir/a.proto" has no hyphen. -/
theorem C11_ModuleName_strip_replace_append_witness :
    "dir/a.proto".toList = "dir/a".toList ++ ".proto".toList ∧
      StripProto "dir/a.proto".toList = "dir/a".toList ∧
      '-' ∉ "dir/a.proto".toList ∧
      ModuleName "dir/a.proto".toList = ModuleName_as_stated "dir/a.proto".toList :=
  ⟨rfl, (C11_ModuleName_strip_replace_append "dir/a.proto".toList).2.2.1 "dir/a".toList rfl,
    by decide,
    (C11_ModuleName_strip_replace_append "dir/a.proto".toList).2.2.2.2 (by decide)⟩

theorem join_names_snoc2 (sep a b : Str) (xs : List Str) :
    join_names sep (xs ++ [a ++ sep ++ b]) = join_names sep (xs ++ [a] ++ [b]) := by
  induction xs with
  | nil => simp [join_names]
  | cons x rest ih =>
    cases rest with
    | nil => simp [join_names]
    | cons y ys =>
      simp only [List.cons_append] at ih ⊢
      show x ++ sep ++ join_names sep (y :: (ys ++ [a ++ sep ++ b])) =
        x ++ sep ++ join_names sep (y :: (ys ++ [a] ++ [b]))
      rw [ih]

theorem NamePrefixedWithNestedTypes.loop_eq (sep : Str) (p : DescriptorPtr) (name : Str) :
    NamePrefixedWithNestedTypes.loop sep p name = join_names sep (p.names ++ [name]) := by
  induction p generalizing name with
  | NULL => simp [NamePrefixedWithNestedTypes.loop, DescriptorPtr.names, join_names]
  | ptr n f c ih =>
    simp only [NamePrefixedWithNestedTypes.loop, DescriptorPtr.names]
    rw [ih, join_names_snoc2]

theorem NamePrefixedWithNestedTypes_eq (d : DescriptorT) (sep : Str) :
    NamePrefixedWithNestedTypes d sep = join_names sep d.name_chain :=
  NamePrefixedWithNestedTypes.loop_eq sep d.containing_type d.name

/-- C12. For a descriptor whose containing types, outermost first, followed by itself
have the names n_1 .. n_k, `ModuleLevelDescriptorName` is "_" followed by the
upper-cased n_1 ++ "_" ++ ... ++ "_" ++ n_k when the descriptor belongs to the
file being generated, and that string prefixed with the alias of the
descriptor's file and a dot when it belongs to another file. -/
theorem C12_ModuleLevelDescriptorName (file_ : FileDescriptor) (d : DescriptorT) :
    (d.file = file_.name →
        ModuleLevelDescriptorName file_ d =
          "_".toList ++ UpperString (join_names "_".toList d.name_chain)) ∧
      (d.file ≠ file_.name →
        ModuleLevelDescriptorName file_ d =
          ModuleAlias d.file ++ ".".toList ++
            ("_".toList ++ UpperString (join_names "_".toList d.name_chain))) := by
  constructor
  · intro h
    simp only [ModuleLevelDescriptorName, NamePrefixedWithNestedTypes_eq, h, ne_eq,
      not_true_eq_false, if_false]
  · intro h
    simp only [ModuleLevelDescriptorName, NamePrefixedWithNestedTypes_eq, ne_eq, h,
      not_false_eq_true, if_true]

/-- Witness of C12: the enum `Outer.Inner.Kind` of "nest.proto", seen from its own
file and from "point.proto". -/
theorem C12_ModuleLevelDescriptorName_witness :
    Example.Kind.toDescriptorT.file = Example.nested_file.name ∧
      ModuleLevelDescriptorName Example.nested_file Example.Kind.toDescriptorT =
        "_OUTER_INNER_KIND".toList ∧
      Example.Kind.toDescriptorT.file ≠ Example.point_file.name ∧
      ModuleLevelDescriptorName Example.point_file Example.Kind.toDescriptorT =
        "nest__pb._OUTER_INNER_KIND".toList :=
  ⟨rfl,
    ((C12_ModuleLevelDescriptorName Example.nested_file Example.Kind.toDescriptorT).1
      rfl).trans (by decide),
    by decide,
    ((C12_ModuleLevelDescriptorName Example.point_file Example.Kind.toDescriptorT).2
      (by decide)).trans (by decide)⟩

set_option maxRecDepth 100000 in
/-- C13. Known gap: in "clash.proto" the messages `Outer.A_.B` and `Outer.A._B` are
distinct and get the same identifier from `ModuleLevelDescriptorName`, and so
do `OuterProto.ProtoA.ProtoB` and `OuterProto_ProtoA.ProtoB`; `Generate` runs
to its end on the file and prints the Struct records of all of them. -/
theorem C13_ModuleLevelDescriptorName_collides :
    Example.A_B.toDescriptorT ≠ Example.A__B.toDescriptorT ∧
      ModuleLevelDescriptorName Example.clash_file Example.A_B.toDescriptorT =
        "_OUTER_A__B".toList ∧
      ModuleLevelDescriptorName Example.clash_file Example.A__B.toDescriptorT =
        "_OUTER_A__B".toList ∧
      Example.nested_ProtoB.toDescriptorT ≠ Example.flat_ProtoB.toDescriptorT ∧
      ModuleLevelDescriptorName Example.clash_file Example.nested_ProtoB.toDescriptorT =
        "_OUTERPROTO_PROTOA_PROTOB".toList ∧
      ModuleLevelDescriptorName Example.clash_file Example.flat_ProtoB.toDescriptorT =
        "_OUTERPROTO_PROTOA_PROTOB".toList ∧
      (Generate Example.fmt Example.context Example.generator Example.clash_file).isSome =
        true ∧
      (Example.run Example.clash_file).generator.printer_.filterMap struct_record_name =
        ["B".toList, "A_".toList, "_B".toList, "A".toList, "Outer".toList, "ProtoB".toList,
         "ProtoA".toList, "OuterProto".toList, "ProtoB".toList, "OuterProto_ProtoA".toList] := by
  refine ⟨?_, ?_, ?_, ?_, ?_, ?_, ?_, ?_⟩ <;> decide

/-- The file name that a run of `Generate` that returns asked the sink to open. -/
theorem Generate_filename (fmt : FloatFormat) (context : GeneratorContext) (g : Generator)
    (file : FileDescriptor) (r : GenerateResult) (h : Generate fmt context g file = some r) :
    r.filename = StripString (ModuleName file.name) ".".toList '/' ++ ".json".toList ∧
      context.Open r.filename = true := by
  unfold Generate at h
  simp only at h
  split at h
  · exact absurd h (by simp)
  · rename_i hopen
    split at h
    · exact absurd h (by simp)
    · simp only [Option.some.injEq] at h
      rw [← h]
      exact ⟨rfl, by simpa using hopen⟩

set_option maxRecDepth 100000 in
/-- C14, as stated, fails: for "a/b.proto" the module name is "a.b_pb", and `Generate`
asks the sink to open "a/b_pb.json", not "a.b_pb.json". -/
theorem C14_output_filename_counterexample :
    ModuleName Example.path_file.name ++ ".json".toList = "a.b_pb.json".toList ∧
      (Generate Example.fmt Example.context Example.generator Example.path_file).map
        (fun r => r.filename) = some "a/b_pb.json".toList := by
  constructor <;> decide

/-- C14, amended. The file name that `Generate` asks the sink to open is the module name
of the file with every dot replaced by the path separator, followed by
".json"; a run returns only if the sink opens that name, and aborts if it
does not.  For a module name without dot it is the module name followed by
".json". -/
theorem C14_output_filename (fmt : FloatFormat) (context : GeneratorContext) (g : Generator)
    (file : FileDescriptor) :
    (∀ r, Generate fmt context g file = some r →
        r.filename = (ModuleName file.name).map (fun c => if c = '.' then '/' else c) ++
          ".json".toList ∧ context.Open r.filename = true) ∧
      (context.Open ((ModuleName file.name).map (fun c => if c = '.' then '/' else c) ++
          ".json".toList) = false → Generate fmt context g file = none) ∧
      ('.' ∉ ModuleName file.name →
        (ModuleName file.name).map (fun c => if c = '.' then '/' else c) ++ ".json".toList =
          ModuleName file.name ++ ".json".toList) := by
  have e : StripString (ModuleName file.name) ".".toList '/' =
      (ModuleName file.name).map (fun c => if c = '.' then '/' else c) := by
    unfold StripString
    apply List.map_congr_left
    intro c _
    by_cases h : c = '.'
    · subst h; decide
    · simp [h, String.toList]
  refine ⟨fun r hr => ?_, fun hopen => ?_, fun hdot => ?_⟩
  · rw [← e]
    exact Generate_filename fmt context g file r hr
  · rw [← e] at hopen
    unfold Generate
    simp only [hopen, if_true]
  · congr 1
    conv_rhs => rw [← List.map_id (ModuleName file.name)]
    apply List.map_congr_left
    intro c hc
    have : c ≠ '.' := fun h => hdot (h ▸ hc)
    simp [this]

/-- Witness of C14, amended: "point.proto". -/
theorem C14_output_filename_witness :
    Generate Example.fmt Example.context Example.generator Example.point_file =
        some (Example.run Example.point_file) ∧
      '.' ∉ ModuleName Example.point_file.name ∧
      (Example.run Example.point_file).filename = "point_pb.json".toList :=
  ⟨rfl, by decide,
    ((C14_output_filename Example.fmt Example.context Example.generator
      Example.point_file).1 _ rfl).1.trans (by decide)⟩

/-! ## The generator reads of `file_`, below `Generate`, its name only -/

theorem OptionsValue_congr (a b : FileDescriptor) (h : a.name = b.name) (c s : Str) :
    OptionsValue a c s = OptionsValue b c s := by
  simp only [OptionsValue, GeneratingDescriptorProto, h]

theorem ModuleLevelDescriptorName_congr (a b : FileDescriptor) (h : a.name = b.name)
    (d : DescriptorT) : ModuleLevelDescriptorName a d = ModuleLevelDescriptorName b d := by
  simp only [ModuleLevelDescriptorName, h]

theorem FieldReferencingExpression_congr (a b : FileDescriptor) (h : a.name = b.name)
    (ct : DescriptorPtr) (f : FieldDescriptor) (n : Str) :
    FieldReferencingExpression a ct f n = FieldReferencingExpression b ct f n := by
  cases ct <;>
    simp only [FieldReferencingExpression, h, ModuleLevelDescriptorName_congr a b h]

theorem PrintFieldDescriptor_congr (fmt : FloatFormat) (a b : FileDescriptor)
    (h : a.name = b.name) (f : FieldDescriptor) (e : Bool) :
    PrintFieldDescriptor fmt a f e = PrintFieldDescriptor fmt b f e := by
  simp only [PrintFieldDescriptor, PrintFieldDescriptor.m, OptionsValue_congr a b h]

theorem PrintEnum_values_congr (a b : FileDescriptor) (h : a.name = b.name)
    (vs : List EnumValueDescriptor) (i : Nat) :
    PrintEnum.values a i vs = PrintEnum.values b i vs := by
  induction vs generalizing i with
  | nil => rfl
  | cons v rest ih => simp only [PrintEnum.values, OptionsValue_congr a b h, ih]

theorem PrintEnum_congr (a b : FileDescriptor) (h : a.name = b.name) (e : EnumDescriptor) :
    PrintEnum a e = PrintEnum b e := by
  simp only [PrintEnum, PrintEnum_values_congr a b h]

theorem PrintNestedEnums_enums_congr (a b : FileDescriptor) (h : a.name = b.name)
    (es : List EnumDescriptor) (sep : Str) :
    PrintNestedEnums.enums a es sep = PrintNestedEnums.enums b es sep := by
  induction es generalizing sep with
  | nil => rfl
  | cons e rest ih => simp only [PrintNestedEnums.enums, PrintEnum_congr a b h, ih]

mutual
theorem PrintNestedEnums_congr (a b : FileDescriptor) (h : a.name = b.name) :
    ∀ (d : Descriptor) (sep : Str), PrintNestedEnums a d sep = PrintNestedEnums b d sep
  | .mk _ _ _ _ _ nested_type enum_type _ _ _ _, sep => by
    simp only [PrintNestedEnums, PrintNestedEnums_nested_congr a b h nested_type,
      PrintNestedEnums_enums_congr a b h]
theorem PrintNestedEnums_nested_congr (a b : FileDescriptor) (h : a.name = b.name) :
    ∀ (ds : List Descriptor) (sep : Str),
      PrintNestedEnums.nested a ds sep = PrintNestedEnums.nested b ds sep
  | [], _ => rfl
  | d :: rest, sep => by
    simp only [PrintNestedEnums.nested, PrintNestedEnums_congr a b h d,
      PrintNestedEnums_nested_congr a b h rest]
end

theorem PrintDescriptor_fields_congr (fmt : FloatFormat) (a b : FileDescriptor)
    (h : a.name = b.name) (fs : List FieldDescriptor) (sep : Str) :
    PrintDescriptor.fields fmt a fs sep = PrintDescriptor.fields fmt b fs sep := by
  induction fs generalizing sep with
  | nil => rfl
  | cons f rest ih =>
    simp only [PrintDescriptor.fields, PrintFieldDescriptor_congr fmt a b h, ih]

theorem PrintDescriptor_definition_congr (fmt : FloatFormat) (a b : FileDescriptor)
    (h : a.name = b.name) (name full_name : Str) (fs : List FieldDescriptor)
    (er : List ExtensionRange) (od : List OneofDescriptor) :
    PrintDescriptor.definition fmt a name full_name fs er od =
      PrintDescriptor.definition fmt b name full_name fs er od := by
  simp only [PrintDescriptor.definition, PrintDescriptor_fields_congr fmt a b h]

mutual
theorem PrintDescriptor_congr (fmt : FloatFormat) (a b : FileDescriptor) (h : a.name = b.name) :
    ∀ (d : Descriptor), PrintDescriptor fmt a d = PrintDescriptor fmt b d
  | .mk name full_name _ _ field nested_type _ _ er od _ => by
    simp only [PrintDescriptor, PrintDescriptor_nested_congr fmt a b h nested_type,
      PrintDescriptor_definition_congr fmt a b h]
theorem PrintDescriptor_nested_congr (fmt : FloatFormat) (a b : FileDescriptor)
    (h : a.name = b.name) :
    ∀ (ds : List Descriptor) (sep : Str),
      PrintDescriptor.nested fmt a ds sep = PrintDescriptor.nested fmt b ds sep
  | [], _ => rfl
  | .mk name full_name file ct field nested_type enum_type extension er od options :: rest,
      sep => by
    simp only [PrintDescriptor.nested, PrintDescriptor_nested_congr fmt a b h rest,
      PrintDescriptor_congr fmt a b h
        (.mk name full_name file ct field nested_type enum_type extension er od options)]
end

theorem FixOptionsForEnum_congr (a b : FileDescriptor) (h : a.name = b.name)
    (e : EnumDescriptor) : FixOptionsForEnum a e = FixOptionsForEnum b e := by
  simp only [FixOptionsForEnum, OptionsValue_congr a b h,
    ModuleLevelDescriptorName_congr a b h]

theorem FixOptionsForField_congr (a b : FileDescriptor) (h : a.name = b.name)
    (f : FieldDescriptor) : FixOptionsForField a f = FixOptionsForField b f := by
  simp only [FixOptionsForField, OptionsValue_congr a b h,
    FieldReferencingExpression_congr a b h]

theorem FixOptionsForField_loop_congr (a b : FileDescriptor) (h : a.name = b.name)
    (fs : List FieldDescriptor) :
    FixOptionsForField.loop a fs = FixOptionsForField.loop b fs := by
  induction fs with
  | nil => rfl
  | cons f rest ih => simp only [FixOptionsForField.loop, FixOptionsForField_congr a b h, ih]

mutual
theorem FixOptionsForMessage_congr (a b : FileDescriptor) (h : a.name = b.name) :
    ∀ (d : Descriptor), FixOptionsForMessage a d = FixOptionsForMessage b d
  | .mk name _ file ct field nested_type enum_type extension _ _ options => by
    have e : (fun x => FixOptionsForEnum a x) = fun x => FixOptionsForEnum b x :=
      funext (FixOptionsForEnum_congr a b h)
    simp only [FixOptionsForMessage, FixOptionsForMessage_nested_congr a b h nested_type,
      FixOptionsForField_loop_congr a b h, OptionsValue_congr a b h,
      ModuleLevelDescriptorName_congr a b h, e]
theorem FixOptionsForMessage_nested_congr (a b : FileDescriptor) (h : a.name = b.name) :
    ∀ (ds : List Descriptor), FixOptionsForMessage.nested a ds = FixOptionsForMessage.nested b ds
  | [] => rfl
  | d :: rest => by
    simp only [FixOptionsForMessage.nested, FixOptionsForMessage_congr a b h d,
      FixOptionsForMessage_nested_congr a b h rest]
end

theorem Generate_enum_types_congr (a b : FileDescriptor) (h : a.name = b.name)
    (es : List EnumDescriptor) (sep esep : Str) :
    Generate.enum_types a es sep esep = Generate.enum_types b es sep esep := by
  induction es generalizing sep esep with
  | nil => rfl
  | cons e rest ih =>
    simp only [Generate.enum_types, PrintEnum_congr a b h,
      ModuleLevelDescriptorName_congr a b h, ih]

theorem Generate_extensions_congr (fmt : FloatFormat) (a b : FileDescriptor)
    (h : a.name = b.name) (fs : List FieldDescriptor) (sep : Str) :
    Generate.extensions fmt a fs sep = Generate.extensions fmt b fs sep := by
  induction fs generalizing sep with
  | nil => rfl
  | cons f rest ih =>
    simp only [Generate.extensions, PrintFieldDescriptor_congr fmt a b h, ih]

theorem Generate_nested_enums_congr (a b : FileDescriptor) (h : a.name = b.name)
    (ds : List Descriptor) (sep : Str) :
    Generate.nested_enums a ds sep = Generate.nested_enums b ds sep := by
  induction ds generalizing sep with
  | nil => rfl
  | cons d rest ih => simp only [Generate.nested_enums, PrintNestedEnums_congr a b h, ih]

theorem Generate_message_types_congr (fmt : FloatFormat) (a b : FileDescriptor)
    (h : a.name = b.name) (ds : List Descriptor) (sep : Str) :
    Generate.message_types fmt a ds sep = Generate.message_types fmt b ds sep := by
  induction ds generalizing sep with
  | nil => rfl
  | cons d rest ih => simp only [Generate.message_types, PrintDescriptor_congr fmt a b h, ih]

theorem Generate_methods_congr (a b : FileDescriptor) (h : a.name = b.name)
    (ms : List MethodDescriptor) (sep : Str) :
    Generate.methods a ms sep = Generate.methods b ms sep := by
  induction ms generalizing sep with
  | nil => rfl
  | cons m rest ih => simp only [Generate.methods, OptionsValue_congr a b h, ih]

theorem Generate_services_congr (a b : FileDescriptor) (h : a.name = b.name)
    (ss : List ServiceDescriptor) (i : Nat) :
    Generate.services a i ss = Generate.services b i ss := by
  induction ss generalizing i with
  | nil => rfl
  | cons s rest ih =>
    simp only [Generate.services, OptionsValue_congr a b h, Generate_methods_congr a b h, ih]

/-- What a run made of the sink: the calls on the printer, the file name and the
value returned. -/
theorem Generate_syntax_irrelevant (fmt : FloatFormat) (context : GeneratorContext)
    (g : Generator) (file : FileDescriptor) (s : Syntax) :
    (Generate fmt context g { file with syntax_ := s }).map
        (fun r => (r.generator.printer_, r.filename, r.returned)) =
      (Generate fmt context g file).map
        (fun r => (r.generator.printer_, r.filename, r.returned)) := by
  have h : ({ file with syntax_ := s } : FileDescriptor).name = file.name := rfl
  have efix : FixAllDescriptorOptions { file with syntax_ := s } =
      FixAllDescriptorOptions file := by
    have e : (fun x => FixOptionsForEnum { file with syntax_ := s } x) =
        fun x => FixOptionsForEnum file x := funext (FixOptionsForEnum_congr _ _ h)
    simp only [FixAllDescriptorOptions, OptionsValue_congr _ _ h, e,
      FixOptionsForField_loop_congr _ _ h, FixOptionsForMessage_nested_congr _ _ h]
  unfold Generate
  simp only [efix, Generate_enum_types_congr _ _ h, Generate_extensions_congr fmt _ _ h,
    Generate_nested_enums_congr _ _ h, Generate_message_types_congr fmt _ _ h,
    Generate_services_congr _ _ h]
  split
  · rfl
  · split
    · rfl
    · rfl

/-! ## The template texts of each part of the output -/

theorem TextsIn_nil (T : List Str) : TextsIn T [] := fun _ h => absurd h (List.not_mem_nil _)

theorem TextsIn_cons_Print (T : List Str) (vars : List (Str × Str)) (text : Str)
    (l : List PrinterCall) :
    TextsIn T (.Print vars text :: l) ↔ text ∈ T ∧ TextsIn T l := by
  simp [TextsIn, call_text]

theorem TextsIn_cons_Print0 (T : List Str) (text : Str) (l : List PrinterCall) :
    TextsIn T (Print0 text :: l) ↔ text ∈ T ∧ TextsIn T l :=
  TextsIn_cons_Print T [] text l

theorem TextsIn_cons_Indent (T : List Str) (l : List PrinterCall) :
    TextsIn T (.Indent :: l) ↔ TextsIn T l := by
  simp [TextsIn, call_text]

theorem TextsIn_cons_Outdent (T : List Str) (l : List PrinterCall) :
    TextsIn T (.Outdent :: l) ↔ TextsIn T l := by
  simp [TextsIn, call_text]

theorem TextsIn_append (T : List Str) (a b : List PrinterCall) :
    TextsIn T (a ++ b) ↔ TextsIn T a ∧ TextsIn T b := by
  simp [TextsIn, or_imp, forall_and]

theorem TextsIn_flatMap {α : Type} (T : List Str) (l : List α) (f : α → List PrinterCall)
    (h : ∀ x ∈ l, TextsIn T (f x)) : TextsIn T (l.flatMap f) := by
  intro c hc
  obtain ⟨x, hx, hcx⟩ := List.mem_flatMap.mp hc
  exact h x hx c hcx

theorem TextsIn_not_mem {T : List Str} {l : List PrinterCall} (h : TextsIn T l) (t : Str)
    (ht : t ∉ T) : ∀ c ∈ l, call_text c ≠ some t :=
  fun c hc e => ht (h c hc t e)

theorem PrintFieldDescriptor_texts (fmt : FloatFormat) (file_ : FileDescriptor)
    (field : FieldDescriptor) (b : Bool) :
    TextsIn globaldecls_texts (PrintFieldDescriptor fmt file_ field b) := by
  simp only [PrintFieldDescriptor, TextsIn_cons_Print]
  exact ⟨by decide, TextsIn_nil _⟩

theorem PrintEnum_values_texts (file_ : FileDescriptor) (vs : List EnumValueDescriptor)
    (i : Nat) : TextsIn globaldecls_texts (PrintEnum.values file_ i vs) := by
  induction vs generalizing i with
  | nil => exact TextsIn_nil _
  | cons v rest ih =>
    simp only [PrintEnum.values, TextsIn_append, TextsIn_cons_Print]
    refine ⟨⟨?_, by decide, TextsIn_nil _⟩, ih _⟩
    split
    · simp only [TextsIn_cons_Print]
      exact ⟨by decide, TextsIn_nil _⟩
    · exact TextsIn_nil _

theorem PrintEnum_texts (file_ : FileDescriptor) (e : EnumDescriptor) :
    TextsIn globaldecls_texts (PrintEnum file_ e).printer := by
  simp only [PrintEnum, TextsIn_append, TextsIn_cons_Print, TextsIn_cons_Indent,
    TextsIn_cons_Outdent]
  exact ⟨⟨⟨by decide, TextsIn_nil _⟩, PrintEnum_values_texts _ _ _⟩, by decide, TextsIn_nil _⟩

theorem PrintNestedEnums_enums_texts (file_ : FileDescriptor) (es : List EnumDescriptor)
    (sep : Str) : TextsIn globaldecls_texts (PrintNestedEnums.enums file_ es sep).printer := by
  induction es generalizing sep with
  | nil => exact TextsIn_nil _
  | cons e rest ih =>
    simp only [PrintNestedEnums.enums, TextsIn_append]
    exact ⟨PrintEnum_texts _ _, ih _⟩

mutual
theorem PrintNestedEnums_texts (file_ : FileDescriptor) :
    ∀ (d : Descriptor) (sep : Str),
      TextsIn globaldecls_texts (PrintNestedEnums file_ d sep).printer
  | .mk _ _ _ _ _ nested_type enum_type _ _ _ _, sep => by
    simp only [PrintNestedEnums, TextsIn_append]
    exact ⟨PrintNestedEnums_nested_texts file_ nested_type sep,
      PrintNestedEnums_enums_texts _ _ _⟩
theorem PrintNestedEnums_nested_texts (file_ : FileDescriptor) :
    ∀ (ds : List Descriptor) (sep : Str),
      TextsIn globaldecls_texts (PrintNestedEnums.nested file_ ds sep).printer
  | [], _ => TextsIn_nil _
  | d :: rest, sep => by
    simp only [PrintNestedEnums.nested, TextsIn_append]
    exact ⟨PrintNestedEnums_texts file_ d sep, PrintNestedEnums_nested_texts file_ rest _⟩
end

theorem Generate_nested_enums_texts (file_ : FileDescriptor) (ds : List Descriptor)
    (sep : Str) : TextsIn globaldecls_texts (Generate.nested_enums file_ ds sep).printer := by
  induction ds generalizing sep with
  | nil => exact TextsIn_nil _
  | cons d rest ih =>
    simp only [Generate.nested_enums, TextsIn_append]
    exact ⟨PrintNestedEnums_texts _ _ _, ih _⟩

/-- The static `enum_separator` holds " " or "," when the loop over the nested enums
is left. -/
theorem PrintNestedEnums_enums_separator (file_ : FileDescriptor) (es : List EnumDescriptor)
    (sep : Str) (h : sep = " ".toList ∨ sep = ",".toList) :
    (PrintNestedEnums.enums file_ es sep).enum_separator = " ".toList ∨
      (PrintNestedEnums.enums file_ es sep).enum_separator = ",".toList := by
  induction es generalizing sep with
  | nil => exact h
  | cons e rest ih =>
    simp only [PrintNestedEnums.enums]
    exact ih _ (Or.inr rfl)

mutual
theorem PrintNestedEnums_separator (file_ : FileDescriptor) :
    ∀ (d : Descriptor) (sep : Str), (sep = " ".toList ∨ sep = ",".toList) →
      (PrintNestedEnums file_ d sep).enum_separator = " ".toList ∨
        (PrintNestedEnums file_ d sep).enum_separator = ",".toList
  | .mk _ _ _ _ _ nested_type enum_type _ _ _ _, sep, h => by
    simp only [PrintNestedEnums]
    exact PrintNestedEnums_enums_separator _ _ _
      (PrintNestedEnums_nested_separator file_ nested_type sep h)
theorem PrintNestedEnums_nested_separator (file_ : FileDescriptor) :
    ∀ (ds : List Descriptor) (sep : Str), (sep = " ".toList ∨ sep = ",".toList) →
      (PrintNestedEnums.nested file_ ds sep).enum_separator = " ".toList ∨
        (PrintNestedEnums.nested file_ ds sep).enum_separator = ",".toList
  | [], _, h => h
  | d :: rest, sep, h => by
    simp only [PrintNestedEnums.nested]
    exact PrintNestedEnums_nested_separator file_ rest _
      (PrintNestedEnums_separator file_ d sep h)
end

theorem Generate_nested_enums_separator (file_ : FileDescriptor) (ds : List Descriptor)
    (sep : Str) (h : sep = " ".toList ∨ sep = ",".toList) :
    (Generate.nested_enums file_ ds sep).enum_separator = " ".toList ∨
      (Generate.nested_enums file_ ds sep).enum_separator = ",".toList := by
  induction ds generalizing sep with
  | nil => exact h
  | cons d rest ih =>
    simp only [Generate.nested_enums]
    exact ih _ (PrintNestedEnums_separator file_ d sep h)

theorem separator_mem_globaldecls_texts (sep : Str)
    (h : sep = " ".toList ∨ sep = ",".toList) : sep ∈ globaldecls_texts := by
  rcases h with h | h <;> subst h <;> decide

mutual
theorem CopyPublicDependenciesAliases_texts (copy_from : Str) :
    ∀ (f : ImportedFile), TextsIn globaldecls_texts (CopyPublicDependenciesAliases copy_from f)
  | .mk _ public_dependency => by
    simp only [CopyPublicDependenciesAliases]
    exact CopyPublicDependenciesAliases_loop_texts copy_from public_dependency
theorem CopyPublicDependenciesAliases_loop_texts (copy_from : Str) :
    ∀ (fs : List ImportedFile),
      TextsIn globaldecls_texts (CopyPublicDependenciesAliases.loop copy_from fs)
  | [] => TextsIn_nil _
  | .mk name public_dependency :: rest => by
    simp only [CopyPublicDependenciesAliases.loop, TextsIn_append, TextsIn_cons_Print]
    exact ⟨⟨⟨by decide, TextsIn_nil _⟩,
      CopyPublicDependenciesAliases_texts copy_from (.mk name public_dependency)⟩,
      CopyPublicDependenciesAliases_loop_texts copy_from rest⟩
end

theorem PrintImports_texts (file_ : FileDescriptor) :
    TextsIn globaldecls_texts (PrintImports file_) := by
  simp only [PrintImports, TextsIn_append]
  refine ⟨TextsIn_flatMap _ _ _ fun dep _ => ?_, TextsIn_flatMap _ _ _ fun dep _ => ?_⟩
  · simp only [TextsIn_append, TextsIn_cons_Print]
    exact ⟨⟨by decide, TextsIn_nil _⟩, CopyPublicDependenciesAliases_texts _ _⟩
  · simp only [TextsIn_cons_Print]
    exact ⟨by decide, TextsIn_nil _⟩

theorem Generate_enum_types_texts (file_ : FileDescriptor) (es : List EnumDescriptor)
    (sep esep : Str) (h : sep ∈ globaldecls_texts) :
    TextsIn globaldecls_texts (Generate.enum_types file_ es sep esep).printer := by
  induction es generalizing sep esep with
  | nil => exact TextsIn_nil _
  | cons e rest ih =>
    simp only [Generate.enum_types, TextsIn_append, TextsIn_cons_Print, TextsIn_cons_Print0]
    exact ⟨⟨⟨⟨by decide, h, TextsIn_nil _⟩, PrintEnum_texts _ _⟩, by decide, TextsIn_nil _⟩,
      ih _ _ (by decide)⟩

theorem Generate_enum_types_separator (file_ : FileDescriptor) (es : List EnumDescriptor)
    (sep esep : Str) (h : sep ∈ globaldecls_texts) :
    (Generate.enum_types file_ es sep esep).separator ∈ globaldecls_texts := by
  induction es generalizing sep esep with
  | nil => exact h
  | cons e rest ih =>
    simp only [Generate.enum_types]
    exact ih _ _ (by decide)

theorem Generate_extensions_texts (fmt : FloatFormat) (file_ : FileDescriptor)
    (fs : List FieldDescriptor) (sep : Str) (h : sep ∈ globaldecls_texts) :
    TextsIn globaldecls_texts (Generate.extensions fmt file_ fs sep).1 := by
  induction fs generalizing sep with
  | nil => exact TextsIn_nil _
  | cons f rest ih =>
    simp only [Generate.extensions, TextsIn_append, TextsIn_cons_Print, TextsIn_cons_Print0]
    exact ⟨⟨⟨by decide, h, by decide, by decide, TextsIn_nil _⟩,
      PrintFieldDescriptor_texts _ _ _ _⟩, ih _ (by decide)⟩

theorem PrintDescriptor_fields_texts (fmt : FloatFormat) (file_ : FileDescriptor)
    (fs : List FieldDescriptor) (sep : Str) (h : sep ∈ globaldecls_texts) :
    TextsIn globaldecls_texts (PrintDescriptor.fields fmt file_ fs sep) := by
  induction fs generalizing sep with
  | nil => exact TextsIn_nil _
  | cons f rest ih =>
    simp only [PrintDescriptor.fields, TextsIn_append, TextsIn_cons_Print0]
    exact ⟨⟨⟨h, TextsIn_nil _⟩, PrintFieldDescriptor_texts _ _ _ _⟩, ih _ (by decide)⟩

theorem PrintDescriptor_definition_texts (fmt : FloatFormat) (file_ : FileDescriptor)
    (name full_name : Str) (field : List FieldDescriptor) (er : List ExtensionRange)
    (od : List OneofDescriptor) :
    TextsIn globaldecls_texts
      (PrintDescriptor.definition fmt file_ name full_name field er od) := by
  simp only [PrintDescriptor.definition, TextsIn_append, TextsIn_cons_Print,
    TextsIn_cons_Indent, TextsIn_cons_Outdent]
  refine ⟨⟨⟨⟨⟨⟨by decide, TextsIn_nil _⟩, PrintDescriptor_fields_texts _ _ _ _ (by decide)⟩,
    by decide, TextsIn_nil _⟩, ?_⟩, ?_⟩, TextsIn_nil _⟩
  · split
    · simp only [TextsIn_append, TextsIn_cons_Print0]
      exact ⟨⟨⟨by decide, TextsIn_nil _⟩,
        TextsIn_flatMap _ _ _ fun x _ => by
          simp only [TextsIn_cons_Print]
          exact ⟨by decide, TextsIn_nil _⟩⟩,
        by decide, TextsIn_nil _⟩
    · exact TextsIn_nil _
  · split
    · simp only [TextsIn_append, TextsIn_cons_Print0, TextsIn_cons_Indent,
        TextsIn_cons_Outdent]
      exact ⟨⟨⟨by decide, TextsIn_nil _⟩,
        TextsIn_flatMap _ _ _ fun x _ => by
          simp only [TextsIn_cons_Print]
          exact ⟨by decide, TextsIn_nil _⟩⟩,
        by decide, TextsIn_nil _⟩
    · exact TextsIn_nil _

mutual
theorem PrintDescriptor_texts (fmt : FloatFormat) (file_ : FileDescriptor) :
    ∀ (d : Descriptor), TextsIn globaldecls_texts (PrintDescriptor fmt file_ d)
  | .mk name full_name _ _ field nested_type _ _ er od _ => by
    have hn := PrintDescriptor_nested_texts fmt file_ nested_type " ".toList (by decide)
    simp only [PrintDescriptor]
    split
    · exact hn.1
    · simp only [TextsIn_append, TextsIn_cons_Print0]
      exact ⟨⟨hn.1, hn.2, TextsIn_nil _⟩, PrintDescriptor_definition_texts _ _ _ _ _ _ _⟩
theorem PrintDescriptor_nested_texts (fmt : FloatFormat) (file_ : FileDescriptor) :
    ∀ (ds : List Descriptor) (sep : Str), sep ∈ globaldecls_texts →
      TextsIn globaldecls_texts (PrintDescriptor.nested fmt file_ ds sep).1 ∧
        (PrintDescriptor.nested fmt file_ ds sep).2 ∈ globaldecls_texts
  | [], _, h => ⟨TextsIn_nil _, h⟩
  | .mk name full_name file ct field nested_type enum_type extension er od options :: rest,
      sep, h => by
    simp only [PrintDescriptor.nested]
    split
    · exact PrintDescriptor_nested_texts fmt file_ rest sep h
    · have hr := PrintDescriptor_nested_texts fmt file_ rest ",".toList (by decide)
      simp only [TextsIn_append, TextsIn_cons_Print0]
      exact ⟨⟨⟨⟨h, TextsIn_nil _⟩, PrintDescriptor_texts fmt file_ _⟩, hr.1⟩, hr.2⟩
end

theorem Generate_message_types_texts (fmt : FloatFormat) (file_ : FileDescriptor)
    (ds : List Descriptor) (sep : Str) (h : sep ∈ globaldecls_texts) :
    TextsIn globaldecls_texts (Generate.message_types fmt file_ ds sep) := by
  induction ds generalizing sep with
  | nil => exact TextsIn_nil _
  | cons d rest ih =>
    simp only [Generate.message_types]
    split
    · exact ih _ h
    · simp only [TextsIn_append, TextsIn_cons_Print0]
      exact ⟨⟨⟨h, TextsIn_nil _⟩, PrintDescriptor_texts _ _ _⟩, ih _ (by decide)⟩

theorem PrintDescriptorOptionsFixingCode_texts (d o : Str) :
    TextsIn [option_statement_text] (PrintDescriptorOptionsFixingCode d o) := by
  simp only [PrintDescriptorOptionsFixingCode, TextsIn_cons_Print]
  exact ⟨List.mem_singleton.mpr rfl, TextsIn_nil _⟩

theorem FixOptionsForEnum_texts (file_ : FileDescriptor) (e : EnumDescriptor) :
    TextsIn [option_statement_text] (FixOptionsForEnum file_ e) := by
  simp only [FixOptionsForEnum, TextsIn_append]
  refine ⟨?_, TextsIn_flatMap _ _ _ fun v _ => ?_⟩
  · split
    · exact PrintDescriptorOptionsFixingCode_texts _ _
    · exact TextsIn_nil _
  · split
    · exact PrintDescriptorOptionsFixingCode_texts _ _
    · exact TextsIn_nil _

theorem FixOptionsForField_texts (file_ : FileDescriptor) (f : FieldDescriptor)
    (p : List PrinterCall) (h : FixOptionsForField file_ f = some p) :
    TextsIn [option_statement_text] p := by
  unfold FixOptionsForField at h
  simp only at h
  split at h
  · split at h
    · cases h
    · simp only [Option.some.injEq] at h
      rw [← h]
      exact PrintDescriptorOptionsFixingCode_texts _ _
  · simp only [Option.some.injEq] at h
    rw [← h]
    exact TextsIn_nil _

theorem FixOptionsForField_loop_texts (file_ : FileDescriptor) (fs : List FieldDescriptor)
    (p : List PrinterCall) (h : FixOptionsForField.loop file_ fs = some p) :
    TextsIn [option_statement_text] p := by
  induction fs generalizing p with
  | nil =>
    simp only [FixOptionsForField.loop, Option.some.injEq] at h
    rw [← h]
    exact TextsIn_nil _
  | cons f rest ih =>
    unfold FixOptionsForField.loop at h
    split at h
    · cases h
    · rename_i p1 h1
      split at h
      · cases h
      · rename_i p2 h2
        simp only [Option.some.injEq] at h
        rw [← h, TextsIn_append]
        exact ⟨FixOptionsForField_texts _ _ _ h1, ih _ h2⟩

mutual
theorem FixOptionsForMessage_texts (file_ : FileDescriptor) :
    ∀ (d : Descriptor) (p : List PrinterCall), FixOptionsForMessage file_ d = some p →
      TextsIn [option_statement_text] p
  | .mk name _ file ct field nested_type enum_type extension _ _ options, p, h => by
    unfold FixOptionsForMessage at h
    split at h
    · cases h
    · rename_i p1 h1
      simp only at h
      split at h
      · cases h
      · rename_i p3 h3
        split at h
        · cases h
        · rename_i p4 h4
          simp only [Option.some.injEq] at h
          rw [← h]
          simp only [TextsIn_append]
          refine ⟨⟨⟨⟨FixOptionsForMessage_nested_texts file_ nested_type p1 h1,
            TextsIn_flatMap _ _ _ fun e _ => FixOptionsForEnum_texts _ _⟩,
            FixOptionsForField_loop_texts _ _ _ h3⟩,
            FixOptionsForField_loop_texts _ _ _ h4⟩, ?_⟩
          split
          · exact PrintDescriptorOptionsFixingCode_texts _ _
          · exact TextsIn_nil _
theorem FixOptionsForMessage_nested_texts (file_ : FileDescriptor) :
    ∀ (ds : List Descriptor) (p : List PrinterCall),
      FixOptionsForMessage.nested file_ ds = some p → TextsIn [option_statement_text] p
  | [], p, h => by
    simp only [FixOptionsForMessage.nested, Option.some.injEq] at h
    rw [← h]
    exact TextsIn_nil _
  | d :: rest, p, h => by
    unfold FixOptionsForMessage.nested at h
    split at h
    · cases h
    · rename_i p1 h1
      split at h
      · cases h
      · rename_i p2 h2
        simp only [Option.some.injEq] at h
        rw [← h, TextsIn_append]
        exact ⟨FixOptionsForMessage_texts file_ d p1 h1,
          FixOptionsForMessage_nested_texts file_ rest p2 h2⟩
end

theorem FixAllDescriptorOptions_texts (file_ : FileDescriptor) (p : List PrinterCall)
    (h : FixAllDescriptorOptions file_ = some p) : TextsIn [option_statement_text] p := by
  unfold FixAllDescriptorOptions at h
  simp only at h
  split at h
  · cases h
  · rename_i p3 h3
    split at h
    · cases h
    · rename_i p4 h4
      simp only [Option.some.injEq] at h
      rw [← h]
      simp only [TextsIn_append]
      refine ⟨⟨⟨?_, TextsIn_flatMap _ _ _ fun e _ => FixOptionsForEnum_texts _ _⟩,
        FixOptionsForField_loop_texts _ _ _ h3⟩,
        FixOptionsForMessage_nested_texts _ _ _ h4⟩
      split
      · exact PrintDescriptorOptionsFixingCode_texts _ _
      · exact TextsIn_nil _

theorem Generate_methods_texts (file_ : FileDescriptor) (ms : List MethodDescriptor)
    (sep : Str) (h : sep ∈ interfaces_texts) :
    TextsIn interfaces_texts (Generate.methods file_ ms sep) := by
  induction ms generalizing sep with
  | nil => exact TextsIn_nil _
  | cons m rest ih =>
    simp only [Generate.methods, TextsIn_append, TextsIn_cons_Print, TextsIn_cons_Print0]
    exact ⟨⟨h, by decide, TextsIn_nil _⟩, ih _ (by decide)⟩

theorem Generate_services_texts (file_ : FileDescriptor) (ss : List ServiceDescriptor)
    (i : Nat) : TextsIn interfaces_texts (Generate.services file_ i ss) := by
  induction ss generalizing i with
  | nil => exact TextsIn_nil _
  | cons s rest ih =>
    simp only [Generate.services, TextsIn_append, TextsIn_cons_Print, TextsIn_cons_Print0,
      TextsIn_cons_Indent, TextsIn_cons_Outdent]
    refine ⟨⟨⟨⟨?_, by decide, TextsIn_nil _⟩,
      Generate_methods_texts _ _ _ (by decide)⟩, by decide, TextsIn_nil _⟩, ih _⟩
    split
    · simp only [TextsIn_cons_Print0]
      exact ⟨by decide, TextsIn_nil _⟩
    · exact TextsIn_nil _

/-! ## The three parts of a run of `Generate` -/

/-- The calls of a run of `Generate` that returns are those up to the opener of the
interfaces array, those of the options fix-up pass, and those of the loop
over the services with the closing of the array; each part prints its own
templates. -/
theorem Generate_parts (fmt : FloatFormat) (context : GeneratorContext) (g : Generator)
    (file : FileDescriptor) (r : GenerateResult) (h : Generate fmt context g file = some r) :
    ∃ pre fix, r.generator.printer_ =
        pre ++ fix ++ (Generate.services file 0 file.service ++ [Print0 interfaces_close_text]) ∧
      FixAllDescriptorOptions file = some fix ∧
      TextsIn globaldecls_texts pre ∧
      TextsIn [option_statement_text] fix ∧
      TextsIn interfaces_texts
        (Generate.services file 0 file.service ++ [Print0 interfaces_close_text]) := by
  obtain ⟨fix, hfix, hp⟩ := Generate_some fmt context g file r h
  have hsep1 := Generate_enum_types_separator file file.enum_type " ".toList g.enum_separator
    (by decide)
  have hsep2 := separator_mem_globaldecls_texts _
    (Generate_nested_enums_separator file file.message_type " ".toList (Or.inl rfl))
  refine ⟨[Print0 globaldecls_open_text] ++ PrintImports file ++
      ((Generate.enum_types file file.enum_type " ".toList g.enum_separator).printer ++
        (Generate.enum_types file file.enum_type " ".toList
            g.enum_separator).top_level_enum_values.map fun v =>
          PrinterCall.Print [("name".toList, v.1), ("value".toList, SimpleItoa v.2)]
            "$name$ = $value$\n".toList) ++
      ((Generate.extensions fmt file file.extension
          (Generate.enum_types file file.enum_type " ".toList g.enum_separator).separator).1 ++
        (Generate.nested_enums file file.message_type " ".toList).printer ++
        Generate.message_types fmt file file.message_type
          (Generate.nested_enums file file.message_type " ".toList).enum_separator ++
        [Print0 interfaces_open_text]), fix, ?_, hfix, ?_,
    FixAllDescriptorOptions_texts file fix hfix, ?_⟩
  · rw [hp]
    simp only [List.append_assoc]
  · simp only [TextsIn_append, TextsIn_cons_Print0]
    refine ⟨⟨⟨⟨by decide, TextsIn_nil _⟩, PrintImports_texts file⟩,
      Generate_enum_types_texts file _ _ _ (by decide), ?_⟩,
      ⟨⟨Generate_extensions_texts fmt file _ _ hsep1, Generate_nested_enums_texts file _ _⟩,
        Generate_message_types_texts fmt file _ _ hsep2⟩, by decide, TextsIn_nil _⟩
    intro c hc t ht
    obtain ⟨v, -, hv⟩ := List.mem_map.mp hc
    rw [← hv] at ht
    simp only [call_text, Option.some.injEq] at ht
    rw [← ht]
    decide
  · simp only [TextsIn_append, TextsIn_cons_Print0]
    exact ⟨Generate_services_texts file _ _, by decide, TextsIn_nil _⟩

/-! ## Claims on the syntax version, the interfaces and the options fix-up pass -/

set_option maxRecDepth 100000 in
/-- C15, as stated, fails: the file `Example.unknown_syntax_file` has an unknown syntax
version, and `Generate` runs to its end on it and writes the artifact of
"point.proto". -/
theorem C15_unknown_syntax_counterexample :
    Example.unknown_syntax_file.syntax_ = Syntax.SYNTAX_UNKNOWN ∧
      (Generate Example.fmt Example.context Example.generator
          Example.unknown_syntax_file).map (fun r => (r.text, r.returned)) =
        some (Example.point_text, true) := by
  constructor
  · rfl
  · decide

/-- C15, amended. `StringifySyntax` aborts on an unknown syntax version and gives
"proto2" and "proto3" for the two known ones, but `Generate` does not call
it: whether a run aborts, and the calls, the file name and the value returned
of a run that does not, are the same whatever the syntax version of the
file is. -/
theorem C15_Generate_ignores_syntax (fmt : FloatFormat) (context : GeneratorContext)
    (g : Generator) (file : FileDescriptor) (s : Syntax) :
    StringifySyntax Syntax.SYNTAX_UNKNOWN = none ∧
      StringifySyntax Syntax.SYNTAX_PROTO2 = some "proto2".toList ∧
      StringifySyntax Syntax.SYNTAX_PROTO3 = some "proto3".toList ∧
      (Generate fmt context g { file with syntax_ := s }).map
          (fun r => (r.generator.printer_, r.filename, r.returned)) =
        (Generate fmt context g file).map
          (fun r => (r.generator.printer_, r.filename, r.returned)) :=
  ⟨rfl, rfl, rfl, Generate_syntax_irrelevant fmt context g file s⟩

theorem interface_event_none_of_texts (T : List Str) (l : List PrinterCall)
    (h : TextsIn T l) (h1 : service_open_text ∉ T) (h2 : method_record_text ∉ T)
    (h3 : service_close_text ∉ T) : l.filterMap interface_event = [] := by
  rw [List.filterMap_eq_nil_iff]
  intro c hc
  cases c with
  | Print vars text =>
    have ht : text ∈ T := h _ hc text rfl
    have e1 : text ≠ service_open_text := fun e => h1 (e ▸ ht)
    have e2 : text ≠ method_record_text := fun e => h2 (e ▸ ht)
    have e3 : text ≠ service_close_text := fun e => h3 (e ▸ ht)
    simp only [interface_event, e1, e2, e3, if_false]
  | Indent => rfl
  | Outdent => rfl

theorem interface_event_separator (sep : Str) (h : sep = " ".toList ∨ sep = ",".toList) :
    interface_event (Print0 sep) = none := by
  rcases h with h | h <;> subst h <;> decide

theorem interface_event_method (vars : List (Str × Str)) (dname ptype : Str)
    (h1 : lookup_variable vars "name".toList = some dname)
    (h2 : lookup_variable vars "input_type".toList = some ptype) :
    interface_event (.Print vars method_record_text) =
      some (InterfaceEvent.method dname ptype) := by
  simp only [interface_event]
  rw [if_neg (by decide), if_pos trivial, h1, h2]

theorem interface_event_service (vars : List (Str × Str)) :
    interface_event (.Print vars service_open_text) =
      (lookup_variable vars "name".toList).map InterfaceEvent.service := by
  simp only [interface_event, if_true]

theorem Generate_methods_events (file_ : FileDescriptor) (ms : List MethodDescriptor)
    (sep : Str) (h : sep = " ".toList ∨ sep = ",".toList) :
    (Generate.methods file_ ms sep).filterMap interface_event =
      ms.map fun method => InterfaceEvent.method method.name method.input_type.name := by
  induction ms generalizing sep with
  | nil => rfl
  | cons m rest ih =>
    have e2 : interface_event (.Print
        [("name".toList, m.name), ("full_name".toList, m.full_name),
         ("index".toList, SimpleItoa m.index),
         ("serialized_options".toList, CEscape m.options),
         ("input_type".toList, m.input_type.name),
         ("options_value".toList, OptionsValue file_ "MethodOptions".toList m.options)]
        method_record_text) = some (InterfaceEvent.method m.name m.input_type.name) :=
      interface_event_method _ _ _ rfl rfl
    simp only [Generate.methods, List.cons_append, List.nil_append]
    rw [List.filterMap_cons_none (interface_event_separator sep h),
      List.filterMap_cons_some e2, ih _ (Or.inr rfl)]
    rfl

theorem Generate_services_events (file_ : FileDescriptor) (ss : List ServiceDescriptor)
    (i : Nat) :
    (Generate.services file_ i ss).filterMap interface_event =
      ss.flatMap fun service =>
        [InterfaceEvent.service service.name] ++
          (service.method.map fun method =>
            InterfaceEvent.method method.name method.input_type.name) ++
          [InterfaceEvent.service_end] := by
  induction ss generalizing i with
  | nil => rfl
  | cons s rest ih =>
    have hcomma : (if i ≠ 0 then [Print0 ",".toList] else []).filterMap interface_event = [] := by
      split
      · rfl
      · rfl
    have hopen : interface_event (.Print
        [("name".toList, s.name), ("index".toList, SimpleItoa s.index),
         ("options_value".toList, OptionsValue file_ "ServiceOptions".toList s.options)]
        "        \x7b \"cname\": \"$name$\", \"cdecls\": [\n".toList) =
        some (InterfaceEvent.service s.name) := by
      rw [show "        \x7b \"cname\": \"$name$\", \"cdecls\": [\n".toList = service_open_text
        from rfl, interface_event_service]
      rfl
    have hclose : interface_event (Print0 "            ]\n        \x7d\n".toList) =
        some InterfaceEvent.service_end := by decide
    simp only [Generate.services, List.filterMap_append, hcomma, List.nil_append,
      List.cons_append]
    rw [List.filterMap_cons_some hopen, List.filterMap_cons_none (a := PrinterCall.Indent) rfl,
      List.filterMap_nil, Generate_methods_events file_ s.method _ (Or.inl rfl),
      List.filterMap_cons_none (a := PrinterCall.Outdent) rfl,
      List.filterMap_cons_some hclose, List.filterMap_nil, ih, List.flatMap_cons]
    simp only [List.cons_append, List.nil_append, List.append_assoc]

/-- C16. The interfaces of the output: read in order, the calls of a run of `Generate`
that open a service record, print a method record or close a service record
are, for each service in declared order, the opening with `cname` the name of
the service, one method record per method in declared order with `dname` the
name of the method and `ptype` the name of its input type, and the closing.
The template of a method record refers to the name of the method and, in its
single parameter descriptor, to the name of the input type. -/
theorem C16_interfaces_one_record_per_service_and_method (fmt : FloatFormat)
    (context : GeneratorContext) (g : Generator) (file : FileDescriptor) (r : GenerateResult)
    (h : Generate fmt context g file = some r) :
    r.generator.printer_.filterMap interface_event = interfaces_as_stated file ∧
      template_vars method_record_text none = ["name".toList, "input_type".toList] ∧
      template_vars service_open_text none = ["name".toList] := by
  obtain ⟨pre, fix, hp, -, hpre, hfix, -⟩ := Generate_parts fmt context g file r h
  refine ⟨?_, by decide, by decide⟩
  rw [hp]
  simp only [List.filterMap_append,
    interface_event_none_of_texts _ pre hpre (by decide) (by decide) (by decide),
    interface_event_none_of_texts _ fix hfix (by decide) (by decide) (by decide),
    List.nil_append, Generate_services_events]
  have hclose : [Print0 interfaces_close_text].filterMap interface_event = [] := by decide
  rw [hclose, List.append_nil]
  rfl

set_option maxRecDepth 100000 in
/-- Witness of C16: the service `Store` with the methods `Get` and `Put`. -/
theorem C16_interfaces_one_record_per_service_and_method_witness :
    Generate Example.fmt Example.context Example.generator Example.service_file =
        some (Example.run Example.service_file) ∧
      (Example.run Example.service_file).generator.printer_.filterMap interface_event =
        [InterfaceEvent.service "Store".toList,
         InterfaceEvent.method "Get".toList "Point".toList,
         InterfaceEvent.method "Put".toList "Point".toList,
         InterfaceEvent.service_end] ∧
      (Example.run Example.service_file).text = Example.service_text :=
  ⟨rfl,
    (C16_interfaces_one_record_per_service_and_method Example.fmt Example.context
      Example.generator Example.service_file _ rfl).1.trans (by decide),
    by decide⟩

set_option maxRecDepth 100000 in
/-- C18, as stated, fails: in the run on `Example.service_file` the option-assignment
statement of the file comes before the service record and the method
records, as the text written shows; among the calls, it is the one before
the first service record. -/
theorem C18_options_before_services_counterexample :
    (Generate Example.fmt Example.context Example.generator Example.service_file).map
        (fun r => r.text) = some Example.service_text ∧
      ((Example.run Example.service_file).generator.printer_.filterMap fun c =>
          if call_text c = some option_statement_text then some "options".toList
          else if call_text c = some service_open_text then some "service".toList
          else if call_text c = some method_record_text then some "method".toList
          else none) =
        ["options".toList, "service".toList, "method".toList, "method".toList] := by
  constructor <;> decide

/-! ## The statements of the options fix-up pass, in order -/

/-- What the fix-up pass prints for one descriptor, read as options expressions:
one statement when `OptionsValue` is not "None", nothing otherwise. -/
theorem option_statement_of_target (file_ : FileDescriptor) (d c o : Str) :
    (if OptionsValue file_ c o ≠ "None".toList then
        PrintDescriptorOptionsFixingCode d (OptionsValue file_ c o)
      else []).map option_statement_options =
      if OptionsValue file_ c o ≠ "None".toList then [some (OptionsValue file_ c o)] else [] := by
  by_cases h : OptionsValue file_ c o = "None".toList
  · simp only [h, ne_eq, not_true_eq_false, if_false, List.map_nil]
  · simp only [h, ne_eq, not_false_eq_true, if_true]
    rfl

theorem FixOptionsForEnum_statements (file_ : FileDescriptor) (e : EnumDescriptor) :
    (FixOptionsForEnum file_ e).map option_statement_options =
      e.option_targets.flatMap fun t =>
        if OptionsValue file_ t.1 t.2 ≠ "None".toList then [some (OptionsValue file_ t.1 t.2)]
        else [] := by
  simp only [FixOptionsForEnum, List.map_append, option_statement_of_target,
    EnumDescriptor.option_targets, List.flatMap_cons, List.map_flatMap, List.flatMap_map]

theorem FixOptionsForEnum_flatMap_statements (file_ : FileDescriptor)
    (es : List EnumDescriptor) :
    (es.flatMap (FixOptionsForEnum file_)).map option_statement_options =
      (es.flatMap EnumDescriptor.option_targets).flatMap fun t =>
        if OptionsValue file_ t.1 t.2 ≠ "None".toList then [some (OptionsValue file_ t.1 t.2)]
        else [] := by
  induction es with
  | nil => rfl
  | cons e rest ih =>
    simp only [List.flatMap_cons, List.map_append, List.flatMap_append,
      FixOptionsForEnum_statements, ih]

theorem FixOptionsForField_statements (file_ : FileDescriptor) (f : FieldDescriptor)
    (p : List PrinterCall) (h : FixOptionsForField file_ f = some p) :
    p.map option_statement_options =
      if OptionsValue file_ "FieldOptions".toList f.options ≠ "None".toList then
        [some (OptionsValue file_ "FieldOptions".toList f.options)]
      else [] := by
  unfold FixOptionsForField at h
  simp only at h
  split at h
  · rename_i hne
    split at h
    · cases h
    · simp only [Option.some.injEq] at h
      rw [← h, if_pos hne]
      rfl
  · rename_i hne
    simp only [Option.some.injEq] at h
    rw [← h, if_neg hne]
    rfl

theorem FixOptionsForField_loop_statements (file_ : FileDescriptor)
    (fs : List FieldDescriptor) (p : List PrinterCall)
    (h : FixOptionsForField.loop file_ fs = some p) :
    p.map option_statement_options =
      (fs.map fun f => ("FieldOptions".toList, f.options)).flatMap fun t =>
        if OptionsValue file_ t.1 t.2 ≠ "None".toList then [some (OptionsValue file_ t.1 t.2)]
        else [] := by
  induction fs generalizing p with
  | nil =>
    simp only [FixOptionsForField.loop, Option.some.injEq] at h
    rw [← h]
    rfl
  | cons f rest ih =>
    unfold FixOptionsForField.loop at h
    split at h
    · cases h
    · rename_i p1 h1
      split at h
      · cases h
      · rename_i p2 h2
        simp only [Option.some.injEq] at h
        rw [← h, List.map_append, FixOptionsForField_statements _ _ _ h1, ih _ h2]
        simp only [List.map_cons, List.flatMap_cons]

mutual
theorem FixOptionsForMessage_statements (file_ : FileDescriptor) :
    ∀ (d : Descriptor) (p : List PrinterCall), FixOptionsForMessage file_ d = some p →
      p.map option_statement_options =
        d.option_targets.flatMap fun t =>
          if OptionsValue file_ t.1 t.2 ≠ "None".toList then
            [some (OptionsValue file_ t.1 t.2)]
          else []
  | .mk name _ file ct field nested_type enum_type extension _ _ options, p, h => by
    unfold FixOptionsForMessage at h
    split at h
    · cases h
    · rename_i p1 h1
      simp only at h
      split at h
      · cases h
      · rename_i p3 h3
        split at h
        · cases h
        · rename_i p4 h4
          simp only [Option.some.injEq] at h
          rw [← h]
          simp only [List.map_append, Descriptor.option_targets, List.flatMap_append,
            FixOptionsForMessage_nested_statements file_ nested_type p1 h1,
            FixOptionsForEnum_flatMap_statements,
            FixOptionsForField_loop_statements _ _ _ h3,
            FixOptionsForField_loop_statements _ _ _ h4, option_statement_of_target,
            List.flatMap_cons, List.flatMap_nil, List.append_nil]
theorem FixOptionsForMessage_nested_statements (file_ : FileDescriptor) :
    ∀ (ds : List Descriptor) (p : List PrinterCall),
      FixOptionsForMessage.nested file_ ds = some p →
      p.map option_statement_options =
        (Descriptor.option_targets_list ds).flatMap fun t =>
          if OptionsValue file_ t.1 t.2 ≠ "None".toList then
            [some (OptionsValue file_ t.1 t.2)]
          else []
  | [], p, h => by
    simp only [FixOptionsForMessage.nested, Option.some.injEq] at h
    rw [← h]
    rfl
  | d :: rest, p, h => by
    unfold FixOptionsForMessage.nested at h
    split at h
    · cases h
    · rename_i p1 h1
      split at h
      · cases h
      · rename_i p2 h2
        simp only [Option.some.injEq] at h
        rw [← h, List.map_append, FixOptionsForMessage_statements file_ d p1 h1,
          FixOptionsForMessage_nested_statements file_ rest p2 h2]
        simp only [Descriptor.option_targets_list, List.flatMap_append]
end

theorem FixAllDescriptorOptions_statements (file_ : FileDescriptor) (p : List PrinterCall)
    (h : FixAllDescriptorOptions file_ = some p) :
    p.map option_statement_options =
      file_.option_targets.flatMap fun t =>
        if OptionsValue file_ t.1 t.2 ≠ "None".toList then [some (OptionsValue file_ t.1 t.2)]
        else [] := by
  unfold FixAllDescriptorOptions at h
  simp only at h
  split at h
  · cases h
  · rename_i p3 h3
    split at h
    · cases h
    · rename_i p4 h4
      simp only [Option.some.injEq] at h
      rw [← h]
      simp only [List.map_append, FileDescriptor.option_targets, List.flatMap_cons,
        List.flatMap_append, option_statement_of_target, FixOptionsForEnum_flatMap_statements,
        FixOptionsForField_loop_statements _ _ _ h3,
        FixOptionsForMessage_nested_statements _ _ _ h4, List.append_assoc]

theorem FixOptionsForField_isSome (file_ : FileDescriptor) (f : FieldDescriptor)
    (h : f.file = file_.name) : ∃ p, FixOptionsForField file_ f = some p := by
  have e : ∀ ct n, ∃ s, FieldReferencingExpression file_ ct f n = some s := by
    intro ct n
    cases ct <;> simp [FieldReferencingExpression, h]
  unfold FixOptionsForField
  simp only
  split
  · by_cases h1 : f.is_extension = true
    · by_cases h2 : f.extension_scope = DescriptorPtr.NULL
      · simp only [h1, h2, if_true]
        exact ⟨_, rfl⟩
      · obtain ⟨s, hs⟩ := e f.extension_scope "extensions_by_name".toList
        simp only [h1, h2, if_true, if_false, hs]
        exact ⟨_, rfl⟩
    · obtain ⟨s, hs⟩ := e f.containing_type "fields_by_name".toList
      simp only [h1, if_false, hs]
      exact ⟨_, rfl⟩
  · exact ⟨_, rfl⟩

theorem FixOptionsForField_loop_isSome (file_ : FileDescriptor) (fs : List FieldDescriptor)
    (h : ∀ f ∈ fs, f.file = file_.name) : ∃ p, FixOptionsForField.loop file_ fs = some p := by
  induction fs with
  | nil => exact ⟨_, rfl⟩
  | cons f rest ih =>
    obtain ⟨p1, h1⟩ := FixOptionsForField_isSome file_ f (h f (List.mem_cons_self _ _))
    obtain ⟨p2, h2⟩ := ih (fun g hg => h g (List.mem_cons_of_mem _ hg))
    exact ⟨p1 ++ p2, by simp only [FixOptionsForField.loop, h1, h2]⟩

mutual
theorem FixOptionsForMessage_isSome (file_ : FileDescriptor) :
    ∀ (d : Descriptor), (∀ f ∈ d.fixup_fields, f.file = file_.name) →
      ∃ p, FixOptionsForMessage file_ d = some p
  | .mk name _ file ct field nested_type enum_type extension _ _ options, h => by
    simp only [Descriptor.fixup_fields, List.mem_append] at h
    obtain ⟨p1, h1⟩ := FixOptionsForMessage_nested_isSome file_ nested_type
      (fun f hf => h f (Or.inl (Or.inl hf)))
    obtain ⟨p3, h3⟩ := FixOptionsForField_loop_isSome file_ field
      (fun f hf => h f (Or.inl (Or.inr hf)))
    obtain ⟨p4, h4⟩ := FixOptionsForField_loop_isSome file_ extension
      (fun f hf => h f (Or.inr hf))
    exact ⟨_, by simp only [FixOptionsForMessage, h1, h3, h4]; rfl⟩
theorem FixOptionsForMessage_nested_isSome (file_ : FileDescriptor) :
    ∀ (ds : List Descriptor), (∀ f ∈ Descriptor.fixup_fields_list ds, f.file = file_.name) →
      ∃ p, FixOptionsForMessage.nested file_ ds = some p
  | [], _ => ⟨_, rfl⟩
  | d :: rest, h => by
    simp only [Descriptor.fixup_fields_list, List.mem_append] at h
    obtain ⟨p1, h1⟩ := FixOptionsForMessage_isSome file_ d (fun f hf => h f (Or.inl hf))
    obtain ⟨p2, h2⟩ := FixOptionsForMessage_nested_isSome file_ rest
      (fun f hf => h f (Or.inr hf))
    exact ⟨p1 ++ p2, by simp only [FixOptionsForMessage.nested, h1, h2]⟩
end

theorem FixAllDescriptorOptions_isSome (file_ : FileDescriptor)
    (h : ∀ f ∈ file_.fixup_fields, f.file = file_.name) :
    ∃ p, FixAllDescriptorOptions file_ = some p := by
  simp only [FileDescriptor.fixup_fields, List.mem_append] at h
  obtain ⟨p3, h3⟩ := FixOptionsForField_loop_isSome file_ file_.extension
    (fun f hf => h f (Or.inl hf))
  obtain ⟨p4, h4⟩ := FixOptionsForMessage_nested_isSome file_ file_.message_type
    (fun f hf => h f (Or.inr hf))
  exact ⟨_, by simp only [FixAllDescriptorOptions, h3, h4]; rfl⟩

theorem OptionsValue_eq_parse (file_ : FileDescriptor) (c o : Str)
    (h : GeneratingDescriptorProto file_ = false) (ho : o ≠ []) :
    OptionsValue file_ c o = parse_options_expression c o := by
  have : o.length ≠ 0 := fun e => ho (List.length_eq_zero.mp e)
  simp only [OptionsValue, parse_options_expression, h, Bool.or_false, beq_iff_eq, this,
    if_false, List.append_assoc]
  rfl

theorem parse_options_expression_ne_None (c o : Str) :
    parse_options_expression c o ≠ "None".toList := by
  intro e
  simp [parse_options_expression] at e

theorem option_targets_statements (file_ : FileDescriptor)
    (h : GeneratingDescriptorProto file_ = false) (l : List (Str × Str)) :
    (l.flatMap fun t =>
        if OptionsValue file_ t.1 t.2 ≠ "None".toList then [some (OptionsValue file_ t.1 t.2)]
        else []) =
      (l.filter fun t => decide (t.2 ≠ [])).map fun t =>
        some (parse_options_expression t.1 t.2) := by
  induction l with
  | nil => rfl
  | cons t rest ih =>
    rw [List.flatMap_cons, ih, List.filter_cons]
    by_cases ho : t.2 = []
    · rw [ho, OptionsValue_nil]
      simp
    · rw [OptionsValue_eq_parse file_ t.1 t.2 h ho,
        if_pos (parse_options_expression_ne_None _ _)]
      simp [ho]

theorem FixAllDescriptorOptions_all_statements (file_ : FileDescriptor)
    (fix : List PrinterCall) (h : FixAllDescriptorOptions file_ = some fix) :
    ∀ c ∈ fix, is_option_statement c := by
  intro c hc
  have hm : option_statement_options c ∈ fix.map option_statement_options :=
    List.mem_map_of_mem _ hc
  rw [FixAllDescriptorOptions_statements file_ fix h, List.mem_flatMap] at hm
  obtain ⟨t, -, ht⟩ := hm
  have hs : ∃ v, option_statement_options c = some v := by
    split at ht
    · exact ⟨_, List.mem_singleton.mp ht⟩
    · cases ht
  obtain ⟨v, hv⟩ := hs
  cases c with
  | Print vars text =>
    simp only [option_statement_options] at hv
    by_cases e : text = option_statement_text
    · rw [e]
      rfl
    · rw [if_neg e] at hv
      cases hv
  | Indent => cases hv
  | Outdent => cases hv

/-! ## The enum records in the order of the run -/

theorem flatMap_mem_split {α β : Type} (f : α → List β) (l : List α) (x : α) (hx : x ∈ l) :
    ∃ a b, l.flatMap f = a ++ f x ++ b := by
  obtain ⟨s, t, rfl⟩ := List.append_of_mem hx
  exact ⟨s.flatMap f, t.flatMap f, by
    simp only [List.flatMap_append, List.flatMap_cons, List.append_assoc]⟩

theorem PrintNestedEnums_enums_printer (file_ : FileDescriptor) (es : List EnumDescriptor)
    (sep : Str) :
    (PrintNestedEnums.enums file_ es sep).printer = es.flatMap (EnumRecord file_) := by
  induction es generalizing sep with
  | nil => rfl
  | cons e rest ih =>
    simp only [PrintNestedEnums.enums, List.flatMap_cons, ih, EnumRecord]

mutual
theorem PrintNestedEnums_printer (file_ : FileDescriptor) :
    ∀ (d : Descriptor) (sep : Str),
      (PrintNestedEnums file_ d sep).printer = d.all_enums.flatMap (EnumRecord file_)
  | .mk _ _ _ _ _ nested_type enum_type _ _ _ _, sep => by
    simp only [PrintNestedEnums, Descriptor.all_enums, List.flatMap_append,
      PrintNestedEnums_nested_printer file_ nested_type sep, PrintNestedEnums_enums_printer]
theorem PrintNestedEnums_nested_printer (file_ : FileDescriptor) :
    ∀ (ds : List Descriptor) (sep : Str),
      (PrintNestedEnums.nested file_ ds sep).printer =
        (Descriptor.all_enums_list ds).flatMap (EnumRecord file_)
  | [], _ => rfl
  | d :: rest, sep => by
    simp only [PrintNestedEnums.nested, Descriptor.all_enums_list, List.flatMap_append,
      PrintNestedEnums_printer file_ d sep, PrintNestedEnums_nested_printer file_ rest]
end

theorem Generate_nested_enums_printer (file_ : FileDescriptor) (ds : List Descriptor)
    (sep : Str) :
    (Generate.nested_enums file_ ds sep).printer =
      (Descriptor.all_enums_list ds).flatMap (EnumRecord file_) := by
  induction ds generalizing sep with
  | nil => rfl
  | cons d rest ih =>
    simp only [Generate.nested_enums, Descriptor.all_enums_list, List.flatMap_append,
      PrintNestedEnums_printer, ih]

theorem Generate_enum_types_record (file_ : FileDescriptor) (es : List EnumDescriptor)
    (sep esep : Str) (e : EnumDescriptor) (he : e ∈ es) :
    ∃ a b, (Generate.enum_types file_ es sep esep).printer = a ++ EnumRecord file_ e ++ b := by
  induction es generalizing sep esep with
  | nil => cases he
  | cons e1 rest ih =>
    rcases List.mem_cons.mp he with h | h
    · subst h
      exact ⟨[Print0 "KKLK".toList, Print0 sep],
        [PrinterCall.Print [("name".toList, e.name),
            ("descriptor_name".toList, ModuleLevelDescriptorName file_ e.toDescriptorT)]
          "$name$ = enum_type_wrapper.EnumTypeWrapper($descriptor_name$)".toList] ++
          (Generate.enum_types file_ rest ",".toList (PrintEnum file_ e).enum_separator).printer,
        by simp only [Generate.enum_types, EnumRecord, List.append_assoc]⟩
    · obtain ⟨a, b, hab⟩ := ih ",".toList (PrintEnum file_ e1).enum_separator h
      exact ⟨[Print0 "KKLK".toList, Print0 sep] ++ (PrintEnum file_ e1).printer ++
          [PrinterCall.Print [("name".toList, e1.name),
            ("descriptor_name".toList, ModuleLevelDescriptorName file_ e1.toDescriptorT)]
          "$name$ = enum_type_wrapper.EnumTypeWrapper($descriptor_name$)".toList] ++ a, b,
        by simp only [Generate.enum_types, hab, List.append_assoc]⟩

/-! ## The text of a field record -/

theorem Printer.WriteRaw_fresh (b data : Str) (s : Bool) :
    ∃ s', Printer.WriteRaw { buffer := b, indent_ := [], at_start_of_line_ := s } data =
      { buffer := b ++ data, indent_ := [], at_start_of_line_ := s' } := by
  cases data with
  | nil => exact ⟨s, by simp [Printer.WriteRaw]⟩
  | cons c rest =>
    by_cases h : (s && c != '\n') = true
    · exact ⟨false, by simp only [Printer.WriteRaw, h, if_true, List.append_nil]⟩
    · exact ⟨s, by simp only [Printer.WriteRaw, h, if_false]; rfl⟩

theorem Printer.scan_literal (vars : List (Str × Str)) (rest : Str) (p : Printer) :
    ∀ (l seg : Str), (∀ c ∈ l, c ≠ '$' ∧ c ≠ '\n') →
      Printer.scan vars (l ++ rest) seg none p = Printer.scan vars rest (seg ++ l) none p := by
  intro l
  induction l with
  | nil =>
    intro seg _
    simp only [List.nil_append, List.append_nil]
  | cons c l ih =>
    intro seg h
    have hc := h c (List.mem_cons_self _ _)
    rw [List.cons_append, Printer.scan, if_neg hc.2, if_neg hc.1,
      ih _ (fun d hd => h d (List.mem_cons_of_mem _ hd))]
    simp only [List.append_assoc, List.singleton_append]

theorem Printer.scan_varname (vars : List (Str × Str)) (rest seg value : Str) (p : Printer) :
    ∀ (v w : Str), (∀ c ∈ v, c ≠ '$') → (w ++ v).isEmpty = false →
      lookup_variable vars (w ++ v) = some value →
      Printer.scan vars (v ++ '$' :: rest) seg (some w) p =
        Printer.scan vars rest [] none (p.WriteRaw value) := by
  intro v
  induction v with
  | nil =>
    intro w _ hw hl
    rw [List.append_nil] at hw hl
    simp only [List.nil_append, Printer.scan, if_true, hw, hl]
    rfl
  | cons c v ih =>
    intro w h hw hl
    have hc := h c (List.mem_cons_self _ _)
    rw [List.cons_append, Printer.scan, if_neg hc]
    exact ih _ (fun d hd => h d (List.mem_cons_of_mem _ hd))
      (by simpa only [List.append_assoc, List.singleton_append] using hw)
      (by simpa only [List.append_assoc, List.singleton_append] using hl)

set_option maxRecDepth 100000 in
/-- The text that a fresh printer writes for the call of `PrintFieldDescriptor` with
the variables `name` and `cpp_type` only. -/
theorem field_record_run (name type : Str) :
    Printer.run [.Print [("name".toList, name), ("cpp_type".toList, type)] field_record_text] =
      "                    \x7b \"pname\": \"".toList ++ name ++
        "\", \"ptype\": \x7b \"name\": \"".toList ++ type ++ "\"\x7d \x7d\n".toList := by
  have ht : field_record_text =
      "                    \x7b \"pname\": \"".toList ++ ('$' :: ("name".toList ++ '$' ::
        ("\", \"ptype\": \x7b \"name\": \"".toList ++ ('$' :: ("cpp_type".toList ++ '$' ::
          ("\"\x7d \x7d".toList ++ ['\n'])))))) := by decide
  have l1 : lookup_variable [("name".toList, name), ("cpp_type".toList, type)]
      ([] ++ "name".toList) = some name := by
    simp [lookup_variable, List.find?]
  have l2 : lookup_variable [("name".toList, name), ("cpp_type".toList, type)]
      ([] ++ "cpp_type".toList) = some type := by
    simp [lookup_variable, List.find?]
  simp only [Printer.run, List.foldl, Printer.step, Printer.Print]
  rw [ht, Printer.scan_literal _ _ _ _ _ (by decide), Printer.scan, if_neg (by decide),
    if_pos rfl, Printer.scan_varname _ _ _ _ _ _ _ (by decide) (by decide) l1]
  simp only [List.nil_append]
  obtain ⟨s1, e1⟩ := Printer.WriteRaw_fresh [] "                    \x7b \"pname\": \"".toList true
  rw [e1]
  obtain ⟨s2, e2⟩ := Printer.WriteRaw_fresh
    ([] ++ "                    \x7b \"pname\": \"".toList) name s1
  rw [e2, Printer.scan_literal _ _ _ _ _ (by decide), Printer.scan, if_neg (by decide),
    if_pos rfl, Printer.scan_varname _ _ _ _ _ _ _ (by decide) (by decide) l2]
  simp only [List.nil_append]
  obtain ⟨s3, e3⟩ := Printer.WriteRaw_fresh
    ("                    \x7b \"pname\": \"".toList ++ name)
    "\", \"ptype\": \x7b \"name\": \"".toList s2
  rw [e3]
  obtain ⟨s4, e4⟩ := Printer.WriteRaw_fresh
    ("                    \x7b \"pname\": \"".toList ++ name ++
      "\", \"ptype\": \x7b \"name\": \"".toList) type s3
  rw [e4, Printer.scan_literal _ _ _ _ _ (by decide), Printer.scan, if_pos rfl]
  simp only [List.nil_append]
  obtain ⟨s5, e5⟩ := Printer.WriteRaw_fresh
    ("                    \x7b \"pname\": \"".toList ++ name ++
      "\", \"ptype\": \x7b \"name\": \"".toList ++ type) ("\"\x7d \x7d".toList ++ ['\n']) s4
  rw [e5, Printer.scan]
  simp only [Printer.WriteRaw, List.append_assoc]
  rfl

/-! ## Claims on the order of the enum records and on the field record -/

set_option maxRecDepth 100000 in
/-- C19, as stated, fails: "nest.proto" with the top-level enum `Top` and the enum
`Kind` nested in `Outer.Inner`; the run of `Generate` closes the record of the
top-level enum `Top` first and the record of the nested enum `Kind` after
it. -/
theorem C19_top_level_enums_last_counterexample :
    Example.enums_file.enum_type = [Example.Top] ∧
      Descriptor.all_enums_list Example.enums_file.message_type = [Example.Kind] ∧
      (Generate Example.fmt Example.context Example.generator Example.enums_file).map
          (fun r => r.generator.printer_.filterMap enum_record_name) =
        some ["Top".toList, "Kind".toList] := by
  refine ⟨rfl, rfl, ?_⟩
  decide

/-- In a run of `Generate`, what `PrintEnum` prints for a top-level enum comes before
what it prints for an enum nested at any depth in a top-level message. -/
theorem Generate_top_level_enum_nested_enum_records (fmt : FloatFormat)
    (context : GeneratorContext) (g : Generator) (file : FileDescriptor) (r : GenerateResult)
    (h : Generate fmt context g file = some r) (T E : EnumDescriptor)
    (hT : T ∈ file.enum_type) (hE : E ∈ Descriptor.all_enums_list file.message_type) :
    ∃ a b c, r.generator.printer_ = a ++ EnumRecord file T ++ b ++ EnumRecord file E ++ c := by
  obtain ⟨fix, -, hp⟩ := Generate_some fmt context g file r h
  obtain ⟨a1, b1, h1⟩ := Generate_enum_types_record file file.enum_type " ".toList
    g.enum_separator T hT
  obtain ⟨a2, b2, h2⟩ := flatMap_mem_split (EnumRecord file)
    (Descriptor.all_enums_list file.message_type) E hE
  rw [← Generate_nested_enums_printer file file.message_type " ".toList] at h2
  refine ⟨[Print0 globaldecls_open_text] ++ PrintImports file ++ a1,
    b1 ++ ((Generate.enum_types file file.enum_type " ".toList
              g.enum_separator).top_level_enum_values.map fun v =>
            PrinterCall.Print [("name".toList, v.1), ("value".toList, SimpleItoa v.2)]
              "$name$ = $value$\n".toList) ++
      (Generate.extensions fmt file file.extension
        (Generate.enum_types file file.enum_type " ".toList g.enum_separator).separator).1 ++ a2,
    b2 ++ Generate.message_types fmt file file.message_type
        (Generate.nested_enums file file.message_type " ".toList).enum_separator ++
      [Print0 interfaces_open_text] ++ fix ++ Generate.services file 0 file.service ++
      [Print0 interfaces_close_text], ?_⟩
  rw [hp, h1, h2]
  simp only [List.append_assoc]

set_option maxRecDepth 100000 in
/-- C20, as stated, fails: two fields named x of type int32 that differ in field
number, label, has-explicit-default flag, encoded default, extension flag and
options reference; the record that `PrintFieldDescriptor` writes is the same
text for both, so it carries none of these six components. -/
theorem C20_field_record_eight_components_counterexample :
    Printer.run (PrintFieldDescriptor Example.fmt Example.point_file
        (Example.int32_field "x".toList 0 1) false) =
      "                    \x7b \"pname\": \"x\", \"ptype\": \x7b \"name\": \"int32\"\x7d \x7d\n".toList ∧
    Printer.run (PrintFieldDescriptor Example.fmt Example.point_file
        Example.other_x_field true) =
      "                    \x7b \"pname\": \"x\", \"ptype\": \x7b \"name\": \"int32\"\x7d \x7d\n".toList ∧
    (["number", "label", "has_default_value", "default_value", "is_extension", "options"].map
        fun n => lookup_variable (PrintFieldDescriptor.m Example.fmt Example.point_file
          (Example.int32_field "x".toList 0 1) false) n.toList) =
      [some "1".toList, some "1".toList, some "False".toList, some "0".toList,
       some "False".toList, some "None".toList] ∧
    (["number", "label", "has_default_value", "default_value", "is_extension", "options"].map
        fun n => lookup_variable (PrintFieldDescriptor.m Example.fmt Example.point_file
          Example.other_x_field true) n.toList) =
      [some "7".toList, some "2".toList, some "True".toList, some "5".toList,
       some "True".toList,
       some "_descriptor._ParseOptions(descriptor_pb2.FieldOptions(), _b('\\020\\001'))".toList] := by
  refine ⟨?_, ?_, ?_, ?_⟩ <;> decide

set_option maxRecDepth 100000 in
/-- C20, amended. `PrintFieldDescriptor` makes one call of `Print` with the template
of the field record.  Its map binds the eight components (name, field number,
resolved type name, label, has-explicit-default flag, the value of
`StringifyDefaultValue`, extension flag, the value of `OptionsValue`), but the
template refers to `name` and `cpp_type` only: what the call writes is what it
writes with these two variables alone, and on a fresh printer it is the
record with the name and the resolved type name of the field. -/
theorem C20_field_record_carries_name_and_resolved_type (fmt : FloatFormat)
    (file_ : FileDescriptor) (field : FieldDescriptor) ( is_extension : Bool) :
    PrintFieldDescriptor fmt file_ field is_extension =
        [.Print (PrintFieldDescriptor.m fmt file_ field is_extension) field_record_text] ∧
      template_vars field_record_text none = ["name".toList, "cpp_type".toList] ∧
      (["name", "number", "cpp_type", "label", "has_default_value", "default_value",
          "is_extension", "options"].map fun n =>
        lookup_variable (PrintFieldDescriptor.m fmt file_ field is_extension) n.toList) =
        [some field.name, some (SimpleItoa field.number), some field.resolved_type_name,
         some (SimpleItoa field.label.toInt),
         some (if field.has_default_value then "True".toList else "False".toList),
         some (StringifyDefaultValue fmt field),
         some (if is_extension then "True".toList else "False".toList),
         some (OptionsValue file_ "FieldOptions".toList field.options)] ∧
      (∀ p : Printer,
        p.step (.Print (PrintFieldDescriptor.m fmt file_ field is_extension) field_record_text) =
          p.step (.Print [("name".toList, field.name),
            ("cpp_type".toList, field.resolved_type_name)] field_record_text)) ∧
      Printer.run (PrintFieldDescriptor fmt file_ field is_extension) =
        "                    \x7b \"pname\": \"".toList ++ field.name ++
          "\", \"ptype\": \x7b \"name\": \"".toList ++ field.resolved_type_name ++
          "\"\x7d \x7d\n".toList := by
  have hv : template_vars field_record_text none = ["name".toList, "cpp_type".toList] := by
    decide
  have hl : (["name", "number", "cpp_type", "label", "has_default_value", "default_value",
          "is_extension", "options"].map fun n =>
        lookup_variable (PrintFieldDescriptor.m fmt file_ field is_extension) n.toList) =
        [some field.name, some (SimpleItoa field.number), some field.resolved_type_name,
         some (SimpleItoa field.label.toInt),
         some (if field.has_default_value then "True".toList else "False".toList),
         some (StringifyDefaultValue fmt field),
         some (if is_extension then "True".toList else "False".toList),
         some (OptionsValue file_ "FieldOptions".toList field.options)] := by
    simp [PrintFieldDescriptor.m, lookup_variable, List.find?,
      FieldDescriptor.resolved_type_name]
  have hs : ∀ p : Printer,
      p.step (.Print (PrintFieldDescriptor.m fmt file_ field is_extension) field_record_text) =
        p.step (.Print [("name".toList, field.name),
          ("cpp_type".toList, field.resolved_type_name)] field_record_text) := by
    intro p
    apply Printer.step_congr
    rw [hv]
    intro n hn
    simp only [List.mem_cons, List.mem_singleton, List.not_mem_nil, or_false] at hn
    rcases hn with rfl | rfl <;>
      simp [PrintFieldDescriptor.m, lookup_variable, List.find?,
        FieldDescriptor.resolved_type_name]
  refine ⟨rfl, hv, hl, hs, ?_⟩
  rw [← field_record_run field.name field.resolved_type_name]
  simp only [PrintFieldDescriptor, Printer.run, List.foldl, hs]

/-- C18, amended. The options fix-up pass runs once, after every other step but the
loop over the services: the calls of a run of `Generate` are a first part,
the calls of the fix-up pass, each an option-assignment statement, and a last
part; the first part holds no option-assignment statement and no service or
method record, and the last part holds no option-assignment statement, no
line of the imports and no enum record, extension record or message record.
So every option-assignment statement comes after all lines of the imports and
all enum, extension and message records, and before all service and method
records. -/
theorem C18_options_fixup_between_globaldecls_and_services (fmt : FloatFormat)
    (context : GeneratorContext) (g : Generator) (file : FileDescriptor) (r : GenerateResult)
    (h : Generate fmt context g file = some r) :
    ∃ pre fix post, r.generator.printer_ = pre ++ fix ++ post ∧
      FixAllDescriptorOptions file = some fix ∧
      (∀ c ∈ fix, is_option_statement c) ∧
      (∀ c ∈ pre, ¬ is_option_statement c ∧ ¬ is_interface_record c) ∧
      (∀ c ∈ post, ¬ is_option_statement c ∧ ¬ is_globaldecl_record c) := by
  obtain ⟨pre, fix, hp, hf, hpre, -, hpost⟩ := Generate_parts fmt context g file r h
  refine ⟨pre, fix, _, hp, hf, FixAllDescriptorOptions_all_statements file fix hf, ?_, ?_⟩
  · intro c hc
    refine ⟨TextsIn_not_mem hpre _ (by decide) c hc, ?_⟩
    rintro (e | e)
    · exact TextsIn_not_mem hpre _ (by decide) c hc e
    · exact TextsIn_not_mem hpre _ (by decide) c hc e
  · intro c hc
    refine ⟨TextsIn_not_mem hpost _ (by decide) c hc, ?_⟩
    rintro ⟨t, ht, e⟩
    have hmem : t ∈ interfaces_texts := hpost c hc t e
    revert hmem
    simp only [List.mem_cons, List.mem_singleton, List.not_mem_nil, or_false] at ht
    rcases ht with ht | ht | ht | ht | ht | ht | ht | ht | ht | ht | ht <;> subst ht <;> decide

theorem C18_options_fixup_between_globaldecls_and_services_witness :
    Generate Example.fmt Example.context Example.generator Example.service_file =
        some (Example.run Example.service_file) ∧
      ∃ pre fix post, (Example.run Example.service_file).generator.printer_ =
          pre ++ fix ++ post ∧
        FixAllDescriptorOptions Example.service_file = some fix ∧
        (∀ c ∈ fix, is_option_statement c) ∧
        (∀ c ∈ pre, ¬ is_option_statement c ∧ ¬ is_interface_record c) ∧
        (∀ c ∈ post, ¬ is_option_statement c ∧ ¬ is_globaldecl_record c) :=
  ⟨rfl, C18_options_fixup_between_globaldecls_and_services Example.fmt Example.context
    Example.generator Example.service_file _ rfl⟩

/-! ## The type name of a field record -/

theorem PrintFieldDescriptor_run (fmt : FloatFormat) (file_ : FileDescriptor)
    (field : FieldDescriptor) (b : Bool) :
    Printer.run (PrintFieldDescriptor fmt file_ field b) =
      field_record_of field.name field.resolved_type_name := by
  have hv : template_vars field_record_text none = ["name".toList, "cpp_type".toList] := by
    decide
  have hs : ∀ p : Printer,
      p.step (.Print (PrintFieldDescriptor.m fmt file_ field b) field_record_text) =
        p.step (.Print [("name".toList, field.name),
          ("cpp_type".toList, field.resolved_type_name)] field_record_text) := by
    intro p
    apply Printer.step_congr
    rw [hv]
    intro n hn
    simp only [List.mem_cons, List.mem_singleton, List.not_mem_nil, or_false] at hn
    rcases hn with rfl | rfl <;>
      simp [PrintFieldDescriptor.m, lookup_variable, List.find?,
        FieldDescriptor.resolved_type_name]
  unfold field_record_of
  rw [← field_record_run field.name field.resolved_type_name]
  simp only [PrintFieldDescriptor, Printer.run, List.foldl, hs]

/-- C21. The record that `PrintFieldDescriptor` writes for a field gives as `ptype`
name the name of the message type the field refers to; if it refers to none,
the name of the enum type it refers to; if it refers to neither, the primitive
type name of its declared type. -/
theorem C21_field_record_ptype_name (fmt : FloatFormat) (file_ : FileDescriptor)
    (field : FieldDescriptor) ( is_extension : Bool) :
    (∀ mt, field.message_type = some mt →
        Printer.run (PrintFieldDescriptor fmt file_ field is_extension) =
          field_record_of field.name mt.name) ∧
      (∀ et, field.message_type = none → field.enum_type = some et →
        Printer.run (PrintFieldDescriptor fmt file_ field is_extension) =
          field_record_of field.name et.name) ∧
      (field.message_type = none → field.enum_type = none →
        Printer.run (PrintFieldDescriptor fmt file_ field is_extension) =
          field_record_of field.name (kTypeToName field.type)) := by
  refine ⟨fun mt h => ?_, fun et h1 h2 => ?_, fun h1 h2 => ?_⟩
  · rw [PrintFieldDescriptor_run]
    simp only [FieldDescriptor.resolved_type_name, h]
  · rw [PrintFieldDescriptor_run]
    simp only [FieldDescriptor.resolved_type_name, h1, h2]
  · rw [PrintFieldDescriptor_run]
    simp only [FieldDescriptor.resolved_type_name, h1, h2, FieldDescriptor.type_name]

set_option maxRecDepth 100000 in
/-- Witness of C21: a field that refers to the message `Point`, a field that refers
to the enum `Kind`, and an int32 field. -/
theorem C21_field_record_ptype_name_witness :
    Printer.run (PrintFieldDescriptor Example.fmt Example.point_file
        Example.repeated_message_field false) =
      "                    \x7b \"pname\": \"items\", \"ptype\": \x7b \"name\": \"Point\"\x7d \x7d\n".toList ∧
    Printer.run (PrintFieldDescriptor Example.fmt Example.point_file
        Example.enum_field false) =
      "                    \x7b \"pname\": \"k\", \"ptype\": \x7b \"name\": \"Kind\"\x7d \x7d\n".toList ∧
    Printer.run (PrintFieldDescriptor Example.fmt Example.point_file
        (Example.int32_field "x".toList 0 1) false) =
      "                    \x7b \"pname\": \"x\", \"ptype\": \x7b \"name\": \"int32\"\x7d \x7d\n".toList :=
  ⟨((C21_field_record_ptype_name Example.fmt Example.point_file
      Example.repeated_message_field false).1 _ rfl).trans (by decide),
    ((C21_field_record_ptype_name Example.fmt Example.point_file
      Example.enum_field false).2.1 _ rfl rfl).trans (by decide),
    ((C21_field_record_ptype_name Example.fmt Example.point_file
      (Example.int32_field "x".toList 0 1) false).2.2 rfl rfl).trans (by decide)⟩

/-! ## File names with the same alias -/

set_option maxRecDepth 100000 in
/-- C24. `ModuleAlias` is not injective on file names: "a-b.proto" and "a_b.proto" get
the same module name from `ModuleName`, and so the same alias; so do "a.proto"
and "a.protodevel". -/
theorem C24_ModuleAlias_not_injective :
    "a-b.proto".toList ≠ "a_b.proto".toList ∧
      ModuleName "a-b.proto".toList = "a_b_pb".toList ∧
      ModuleName "a_b.proto".toList = "a_b_pb".toList ∧
      ModuleAlias "a-b.proto".toList = "a__b__pb".toList ∧
      ModuleAlias "a_b.proto".toList = "a__b__pb".toList ∧
      "a.proto".toList ≠ "a.protodevel".toList ∧
      ModuleName "a.proto".toList = "a_pb".toList ∧
      ModuleName "a.protodevel".toList = "a_pb".toList ∧
      ModuleAlias "a.proto".toList = "a__pb".toList ∧
      ModuleAlias "a.protodevel".toList = "a__pb".toList ∧
      ¬ Function.Injective ModuleAlias := by
  refine ⟨by decide, by decide, by decide, by decide, by decide, by decide, by decide,
    by decide, by decide, by decide, fun h => ?_⟩
  have e : ModuleAlias "a.proto".toList = ModuleAlias "a.protodevel".toList := by decide
  exact absurd (h e) (by decide)

/-! ## Identifiers of descriptors whose names hold no underscore -/

theorem ascii_toupper_underscore (c : Char) (h : ascii_toupper c = '_') : c = '_' := by
  unfold ascii_toupper at h
  split at h
  · rename_i hc
    exfalso
    obtain ⟨h1, h2⟩ := hc
    have h1' : 97 ≤ c.toNat := h1
    have h2' : c.toNat ≤ 122 := h2
    generalize c.toNat = n at h h1' h2'
    interval_cases n <;> exact absurd h (by decide)
  · exact h

theorem UpperString_underscore (s : Str) (h : '_' ∉ s) : '_' ∉ UpperString s := by
  intro hm
  obtain ⟨c, hc, e⟩ := List.mem_map.mp hm
  exact h (ascii_toupper_underscore c e ▸ hc)

theorem UpperString_append (a b : Str) : UpperString (a ++ b) = UpperString a ++ UpperString b :=
  List.map_append _ _ _

theorem UpperString_join_names (l : List Str) :
    UpperString (join_names "_".toList l) = join_names "_".toList (l.map UpperString) := by
  induction l with
  | nil => rfl
  | cons a rest ih =>
    cases rest with
    | nil => rfl
    | cons b rest =>
      simp only [join_names, List.map_cons, UpperString_append] at ih ⊢
      rw [ih]
      rfl

theorem append_underscore_inj (a b x y : Str) (ha : '_' ∉ a) (hb : '_' ∉ b)
    (h : a ++ '_' :: x = b ++ '_' :: y) : a = b ∧ x = y := by
  induction a generalizing b with
  | nil =>
    cases b with
    | nil => simpa using h
    | cons c b =>
      simp only [List.nil_append, List.cons_append, List.cons.injEq] at h
      exact absurd (h.1 ▸ List.mem_cons_self _ _) hb
  | cons c a ih =>
    cases b with
    | nil =>
      simp only [List.nil_append, List.cons_append, List.cons.injEq] at h
      exact absurd (h.1 ▸ List.mem_cons_self _ _) ha
    | cons d b =>
      simp only [List.cons_append, List.cons.injEq] at h
      obtain ⟨e1, e2⟩ := ih b (fun m => ha (List.mem_cons_of_mem _ m))
        (fun m => hb (List.mem_cons_of_mem _ m)) h.2
      exact ⟨by rw [h.1, e1], e2⟩

theorem join_names_inj (l1 l2 : List Str) (h1 : ∀ n ∈ l1, '_' ∉ n) (h2 : ∀ n ∈ l2, '_' ∉ n)
    (n1 : l1 ≠ []) (n2 : l2 ≠ [])
    (h : join_names "_".toList l1 = join_names "_".toList l2) : l1 = l2 := by
  induction l1 generalizing l2 with
  | nil => exact absurd rfl n1
  | cons a r1 ih =>
    cases l2 with
    | nil => exact absurd rfl n2
    | cons b r2 =>
      have ha := h1 a (List.mem_cons_self _ _)
      have hb := h2 b (List.mem_cons_self _ _)
      cases r1 with
      | nil =>
        cases r2 with
        | nil =>
          simp only [join_names] at h
          rw [h]
        | cons c r2 =>
          simp only [join_names] at h
          exfalso
          apply ha
          rw [h]
          simp
      | cons c r1 =>
        cases r2 with
        | nil =>
          simp only [join_names] at h
          exfalso
          apply hb
          rw [← h]
          simp
        | cons e r2 =>
          simp only [join_names] at h
          have h' : a ++ '_' :: join_names "_".toList (c :: r1) =
              b ++ '_' :: join_names "_".toList (e :: r2) := by
            simpa using h
          obtain ⟨e1, e2⟩ := append_underscore_inj _ _ _ _ ha hb h'
          rw [e1, ih (e :: r2) (fun n hn => h1 n (List.mem_cons_of_mem _ hn))
            (fun n hn => h2 n (List.mem_cons_of_mem _ hn)) (by simp) (by simp) e2]

theorem ModuleLevelDescriptorName_own_file (file_ : FileDescriptor) (d : DescriptorT)
    (h : d.file = file_.name) :
    ModuleLevelDescriptorName file_ d =
      '_' :: join_names "_".toList (d.name_chain.map UpperString) := by
  simp only [ModuleLevelDescriptorName, NamePrefixedWithNestedTypes_eq, h, ne_eq,
    not_true_eq_false, if_false, UpperString_join_names]
  rfl

/-- C25. For two descriptors of the file being generated: if no name of their name
chains holds an underscore and `ModuleLevelDescriptorName` gives them the same
identifier, the two chains have the same length and the same names up to
ASCII letter case; and whenever the chains are the same up to ASCII letter
case, the identifiers are the same. -/
theorem C25_ModuleLevelDescriptorName_injective_up_to_case (file_ : FileDescriptor)
    (d1 d2 : DescriptorT) (h1 : d1.file = file_.name) (h2 : d2.file = file_.name) :
    ((∀ n ∈ d1.name_chain, '_' ∉ n) → (∀ n ∈ d2.name_chain, '_' ∉ n) →
        ModuleLevelDescriptorName file_ d1 = ModuleLevelDescriptorName file_ d2 →
        d1.name_chain.length = d2.name_chain.length ∧
          d1.name_chain.map UpperString = d2.name_chain.map UpperString) ∧
      (d1.name_chain.map UpperString = d2.name_chain.map UpperString →
        ModuleLevelDescriptorName file_ d1 = ModuleLevelDescriptorName file_ d2) := by
  rw [ModuleLevelDescriptorName_own_file file_ d1 h1,
    ModuleLevelDescriptorName_own_file file_ d2 h2]
  constructor
  · intro u1 u2 h
    have e : d1.name_chain.map UpperString = d2.name_chain.map UpperString := by
      apply join_names_inj
      · intro n hn
        obtain ⟨m, hm, rfl⟩ := List.mem_map.mp hn
        exact UpperString_underscore m (u1 m hm)
      · intro n hn
        obtain ⟨m, hm, rfl⟩ := List.mem_map.mp hn
        exact UpperString_underscore m (u2 m hm)
      · simp [DescriptorT.name_chain]
      · simp [DescriptorT.name_chain]
      · exact List.cons.inj h |>.2
    refine ⟨?_, e⟩
    have := congrArg List.length e
    simpa using this
  · intro e
    rw [e]

set_option maxRecDepth 100000 in
/-- Witness of C25: the top-level messages `Foo` and `FOO` of "point.proto" differ in
letter case only and both get the identifier "_FOO". -/
theorem C25_ModuleLevelDescriptorName_injective_up_to_case_witness :
    Example.Foo.file = Example.point_file.name ∧
      Example.FOO.file = Example.point_file.name ∧
      Example.Foo ≠ Example.FOO ∧
      Example.Foo.name_chain.map UpperString = Example.FOO.name_chain.map UpperString ∧
      ModuleLevelDescriptorName Example.point_file Example.Foo = "_FOO".toList ∧
      ModuleLevelDescriptorName Example.point_file Example.Foo =
        ModuleLevelDescriptorName Example.point_file Example.FOO ∧
      (Example.Foo.name_chain.length = Example.FOO.name_chain.length ∧
        Example.Foo.name_chain.map UpperString = Example.FOO.name_chain.map UpperString) :=
  ⟨rfl, rfl, by decide, by decide, by decide,
    (C25_ModuleLevelDescriptorName_injective_up_to_case Example.point_file Example.Foo
      Example.FOO rfl rfl).2 (by decide),
    (C25_ModuleLevelDescriptorName_injective_up_to_case Example.point_file Example.Foo
      Example.FOO rfl rfl).1 (by decide) (by decide) (by decide)⟩

/-! ## The Struct records of a run -/

theorem NoStructRecord_filterMap (l : List PrinterCall) (h : NoStructRecord l) :
    l.filterMap struct_record_name = [] := by
  rw [List.filterMap_eq_nil_iff]
  exact h

theorem extension_ranges_noStruct (er : List ExtensionRange) :
    NoStructRecord
      (if er.length ≠ 0 then
        [Print0 "extension_ranges=[".toList] ++
          (er.flatMap fun range =>
            [PrinterCall.Print [("start".toList, SimpleItoa range.start),
                ("end".toList, SimpleItoa range.end_)] "($start$, $end$), ".toList]) ++
          [Print0 "],".toList]
       else []) := by
  split
  · simp only [NoStructRecord_append, NoStructRecord_cons]
    exact ⟨⟨⟨srn_Print0 _, NoStructRecord_nil⟩,
      NoStructRecord_flatMap _ _ fun x _ => by
        simp only [NoStructRecord_cons]
        exact ⟨srn_text _ _ (by decide), NoStructRecord_nil⟩⟩,
      srn_Print0 _, NoStructRecord_nil⟩
  · exact NoStructRecord_nil

theorem oneofs_noStruct (od : List OneofDescriptor) :
    NoStructRecord
      (if od.length ≠ 0 then
        [Print0 "oneofs=[".toList, .Indent] ++
          (od.flatMap fun desc =>
            [PrinterCall.Print [("name".toList, desc.name), ("full_name".toList, desc.full_name),
                ("index".toList, SimpleItoa desc.index)] "OOD(name='$name$'),".toList]) ++
          [.Outdent, Print0 "],".toList]
       else []) := by
  split
  · simp only [NoStructRecord_append, NoStructRecord_cons]
    exact ⟨⟨⟨srn_Print0 _, srn_Indent, NoStructRecord_nil⟩,
      NoStructRecord_flatMap _ _ fun x _ => by
        simp only [NoStructRecord_cons]
        exact ⟨srn_text _ _ (by decide), NoStructRecord_nil⟩⟩,
      srn_Outdent, srn_Print0 _, NoStructRecord_nil⟩
  · exact NoStructRecord_nil

theorem PrintDescriptor_definition_names (fmt : FloatFormat) (file_ : FileDescriptor)
    (name full_name : Str) (field : List FieldDescriptor) (er : List ExtensionRange)
    (od : List OneofDescriptor) :
    (PrintDescriptor.definition fmt file_ name full_name field er od).filterMap
      struct_record_name = [name] := by
  have key := NoStructRecord_filterMap
  simp only [PrintDescriptor.definition, List.filterMap_append]
  rw [key _ (PrintDescriptor.fields_noStruct fmt file_ field _),
    key _ (extension_ranges_noStruct er), key _ (oneofs_noStruct od),
    List.filterMap_cons_none (srn_text _ _ (by decide)),
    List.filterMap_cons_none srn_Indent,
    List.filterMap_cons_some (srn_struct_close name full_name),
    List.filterMap_cons_none srn_Outdent]
  rfl

mutual
theorem subtree_under_Empty :
    ∀ (d : Descriptor) (anc : List Str), (anc.all fun a => !named_Empty a) = false →
      (Descriptor.subtree anc d).filter outside_Empty = []
  | .mk name _ _ _ _ nested_type _ _ _ _ _, anc, h => by
    simp only [Descriptor.subtree, List.filter_append]
    rw [subtree_list_under_Empty nested_type (anc ++ [name])
      (by simp only [List.all_append, h, Bool.false_and])]
    simp only [List.nil_append, List.filter_cons, outside_Empty, h, Bool.and_false,
      Bool.false_eq_true, if_false, List.filter_nil]
theorem subtree_list_under_Empty :
    ∀ (ds : List Descriptor) (anc : List Str), (anc.all fun a => !named_Empty a) = false →
      (Descriptor.subtree_list anc ds).filter outside_Empty = []
  | [], _, _ => rfl
  | d :: rest, anc, h => by
    simp only [Descriptor.subtree_list, List.filter_append, subtree_under_Empty d anc h,
      subtree_list_under_Empty rest anc h, List.append_nil]
end

theorem subtree_of_Empty (d : Descriptor) (anc : List Str) (h : named_Empty d.name = true) :
    (Descriptor.subtree anc d).filter outside_Empty = [] := by
  cases d with
  | mk name full_name file ct field nested_type enum_type extension er od options =>
    simp only [Descriptor.name] at h
    simp only [Descriptor.subtree, List.filter_append]
    rw [subtree_list_under_Empty nested_type (anc ++ [name])
      (by simp only [List.all_append, List.all_cons, h, Bool.not_true, Bool.false_and,
        Bool.and_false, List.all_nil])]
    simp only [List.nil_append, List.filter_cons, outside_Empty, Descriptor.name, h,
      Bool.not_true, Bool.false_and, Bool.false_eq_true, if_false, List.filter_nil]

mutual
theorem PrintDescriptor_names (fmt : FloatFormat) (file_ : FileDescriptor) :
    ∀ (d : Descriptor) (anc : List Str), (anc.all fun a => !named_Empty a) = true →
      named_Empty d.name = false →
      (PrintDescriptor fmt file_ d).filterMap struct_record_name =
        ((Descriptor.subtree anc d).filter outside_Empty).map fun x => x.2.name
  | .mk name full_name file ct field nested_type enum_type extension er od options, anc, h,
      hd => by
    simp only [Descriptor.name] at hd
    have hanc : ((anc ++ [name]).all fun a => !named_Empty a) = true := by
      simp only [List.all_append, List.all_cons, h, hd, Bool.not_false, List.all_nil,
        Bool.and_self]
    simp only [PrintDescriptor, hd, Bool.false_eq_true, if_false, List.filterMap_append,
      PrintDescriptor_nested_names fmt file_ nested_type _ (anc ++ [name]) hanc,
      PrintDescriptor_definition_names, Descriptor.subtree, List.filter_append,
      List.map_append]
    rw [List.filterMap_cons_none (srn_Print0 _)]
    simp only [List.filterMap_nil, List.append_nil, List.filter_cons, outside_Empty,
      Descriptor.name, hd, h, Bool.not_false, Bool.and_self, if_true, List.filter_nil,
      List.map_cons, List.map_nil]
theorem PrintDescriptor_nested_names (fmt : FloatFormat) (file_ : FileDescriptor) :
    ∀ (ds : List Descriptor) (sep : Str) (anc : List Str),
      (anc.all fun a => !named_Empty a) = true →
      (PrintDescriptor.nested fmt file_ ds sep).1.filterMap struct_record_name =
        ((Descriptor.subtree_list anc ds).filter outside_Empty).map fun x => x.2.name
  | [], _, _, _ => rfl
  | .mk name full_name file ct field nested_type enum_type extension er od options :: rest,
      sep, anc, h => by
    by_cases hd : named_Empty name = true
    · simp only [PrintDescriptor.nested, hd, if_true, Descriptor.subtree_list,
        List.filter_append, List.map_append]
      rw [subtree_of_Empty _ anc (by simpa only [Descriptor.name] using hd),
        PrintDescriptor_nested_names fmt file_ rest sep anc h]
      rfl
    · have hd' : named_Empty name = false := by simpa using hd
      simp only [PrintDescriptor.nested, hd', Bool.false_eq_true, if_false,
        List.filterMap_append, Descriptor.subtree_list, List.filter_append, List.map_append]
      rw [List.filterMap_cons_none (srn_Print0 _),
        PrintDescriptor_names fmt file_ _ anc h (by simpa only [Descriptor.name] using hd'),
        PrintDescriptor_nested_names fmt file_ rest _ anc h]
      rfl
end

theorem Generate_message_types_names (fmt : FloatFormat) (file_ : FileDescriptor)
    (ds : List Descriptor) (sep : Str) :
    (Generate.message_types fmt file_ ds sep).filterMap struct_record_name =
      ((Descriptor.subtree_list [] ds).filter outside_Empty).map fun x => x.2.name := by
  induction ds generalizing sep with
  | nil => rfl
  | cons d rest ih =>
    by_cases hd : named_Empty d.name = true
    · simp only [Generate.message_types, hd, if_true, Descriptor.subtree_list,
        List.filter_append, List.map_append, subtree_of_Empty d [] hd, ih]
      rfl
    · have hd' : named_Empty d.name = false := by simpa using hd
      simp only [Generate.message_types, hd', Bool.false_eq_true, if_false,
        List.filterMap_append, Descriptor.subtree_list, List.filter_append, List.map_append,
        ih]
      rw [List.filterMap_cons_none (srn_Print0 _), PrintDescriptor_names fmt file_ d [] rfl hd']
      rfl

/-- C28. The Struct records of a run of `Generate` are, in order, those of the messages
of the file that are not named "Empty" and have no ancestor named "Empty"
(nested messages before the message that holds them).  So a message with an
ancestor named "Empty" has no Struct record, whatever its own name is. -/
theorem C28_Empty_elides_subtree (fmt : FloatFormat) (context : GeneratorContext)
    (g : Generator) (file : FileDescriptor) (r : GenerateResult)
    (h : Generate fmt context g file = some r) :
    r.generator.printer_.filterMap struct_record_name =
      (file.all_messages.filter fun x =>
        !named_Empty x.2.name && x.1.all fun a => !named_Empty a).map fun x => x.2.name := by
  obtain ⟨fix, hfix, hp⟩ := Generate_some fmt context g file r h
  have key := NoStructRecord_filterMap
  have h0 : ∀ t, NoStructRecord [Print0 t] := fun t => by
    rw [NoStructRecord_cons]
    exact ⟨srn_Print0 _, NoStructRecord_nil⟩
  have hv : NoStructRecord
      ((Generate.enum_types file file.enum_type " ".toList
          g.enum_separator).top_level_enum_values.map fun v =>
        PrinterCall.Print [("name".toList, v.1), ("value".toList, SimpleItoa v.2)]
          "$name$ = $value$\n".toList) := by
    intro c hc
    obtain ⟨v, -, hv⟩ := List.mem_map.mp hc
    rw [← hv]
    exact srn_text _ _ (by decide)
  rw [hp]
  simp only [List.filterMap_append, key _ (h0 _), key _ (PrintImports_noStruct file),
    key _ (Generate.enum_types_noStruct file _ _ _), key _ hv,
    key _ (Generate.extensions_noStruct fmt file _ _),
    key _ (Generate.nested_enums_noStruct file _ _),
    key _ (FixAllDescriptorOptions_noStruct file fix hfix),
    key _ (Generate.services_noStruct file _ _), Generate_message_types_names,
    List.nil_append, List.append_nil]
  rfl

set_option maxRecDepth 100000 in
/-- Witness of C28: in "nest.proto" the message `Hidden` is nested in `Outer.Empty`;
the run prints the Struct records of `Inner` and `Outer` only. -/
theorem C28_Empty_elides_subtree_witness :
    Generate Example.fmt Example.context Example.generator Example.nested_file =
        some (Example.run Example.nested_file) ∧
      Example.nested_file.all_messages.map (fun x => (x.1, x.2.name)) =
        [([], "Empty".toList),
         (["Outer".toList, "Empty".toList], "Hidden".toList),
         (["Outer".toList], "Empty".toList),
         (["Outer".toList], "Inner".toList),
         ([], "Outer".toList)] ∧
      (Example.run Example.nested_file).generator.printer_.filterMap struct_record_name =
        ["Inner".toList, "Outer".toList] :=
  ⟨rfl, by decide,
    (C28_Empty_elides_subtree Example.fmt Example.context Example.generator
      Example.nested_file _ rfl).trans (by decide)⟩

/-! ## The separator before the first top-level message -/

theorem enum_separator_step {α : Type} (a b : List α) (sep : Str) :
    (if b.isEmpty then (if a.isEmpty then sep else ",".toList) else ",".toList) =
      if (a ++ b).isEmpty then sep else ",".toList := by
  cases a <;> cases b <;> rfl

theorem PrintNestedEnums_enums_enum_separator (file_ : FileDescriptor)
    (es : List EnumDescriptor) (sep : Str) :
    (PrintNestedEnums.enums file_ es sep).enum_separator =
      if es.isEmpty then sep else ",".toList := by
  induction es generalizing sep with
  | nil => rfl
  | cons e rest ih =>
    simp only [PrintNestedEnums.enums, ih, PrintEnum, List.isEmpty_cons]
    cases rest <;> rfl

mutual
theorem PrintNestedEnums_enum_separator (file_ : FileDescriptor) :
    ∀ (d : Descriptor) (sep : Str),
      (PrintNestedEnums file_ d sep).enum_separator =
        if d.all_enums.isEmpty then sep else ",".toList
  | .mk _ _ _ _ _ nested_type enum_type _ _ _ _, sep => by
    simp only [PrintNestedEnums, PrintNestedEnums_enums_enum_separator,
      PrintNestedEnums_nested_enum_separator file_ nested_type sep, Descriptor.all_enums]
    exact enum_separator_step _ _ _
theorem PrintNestedEnums_nested_enum_separator (file_ : FileDescriptor) :
    ∀ (ds : List Descriptor) (sep : Str),
      (PrintNestedEnums.nested file_ ds sep).enum_separator =
        if (Descriptor.all_enums_list ds).isEmpty then sep else ",".toList
  | [], _ => rfl
  | d :: rest, sep => by
    simp only [PrintNestedEnums.nested, PrintNestedEnums_enum_separator file_ d sep,
      PrintNestedEnums_nested_enum_separator file_ rest, Descriptor.all_enums_list]
    exact enum_separator_step _ _ _
end

theorem Generate_nested_enums_enum_separator (file_ : FileDescriptor) (ds : List Descriptor)
    (sep : Str) :
    (Generate.nested_enums file_ ds sep).enum_separator =
      if (Descriptor.all_enums_list ds).isEmpty then sep else ",".toList := by
  induction ds generalizing sep with
  | nil => rfl
  | cons d rest ih =>
    simp only [Generate.nested_enums, ih, PrintNestedEnums_enum_separator,
      Descriptor.all_enums_list]
    exact enum_separator_step _ _ _

theorem Generate_message_types_first (fmt : FloatFormat) (file_ : FileDescriptor)
    (skipped : List Descriptor) (d : Descriptor) (rest : List Descriptor) (sep : Str)
    (hs : ∀ s ∈ skipped, named_Empty s.name = true) (hd : named_Empty d.name = false) :
    Generate.message_types fmt file_ (skipped ++ d :: rest) sep =
      [Print0 sep] ++ PrintDescriptor fmt file_ d ++
        Generate.message_types fmt file_ rest ",".toList := by
  induction skipped with
  | nil => simp only [List.nil_append, Generate.message_types, hd, Bool.false_eq_true, if_false]
  | cons s more ih =>
    simp only [List.cons_append, Generate.message_types, hs s (List.mem_cons_self _ _),
      if_true]
    exact ih fun x hx => hs x (List.mem_cons_of_mem _ hx)

/-- C27. In a run of `Generate`, the calls before the first top-level message that is
not named "Empty" close no Struct record and end with the records of the
enums nested in the messages, one after the other with no separator between
them; the separator printed next, immediately before that message, is "," if
there is an enum nested in some message and " " if there is none, whatever
the top-level enums and the top-level extensions of the file are. -/
theorem C27_separator_before_first_message (fmt : FloatFormat) (context : GeneratorContext)
    (g : Generator) (file : FileDescriptor) (r : GenerateResult)
    (h : Generate fmt context g file = some r)
    (skipped : List Descriptor) (d : Descriptor) (rest : List Descriptor)
    (hm : file.message_type = skipped ++ d :: rest)
    (hs : ∀ s ∈ skipped, named_Empty s.name = true) (hd : named_Empty d.name = false) :
    ∃ pre post, NoStructRecord pre ∧
      r.generator.printer_ =
        pre ++ (Descriptor.all_enums_list file.message_type).flatMap (EnumRecord file) ++
          [Print0 (if (Descriptor.all_enums_list file.message_type).isEmpty then " ".toList
            else ",".toList)] ++
          PrintDescriptor fmt file d ++ post := by
  obtain ⟨fix, hfix, hp⟩ := Generate_some fmt context g file r h
  have h0 : ∀ t, NoStructRecord [Print0 t] := fun t => by
    rw [NoStructRecord_cons]
    exact ⟨srn_Print0 _, NoStructRecord_nil⟩
  have hv : NoStructRecord
      ((Generate.enum_types file file.enum_type " ".toList
          g.enum_separator).top_level_enum_values.map fun v =>
        PrinterCall.Print [("name".toList, v.1), ("value".toList, SimpleItoa v.2)]
          "$name$ = $value$\n".toList) := by
    intro c hc
    obtain ⟨v, -, hv⟩ := List.mem_map.mp hc
    rw [← hv]
    exact srn_text _ _ (by decide)
  refine ⟨[Print0 globaldecls_open_text] ++ PrintImports file ++
      ((Generate.enum_types file file.enum_type " ".toList g.enum_separator).printer ++
        (Generate.enum_types file file.enum_type " ".toList
            g.enum_separator).top_level_enum_values.map fun v =>
          PrinterCall.Print [("name".toList, v.1), ("value".toList, SimpleItoa v.2)]
            "$name$ = $value$\n".toList) ++
      (Generate.extensions fmt file file.extension
        (Generate.enum_types file file.enum_type " ".toList g.enum_separator).separator).1,
    Generate.message_types fmt file rest ",".toList ++ [Print0 interfaces_open_text] ++ fix ++
      Generate.services file 0 file.service ++ [Print0 interfaces_close_text], ?_, ?_⟩
  · simp only [NoStructRecord_append]
    exact ⟨⟨⟨h0 _, PrintImports_noStruct file⟩, Generate.enum_types_noStruct file _ _ _, hv⟩,
      Generate.extensions_noStruct fmt file _ _⟩
  · rw [hp, Generate_nested_enums_printer, Generate_nested_enums_enum_separator]
    conv_lhs => rw [hm, Generate_message_types_first fmt file skipped d rest _ hs hd, ← hm]
    simp only [List.append_assoc]

set_option maxRecDepth 100000 in
/-- Witness of C27: "nest.proto" with the top-level enum `Top` has the enum `Kind`
nested in `Outer.Inner`, and "," is printed before `Outer`, its first
top-level message not named "Empty"; "point.proto" has no nested enum, and
" " is printed before `Point`. -/
theorem C27_separator_before_first_message_witness :
    (Descriptor.all_enums_list Example.enums_file.message_type = [Example.Kind] ∧
      ∃ pre post, NoStructRecord pre ∧
        (Example.run Example.enums_file).generator.printer_ =
          pre ++ (Descriptor.all_enums_list Example.enums_file.message_type).flatMap
              (EnumRecord Example.enums_file) ++
            [Print0 (if (Descriptor.all_enums_list Example.enums_file.message_type).isEmpty
              then " ".toList else ",".toList)] ++
            PrintDescriptor Example.fmt Example.enums_file Example.Outer ++ post) ∧
    (Descriptor.all_enums_list Example.point_file.message_type = [] ∧
      ∃ pre post, NoStructRecord pre ∧
        (Example.run Example.point_file).generator.printer_ =
          pre ++ (Descriptor.all_enums_list Example.point_file.message_type).flatMap
              (EnumRecord Example.point_file) ++
            [Print0 (if (Descriptor.all_enums_list Example.point_file.message_type).isEmpty
              then " ".toList else ",".toList)] ++
            PrintDescriptor Example.fmt Example.point_file Example.Point ++ post) :=
  ⟨⟨rfl, C27_separator_before_first_message Example.fmt Example.context Example.generator
      Example.enums_file _ rfl [Example.top_Empty] Example.Outer [] rfl
      (fun s hs => by rw [List.mem_singleton.mp hs]; decide) (by decide)⟩,
    ⟨rfl, C27_separator_before_first_message Example.fmt Example.context Example.generator
      Example.point_file _ rfl [] Example.Point [] rfl
      (fun s hs => absurd hs (List.not_mem_nil _)) (by decide)⟩⟩

/-! ## The separators between Struct records -/

theorem comma_records_append (a b : List (Nat × List PrinterCall)) :
    comma_records (a ++ b) = comma_records a ++ comma_records b :=
  List.flatMap_append _ _ _

theorem comma_records_cons (x : Nat × List PrinterCall) (rest : List (Nat × List PrinterCall)) :
    comma_records (x :: rest) = [Print0 ",".toList] ++ separated_records (x :: rest) := by
  simp only [comma_records, separated_records, List.flatMap_cons, List.append_assoc]

theorem separated_records_append (a b : List (Nat × List PrinterCall)) (h : a ≠ []) :
    separated_records (a ++ b) = separated_records a ++ comma_records b := by
  cases a with
  | nil => exact absurd rfl h
  | cons x rest =>
    simp only [List.cons_append, separated_records, comma_records_append, List.append_assoc]

theorem one_more_blank_records (items : List (Nat × List PrinterCall)) (h : items ≠ []) :
    [Print0 " ".toList] ++ separated_records items = separated_records (one_more_blank items) := by
  cases items with
  | nil => exact absurd rfl h
  | cons x rest =>
    simp only [one_more_blank, separated_records, List.replicate_succ, List.cons_append,
      List.nil_append, List.singleton_append]

theorem one_more_blank_map (items : List (Nat × List PrinterCall)) :
    (one_more_blank items).map Prod.snd = items.map Prod.snd := by
  cases items <;> rfl

theorem one_more_blank_ne_nil (items : List (Nat × List PrinterCall)) (h : items ≠ []) :
    one_more_blank items ≠ [] := by
  cases items with
  | nil => exact absurd rfl h
  | cons x rest => exact List.cons_ne_nil _ _

theorem PrintDescriptor_definition_plain (fmt : FloatFormat) (file_ : FileDescriptor)
    (name full_name : Str) (field : List FieldDescriptor) :
    PrintDescriptor.definition fmt file_ name full_name field [] [] =
      [.Print (PrintDescriptor.m name full_name) struct_open_text, .Indent] ++
        PrintDescriptor.fields fmt file_ field " ".toList ++
        [.Print (PrintDescriptor.m name full_name) struct_close_text, .Outdent] := by
  simp only [PrintDescriptor.definition, List.length_nil, ne_eq, not_true_eq_false, if_false,
    List.append_nil, List.append_assoc, List.singleton_append]

mutual
theorem PrintDescriptor_items (fmt : FloatFormat) (file_ : FileDescriptor) :
    ∀ (d : Descriptor) (anc : List Str), (anc.all fun a => !named_Empty a) = true →
      named_Empty d.name = false →
      (∀ x ∈ Descriptor.subtree anc d, x.2.extension_range = [] ∧ x.2.oneof_decl = []) →
      ∃ items, items ≠ [] ∧
        items.map Prod.snd = ((Descriptor.subtree anc d).filter outside_Empty).map
          (fun x => plain_struct_record fmt file_ x.2) ∧
        PrintDescriptor fmt file_ d = separated_records items
  | .mk name full_name file ct field nested_type enum_type extension er od options, anc, h,
      hd, hp => by
    simp only [Descriptor.name] at hd
    have hanc : ((anc ++ [name]).all fun a => !named_Empty a) = true := by
      simp only [List.all_append, List.all_cons, h, hd, Bool.not_false, List.all_nil,
        Bool.and_self]
    have hself := hp (anc, .mk name full_name file ct field nested_type enum_type extension
      er od options) (by simp only [Descriptor.subtree, List.mem_append, List.mem_singleton,
        or_true])
    simp only [Descriptor.extension_range, Descriptor.oneof_decl] at hself
    obtain ⟨her, hod⟩ := hself
    subst her hod
    obtain ⟨items, hmap, hnil, hcons⟩ := PrintDescriptor_nested_items fmt file_ nested_type
      " ".toList (anc ++ [name]) hanc (fun x hx => hp x (by
        simp only [Descriptor.subtree, List.mem_append]
        exact Or.inl hx))
    have hfilter : ((Descriptor.subtree anc (.mk name full_name file ct field nested_type
          enum_type extension [] [] options)).filter outside_Empty).map
          (fun x => plain_struct_record fmt file_ x.2) =
        items.map Prod.snd ++ [plain_struct_record fmt file_ (.mk name full_name file ct field
          nested_type enum_type extension [] [] options)] := by
      simp only [Descriptor.subtree, List.filter_append, List.map_append, hmap,
        List.filter_cons, outside_Empty, Descriptor.name, hd, h, Bool.not_false,
        Bool.and_self, if_true, List.filter_nil, List.map_cons, List.map_nil]
    have hdef : PrintDescriptor.definition fmt file_ name full_name field [] [] =
        plain_struct_record fmt file_ (.mk name full_name file ct field nested_type enum_type
          extension [] [] options) := PrintDescriptor_definition_plain fmt file_ _ _ _
    by_cases hi : items = []
    · refine ⟨[(1, plain_struct_record fmt file_ (.mk name full_name file ct field nested_type
        enum_type extension [] [] options))], List.cons_ne_nil _ _, ?_, ?_⟩
      · rw [hfilter, hi]
        rfl
      · simp only [PrintDescriptor, hd, Bool.false_eq_true, if_false, hnil hi, hdef,
          separated_records, comma_records, List.flatMap_nil, List.replicate_succ,
          List.replicate_zero, List.nil_append, List.append_nil]
    · refine ⟨one_more_blank items ++ [(0, plain_struct_record fmt file_ (.mk name full_name
        file ct field nested_type enum_type extension [] [] options))], by simp, ?_, ?_⟩
      · rw [hfilter, List.map_append, one_more_blank_map]
        rfl
      · simp only [PrintDescriptor, hd, Bool.false_eq_true, if_false, hcons hi, hdef]
        rw [separated_records_append _ _ (one_more_blank_ne_nil _ hi),
          ← one_more_blank_records _ hi]
        simp only [comma_records, List.flatMap_cons, List.flatMap_nil, List.replicate_zero,
          List.append_nil, List.append_assoc, List.nil_append]
theorem PrintDescriptor_nested_items (fmt : FloatFormat) (file_ : FileDescriptor) :
    ∀ (ds : List Descriptor) (sep : Str) (anc : List Str),
      (anc.all fun a => !named_Empty a) = true →
      (∀ x ∈ Descriptor.subtree_list anc ds,
        x.2.extension_range = [] ∧ x.2.oneof_decl = []) →
      ∃ items,
        items.map Prod.snd = ((Descriptor.subtree_list anc ds).filter outside_Empty).map
          (fun x => plain_struct_record fmt file_ x.2) ∧
        (items = [] → PrintDescriptor.nested fmt file_ ds sep = ([], sep)) ∧
        (items ≠ [] → PrintDescriptor.nested fmt file_ ds sep =
          ([Print0 sep] ++ separated_records items, ",".toList))
  | [], _, _, _, _ => ⟨[], rfl, fun _ => rfl, fun h => absurd rfl h⟩
  | .mk name full_name file ct field nested_type enum_type extension er od options :: rest,
      sep, anc, h, hp => by
    by_cases hd : named_Empty name = true
    · obtain ⟨items, hmap, hnil, hcons⟩ := PrintDescriptor_nested_items fmt file_ rest sep anc h
        (fun x hx => hp x (by
          simp only [Descriptor.subtree_list, List.mem_append]
          exact Or.inr hx))
      refine ⟨items, ?_, ?_, ?_⟩
      · simp only [Descriptor.subtree_list, List.filter_append, List.map_append]
        rw [subtree_of_Empty _ anc (by simpa only [Descriptor.name] using hd), hmap]
        rfl
      · intro hi
        simp only [PrintDescriptor.nested, hd, if_true]
        exact hnil hi
      · intro hi
        simp only [PrintDescriptor.nested, hd, if_true]
        exact hcons hi
    · have hd' : named_Empty name = false := by simpa using hd
      obtain ⟨items1, hne1, hmap1, hpd⟩ := PrintDescriptor_items fmt file_
        (.mk name full_name file ct field nested_type enum_type extension er od options) anc h
        (by simpa only [Descriptor.name] using hd')
        (fun x hx => hp x (by
          simp only [Descriptor.subtree_list, List.mem_append]
          exact Or.inl hx))
      obtain ⟨items2, hmap2, hnil2, hcons2⟩ := PrintDescriptor_nested_items fmt file_ rest
        ",".toList anc h
        (fun x hx => hp x (by
          simp only [Descriptor.subtree_list, List.mem_append]
          exact Or.inr hx))
      refine ⟨items1 ++ items2, ?_, fun hi => absurd (List.append_eq_nil.mp hi).1 hne1,
        fun _ => ?_⟩
      · simp only [Descriptor.subtree_list, List.filter_append, List.map_append, hmap1, hmap2]
      · simp only [PrintDescriptor.nested, hd', Bool.false_eq_true, if_false, hpd]
        by_cases hi : items2 = []
        · rw [hnil2 hi, hi]
          simp only [List.append_nil]
        · rw [hcons2 hi, separated_records_append _ _ hne1]
          cases items2 with
          | nil => exact absurd rfl hi
          | cons x more =>
            rw [comma_records_cons]
            simp only [List.append_assoc]
end

theorem Generate_message_types_items (fmt : FloatFormat) (file_ : FileDescriptor)
    (ds : List Descriptor) (sep : Str)
    (hp : ∀ x ∈ Descriptor.subtree_list [] ds,
      x.2.extension_range = [] ∧ x.2.oneof_decl = []) :
    ∃ items,
      items.map Prod.snd = ((Descriptor.subtree_list [] ds).filter outside_Empty).map
        (fun x => plain_struct_record fmt file_ x.2) ∧
      (items = [] → Generate.message_types fmt file_ ds sep = []) ∧
      (items ≠ [] → Generate.message_types fmt file_ ds sep =
        [Print0 sep] ++ separated_records items) := by
  induction ds generalizing sep with
  | nil => exact ⟨[], rfl, fun _ => rfl, fun h => absurd rfl h⟩
  | cons d rest ih =>
    by_cases hd : named_Empty d.name = true
    · obtain ⟨items, hmap, hnil, hcons⟩ := ih sep (fun x hx => hp x (by
        simp only [Descriptor.subtree_list, List.mem_append]
        exact Or.inr hx))
      refine ⟨items, ?_, ?_, ?_⟩
      · simp only [Descriptor.subtree_list, List.filter_append, List.map_append]
        rw [subtree_of_Empty _ [] hd, hmap]
        rfl
      · intro hi
        simp only [Generate.message_types, hd, if_true]
        exact hnil hi
      · intro hi
        simp only [Generate.message_types, hd, if_true]
        exact hcons hi
    · have hd' : named_Empty d.name = false := by simpa using hd
      obtain ⟨items1, hne1, hmap1, hpd⟩ := PrintDescriptor_items fmt file_ d [] rfl hd'
        (fun x hx => hp x (by
          simp only [Descriptor.subtree_list, List.mem_append]
          exact Or.inl hx))
      obtain ⟨items2, hmap2, hnil2, hcons2⟩ := ih ",".toList (fun x hx => hp x (by
        simp only [Descriptor.subtree_list, List.mem_append]
        exact Or.inr hx))
      refine ⟨items1 ++ items2, ?_, fun hi => absurd (List.append_eq_nil.mp hi).1 hne1,
        fun _ => ?_⟩
      · simp only [Descriptor.subtree_list, List.filter_append, List.map_append, hmap1, hmap2]
      · simp only [Generate.message_types, hd', Bool.false_eq_true, if_false, hpd]
        by_cases hi : items2 = []
        · rw [hnil2 hi, hi]
          simp only [List.append_nil]
        · rw [hcons2 hi, separated_records_append _ _ hne1]
          cases items2 with
          | nil => exact absurd rfl hi
          | cons x more =>
            rw [comma_records_cons]
            simp only [List.append_assoc]

/-- C26. For a file without enums at any level, without top-level extensions and
without a message that has extension ranges or oneofs: what a run of
`Generate` prints between the lines of the imports and the closing of
`globaldecls` is a well-formed list of the Struct records of the messages that
are printed (those not named "Empty" and without ancestor named "Empty",
nested messages first): the first record comes after blank separators only,
and every later record after exactly one comma and blank separators. -/
theorem C26_separators_between_Struct_records (fmt : FloatFormat)
    (context : GeneratorContext) (g : Generator) (file : FileDescriptor) (r : GenerateResult)
    (h : Generate fmt context g file = some r)
    (h1 : file.enum_type = []) (h2 : Descriptor.all_enums_list file.message_type = [])
    (h3 : file.extension = [])
    (h4 : ∀ x ∈ file.all_messages, x.2.extension_range = [] ∧ x.2.oneof_decl = []) :
    ∃ items post,
      items.map Prod.snd = (file.all_messages.filter outside_Empty).map
        (fun x => plain_struct_record fmt file x.2) ∧
      r.generator.printer_ =
        [Print0 globaldecls_open_text] ++ PrintImports file ++ separated_records items ++
          [Print0 interfaces_open_text] ++ post := by
  obtain ⟨fix, -, hp⟩ := Generate_some fmt context g file r h
  have hsep : (Generate.nested_enums file file.message_type " ".toList).enum_separator =
      " ".toList := by
    rw [Generate_nested_enums_enum_separator, h2]
    rfl
  have hnested : (Generate.nested_enums file file.message_type " ".toList).printer = [] := by
    rw [Generate_nested_enums_printer, h2]
    rfl
  obtain ⟨items, hmap, hnil, hcons⟩ := Generate_message_types_items fmt file
    file.message_type " ".toList h4
  rw [hsep, hnested, h1, h3] at hp
  simp only [Generate.enum_types, Generate.extensions, List.map_nil, List.append_nil,
    List.nil_append] at hp
  by_cases hi : items = []
  · refine ⟨[], fix ++ Generate.services file 0 file.service ++
      [Print0 interfaces_close_text], ?_, ?_⟩
    · unfold FileDescriptor.all_messages
      rw [← hmap, hi]
    · rw [hp, hnil hi]
      simp only [separated_records, List.append_nil, List.nil_append, List.append_assoc]
  · refine ⟨one_more_blank items, fix ++ Generate.services file 0 file.service ++
      [Print0 interfaces_close_text], ?_, ?_⟩
    · unfold FileDescriptor.all_messages
      rw [one_more_blank_map, hmap]
    · rw [hp, hcons hi, ← one_more_blank_records _ hi]
      simp only [List.append_assoc]

set_option maxRecDepth 100000 in
/-- Witness of C26: "nest.proto" without its enum: the messages `Empty`,
`Outer.Empty.Hidden`, `Outer.Empty`, `Outer.Plain`, `Outer.Inner` and `Outer`;
the run prints the records of `Plain`, `Inner` and `Outer`. -/
theorem C26_separators_between_Struct_records_witness :
    Generate Example.fmt Example.context Example.generator Example.plain_file =
        some (Example.run Example.plain_file) ∧
      (Example.plain_file.all_messages.filter outside_Empty).map (fun x => x.2.name) =
        ["Plain".toList, "Inner".toList, "Outer".toList] ∧
      (∃ items post,
        items.map Prod.snd = (Example.plain_file.all_messages.filter outside_Empty).map
          (fun x => plain_struct_record Example.fmt Example.plain_file x.2) ∧
        (Example.run Example.plain_file).generator.printer_ =
          [Print0 globaldecls_open_text] ++ PrintImports Example.plain_file ++
            separated_records items ++ [Print0 interfaces_open_text] ++ post) ∧
      (Example.run Example.plain_file).text = Example.plain_text :=
  ⟨rfl, by decide,
    C26_separators_between_Struct_records Example.fmt Example.context Example.generator
      Example.plain_file _ rfl rfl rfl rfl
      (fun x hx => by
        simp only [FileDescriptor.all_messages, Example.plain_file, Example.nested_file,
          Example.top_Empty, Example.nested_Empty, Example.Hidden, Example.Plain,
          Example.plain_Inner, Descriptor.subtree_list, Descriptor.subtree, List.append_nil,
          List.nil_append, List.cons_append, List.mem_cons, List.mem_singleton,
          List.not_mem_nil, or_false] at hx
        rcases hx with rfl | rfl | rfl | rfl | rfl | rfl <;> exact ⟨rfl, rfl⟩),
    by decide⟩

/-! ## The records of a message definition -/

theorem definition_event_Print0 (text : Str) : definition_event (Print0 text) = none := by
  simp only [Print0, definition_event, lookup_variable, List.find?_nil, Option.map_none']
  split
  · rfl
  · split
    · rfl
    · split <;> rfl

theorem definition_event_field (fmt : FloatFormat) (file_ : FileDescriptor)
    (f : FieldDescriptor) (b : Bool) :
    definition_event (.Print (PrintFieldDescriptor.m fmt file_ f b) field_record_text) =
      some (DefinitionEvent.field f.name f.resolved_type_name) := by
  have h1 : lookup_variable (PrintFieldDescriptor.m fmt file_ f b) "name".toList =
      some f.name := by
    simp [PrintFieldDescriptor.m, lookup_variable, List.find?]
  have h2 : lookup_variable (PrintFieldDescriptor.m fmt file_ f b) "cpp_type".toList =
      some f.resolved_type_name := by
    simp [PrintFieldDescriptor.m, lookup_variable, List.find?,
      FieldDescriptor.resolved_type_name]
  simp only [definition_event, if_true, h1, h2]

theorem definition_event_range (a b : Str) :
    definition_event (.Print [("start".toList, a), ("end".toList, b)]
      "($start$, $end$), ".toList) = some (DefinitionEvent.range a b) := by
  have h0 : "($start$, $end$), ".toList ≠ field_record_text := by decide
  have h1 : lookup_variable [("start".toList, a), ("end".toList, b)] "start".toList =
      some a := by
    simp [lookup_variable, List.find?]
  have h2 : lookup_variable [("start".toList, a), ("end".toList, b)] "end".toList =
      some b := by
    simp [lookup_variable, List.find?]
  simp only [definition_event, if_neg h0, extension_range_text, if_true, h1, h2]

theorem definition_event_oneof (a b c : Str) :
    definition_event (.Print [("name".toList, a), ("full_name".toList, b),
      ("index".toList, c)] "OOD(name='$name$'),".toList) = some (DefinitionEvent.oneof a) := by
  have h0 : "OOD(name='$name$'),".toList ≠ field_record_text := by decide
  have h0' : "OOD(name='$name$'),".toList ≠ extension_range_text := by decide
  have h1 : lookup_variable [("name".toList, a), ("full_name".toList, b),
      ("index".toList, c)] "name".toList = some a := by
    simp [lookup_variable, List.find?]
  simp only [definition_event, if_neg h0, if_neg h0', oneof_record_text, if_true, h1,
    Option.map_some']

theorem definition_event_other (vars : List (Str × Str)) (text : Str)
    (h1 : text ≠ field_record_text) (h2 : text ≠ extension_range_text)
    (h3 : text ≠ oneof_record_text) : definition_event (.Print vars text) = none := by
  simp only [definition_event, if_neg h1, if_neg h2, if_neg h3]

theorem PrintDescriptor_fields_events (fmt : FloatFormat) (file_ : FileDescriptor)
    (fs : List FieldDescriptor) (sep : Str) :
    (PrintDescriptor.fields fmt file_ fs sep).filterMap definition_event =
      fs.map fun f => DefinitionEvent.field f.name f.resolved_type_name := by
  induction fs generalizing sep with
  | nil => rfl
  | cons f rest ih =>
    simp only [PrintDescriptor.fields, PrintFieldDescriptor, List.filterMap_append,
      List.map_cons, ih]
    rw [List.filterMap_cons_none (definition_event_Print0 _),
      List.filterMap_cons_some (definition_event_field fmt file_ f false)]
    rfl

theorem extension_ranges_events (er : List ExtensionRange) :
    (er.flatMap fun range =>
        [PrinterCall.Print [("start".toList, SimpleItoa range.start),
          ("end".toList, SimpleItoa range.end_)] "($start$, $end$), ".toList]).filterMap
        definition_event =
      er.map fun range => DefinitionEvent.range (SimpleItoa range.start)
        (SimpleItoa range.end_) := by
  induction er with
  | nil => rfl
  | cons x rest ih =>
    simp only [List.flatMap_cons, List.filterMap_append, ih, List.map_cons]
    rw [List.filterMap_cons_some (definition_event_range _ _)]
    rfl

theorem oneofs_events (od : List OneofDescriptor) :
    (od.flatMap fun desc =>
        [PrinterCall.Print [("name".toList, desc.name), ("full_name".toList, desc.full_name),
          ("index".toList, SimpleItoa desc.index)] "OOD(name='$name$'),".toList]).filterMap
        definition_event =
      od.map fun desc => DefinitionEvent.oneof desc.name := by
  induction od with
  | nil => rfl
  | cons x rest ih =>
    simp only [List.flatMap_cons, List.filterMap_append, ih, List.map_cons]
    rw [List.filterMap_cons_some (definition_event_oneof _ _ _)]
    rfl

theorem PrintDescriptor_definition_events (fmt : FloatFormat) (file_ : FileDescriptor)
    (name full_name : Str) (field : List FieldDescriptor) (er : List ExtensionRange)
    (od : List OneofDescriptor) :
    (PrintDescriptor.definition fmt file_ name full_name field er od).filterMap
        definition_event =
      (field.map fun f => DefinitionEvent.field f.name f.resolved_type_name) ++
        (er.map fun range => DefinitionEvent.range (SimpleItoa range.start)
          (SimpleItoa range.end_)) ++
        od.map fun desc => DefinitionEvent.oneof desc.name := by
  have he : (if er.length ≠ 0 then
        [Print0 "extension_ranges=[".toList] ++
          (er.flatMap fun range =>
            [PrinterCall.Print [("start".toList, SimpleItoa range.start),
                ("end".toList, SimpleItoa range.end_)] "($start$, $end$), ".toList]) ++
          [Print0 "],".toList]
       else []).filterMap definition_event =
      er.map fun range => DefinitionEvent.range (SimpleItoa range.start)
        (SimpleItoa range.end_) := by
    split
    · simp only [List.filterMap_append, extension_ranges_events]
      rw [List.filterMap_cons_none (definition_event_Print0 _),
        List.filterMap_cons_none (definition_event_Print0 _)]
      simp only [List.filterMap_nil, List.nil_append, List.append_nil]
    · rename_i h
      have : er = [] := by
        cases er with
        | nil => rfl
        | cons x rest => exact absurd (by simp) h
      rw [this]
      rfl
  have ho : (if od.length ≠ 0 then
        [Print0 "oneofs=[".toList, .Indent] ++
          (od.flatMap fun desc =>
            [PrinterCall.Print [("name".toList, desc.name), ("full_name".toList, desc.full_name),
                ("index".toList, SimpleItoa desc.index)] "OOD(name='$name$'),".toList]) ++
          [.Outdent, Print0 "],".toList]
       else []).filterMap definition_event =
      od.map fun desc => DefinitionEvent.oneof desc.name := by
    split
    · simp only [List.filterMap_append, oneofs_events]
      rw [List.filterMap_cons_none (definition_event_Print0 _),
        List.filterMap_cons_none (a := PrinterCall.Indent) rfl,
        List.filterMap_cons_none (a := PrinterCall.Outdent) rfl,
        List.filterMap_cons_none (definition_event_Print0 _)]
      simp only [List.filterMap_nil, List.nil_append, List.append_nil]
    · rename_i h
      have : od = [] := by
        cases od with
        | nil => rfl
        | cons x rest => exact absurd (by simp) h
      rw [this]
      rfl
  simp only [PrintDescriptor.definition, List.filterMap_append, he, ho,
    PrintDescriptor_fields_events]
  rw [List.filterMap_cons_none (definition_event_other _ _ (by decide) (by decide) (by decide)),
    List.filterMap_cons_none (a := PrinterCall.Indent) rfl,
    List.filterMap_cons_none (definition_event_other _ _ (by decide) (by decide) (by decide)),
    List.filterMap_cons_none (a := PrinterCall.Outdent) rfl]
  simp only [List.filterMap_nil, List.nil_append, List.append_nil]

/-! ## Claims on the records of a message definition -/

set_option maxRecDepth 100000 in
/-- C22, as stated, fails: two messages that differ only in the index of their oneof
`kind` (0 and 3); the definition that `PrintDescriptor` writes is the same
text for both, and the oneof record in it gives the name only. -/
theorem C22_oneof_record_index_counterexample :
    (Example.oneof_message 0).oneof_decl.map (fun o => o.index) = [0] ∧
      (Example.oneof_message 3).oneof_decl.map (fun o => o.index) = [3] ∧
      Printer.run (StructRecord Example.fmt Example.point_file (Example.oneof_message 0)) =
        Printer.run (StructRecord Example.fmt Example.point_file (Example.oneof_message 3)) ∧
      Printer.run (StructRecord Example.fmt Example.point_file (Example.oneof_message 3)) =
        ("        \x7b\n" ++
         "            \"dtype\": \"TypeDef\", \n" ++
         "            \"tdtype\": \x7b\n" ++
         "                \"elements\": [\n" ++
         "                       \x7b \"pname\": \"x\", \"ptype\": \x7b \"name\": \"int32\"\x7d \x7d\n" ++
         "                  ], \n" ++
         "                  \"name\": \"M\", \n" ++
         "                  \"type\": \"Struct\"\n" ++
         "              \x7d, \n" ++
         "              \"tname\": \"M\"\n" ++
         "        \x7d\n" ++
         "  extension_ranges=[(100, 200), ],oneofs=[OOD(name='kind'),],").toList := by
  refine ⟨rfl, rfl, ?_, ?_⟩ <;> decide

theorem oneof_call_mem (fmt : FloatFormat) (file_ : FileDescriptor) (d : Descriptor)
    (desc : OneofDescriptor) (hdesc : desc ∈ d.oneof_decl) :
    PrinterCall.Print [("name".toList, desc.name), ("full_name".toList, desc.full_name),
        ("index".toList, SimpleItoa desc.index)] oneof_record_text ∈
      StructRecord fmt file_ d := by
  have hne : d.oneof_decl.length ≠ 0 := by
    intro e
    rw [List.length_eq_zero.mp e] at hdesc
    cases hdesc
  unfold StructRecord PrintDescriptor.definition
  simp only [hne, ne_eq, not_false_eq_true, if_true]
  apply List.mem_append_left
  apply List.mem_append_right
  apply List.mem_append_left
  apply List.mem_append_right
  exact List.mem_flatMap.mpr ⟨desc, hdesc, List.mem_singleton.mpr rfl⟩

/-- C22, amended. A message that is not named "Empty" is printed as the messages nested
in it, a separator and its definition.  Read in order, the records of the
definition are one field record per declared field in declared order (with
the name and the resolved type name of the field), then one pair of integers
per extension range in declared order, then one oneof record per oneof in
declared order, which carries the name of the oneof only: the template of a
oneof record refers to `name` and not to `index`.  A message without
extension ranges and without oneofs has the field records only.  The call
that prints the record of a oneof binds its name, its full name and its
index. -/
theorem C22_definition_records (fmt : FloatFormat) (file_ : FileDescriptor) (d : Descriptor) :
    (named_Empty d.name = false →
        PrintDescriptor fmt file_ d =
          (PrintDescriptor.nested fmt file_ d.nested_type " ".toList).1 ++
            [Print0 (PrintDescriptor.nested fmt file_ d.nested_type " ".toList).2] ++
            StructRecord fmt file_ d) ∧
      (StructRecord fmt file_ d).filterMap definition_event =
        (d.field.map fun f => DefinitionEvent.field f.name f.resolved_type_name) ++
          (d.extension_range.map fun range =>
            DefinitionEvent.range (SimpleItoa range.start) (SimpleItoa range.end_)) ++
          d.oneof_decl.map (fun desc => DefinitionEvent.oneof desc.name) ∧
      template_vars extension_range_text none = ["start".toList, "end".toList] ∧
      template_vars oneof_record_text none = ["name".toList] ∧
      (d.extension_range = [] → d.oneof_decl = [] →
        StructRecord fmt file_ d = plain_struct_record fmt file_ d) ∧
      (∀ desc ∈ d.oneof_decl,
        PrinterCall.Print [("name".toList, desc.name), ("full_name".toList, desc.full_name),
            ("index".toList, SimpleItoa desc.index)] oneof_record_text ∈
          StructRecord fmt file_ d) := by
  refine ⟨PrintDescriptor_eq fmt file_ d, PrintDescriptor_definition_events _ _ _ _ _ _ _,
    by decide, by decide, fun h1 h2 => ?_, oneof_call_mem fmt file_ d⟩
  unfold StructRecord
  rw [h1, h2, PrintDescriptor_definition_plain]
  rfl

set_option maxRecDepth 100000 in
/-- Witness of C22, amended: the message `M` with one field, one extension range and the
oneof `kind`, and the message `Point` with two fields only. -/
theorem C22_definition_records_witness :
    named_Empty (Example.oneof_message 3).name = false ∧
      PrintDescriptor Example.fmt Example.point_file (Example.oneof_message 3) =
        [Print0 " ".toList] ++
          StructRecord Example.fmt Example.point_file (Example.oneof_message 3) ∧
      (StructRecord Example.fmt Example.point_file (Example.oneof_message 3)).filterMap
          definition_event =
        [DefinitionEvent.field "x".toList "int32".toList,
         DefinitionEvent.range "100".toList "200".toList,
         DefinitionEvent.oneof "kind".toList] ∧
      Example.Point.extension_range = [] ∧ Example.Point.oneof_decl = [] ∧
      StructRecord Example.fmt Example.point_file Example.Point =
        plain_struct_record Example.fmt Example.point_file Example.Point :=
  ⟨by decide,
    ((C22_definition_records Example.fmt Example.point_file (Example.oneof_message 3)).1
      (by decide)).trans (by decide),
    (C22_definition_records Example.fmt Example.point_file
      (Example.oneof_message 3)).2.1.trans (by decide),
    rfl, rfl,
    (C22_definition_records Example.fmt Example.point_file Example.Point).2.2.2.2.1 rfl rfl⟩

/-! ## The lines of the imports -/

theorem Printer.WriteRaw_line (b data : Str) (s : Bool) :
    { Printer.WriteRaw { buffer := b, indent_ := [], at_start_of_line_ := s } data with
      at_start_of_line_ := true } = Printer.at_line_start (b ++ data) := by
  obtain ⟨s', e⟩ := Printer.WriteRaw_fresh b data s
  rw [e]
  rfl

set_option maxRecDepth 100000 in
theorem dependency_line_step (b import_statement module_alias : Str) :
    (Printer.at_line_start b).step
        (.Print [("statement".toList, import_statement), ("alias".toList, module_alias)]
          "$statement$ as $alias$\n".toList) =
      Printer.at_line_start (b ++ import_statement ++ " as ".toList ++ module_alias ++ "\n".toList) := by
  have ht : "$statement$ as $alias$\n".toList =
      '$' :: ("statement".toList ++ '$' :: (" as ".toList ++ ('$' :: ("alias".toList ++
        '$' :: ['\n'])))) := by decide
  have l1 : lookup_variable [("statement".toList, import_statement), ("alias".toList, module_alias)]
      ([] ++ "statement".toList) = some import_statement := by
    simp [lookup_variable, List.find?]
  have l2 : lookup_variable [("statement".toList, import_statement), ("alias".toList, module_alias)]
      ([] ++ "alias".toList) = some module_alias := by
    simp [lookup_variable, List.find?]
  simp only [Printer.step, Printer.Print, Printer.at_line_start]
  rw [ht, Printer.scan, if_neg (by decide), if_pos rfl,
    Printer.scan_varname _ _ _ _ _ _ _ (by decide) (by decide) l1]
  obtain ⟨s1, e1⟩ := Printer.WriteRaw_fresh b [] true
  rw [e1]
  obtain ⟨s2, e2⟩ := Printer.WriteRaw_fresh (b ++ []) import_statement s1
  rw [e2, Printer.scan_literal _ _ _ _ _ (by decide), Printer.scan, if_neg (by decide),
    if_pos rfl, Printer.scan_varname _ _ _ _ _ _ _ (by decide) (by decide) l2]
  obtain ⟨s3, e3⟩ := Printer.WriteRaw_fresh (b ++ [] ++ import_statement) ([] ++ " as ".toList) s2
  rw [e3]
  obtain ⟨s4, e4⟩ := Printer.WriteRaw_fresh (b ++ [] ++ import_statement ++ ([] ++ " as ".toList))
    module_alias s3
  rw [e4, Printer.scan, if_pos rfl, Printer.WriteRaw_line, Printer.scan]
  simp only [Printer.WriteRaw, List.append_nil, List.nil_append, List.append_assoc]
  rfl

set_option maxRecDepth 100000 in
theorem alias_copy_step (b copy_from module_alias : Str) :
    (Printer.at_line_start b).step (alias_copy_call copy_from module_alias) =
      Printer.at_line_start (b ++ alias_copy_line copy_from module_alias) := by
  have ht : "$alias$ = $copy_from$.$alias$\n".toList =
      '$' :: ("alias".toList ++ '$' :: (" = ".toList ++ ('$' :: ("copy_from".toList ++
        '$' :: (".".toList ++ ('$' :: ("alias".toList ++ '$' :: ['\n']))))))) := by decide
  have l1 : lookup_variable [("alias".toList, module_alias), ("copy_from".toList, copy_from)]
      ([] ++ "alias".toList) = some module_alias := by
    simp [lookup_variable, List.find?]
  have l2 : lookup_variable [("alias".toList, module_alias), ("copy_from".toList, copy_from)]
      ([] ++ "copy_from".toList) = some copy_from := by
    simp [lookup_variable, List.find?]
  simp only [Printer.step, Printer.Print, Printer.at_line_start, alias_copy_call,
    alias_copy_line]
  rw [ht, Printer.scan, if_neg (by decide), if_pos rfl,
    Printer.scan_varname _ _ _ _ _ _ _ (by decide) (by decide) l1]
  obtain ⟨s1, e1⟩ := Printer.WriteRaw_fresh b [] true
  rw [e1]
  obtain ⟨s2, e2⟩ := Printer.WriteRaw_fresh (b ++ []) module_alias s1
  rw [e2, Printer.scan_literal _ _ _ _ _ (by decide), Printer.scan, if_neg (by decide),
    if_pos rfl, Printer.scan_varname _ _ _ _ _ _ _ (by decide) (by decide) l2]
  obtain ⟨s3, e3⟩ := Printer.WriteRaw_fresh (b ++ [] ++ module_alias) ([] ++ " = ".toList) s2
  rw [e3]
  obtain ⟨s4, e4⟩ := Printer.WriteRaw_fresh (b ++ [] ++ module_alias ++ ([] ++ " = ".toList))
    copy_from s3
  rw [e4, Printer.scan_literal _ _ _ _ _ (by decide), Printer.scan, if_neg (by decide),
    if_pos rfl, Printer.scan_varname _ _ _ _ _ _ _ (by decide) (by decide) l1]
  obtain ⟨s5, e5⟩ := Printer.WriteRaw_fresh
    (b ++ [] ++ module_alias ++ ([] ++ " = ".toList) ++ copy_from) ([] ++ ".".toList) s4
  rw [e5]
  obtain ⟨s6, e6⟩ := Printer.WriteRaw_fresh
    (b ++ [] ++ module_alias ++ ([] ++ " = ".toList) ++ copy_from ++ ([] ++ ".".toList)) module_alias s5
  rw [e6, Printer.scan, if_pos rfl, Printer.WriteRaw_line, Printer.scan]
  simp only [Printer.WriteRaw, List.append_nil, List.nil_append, List.append_assoc]
  rfl

set_option maxRecDepth 100000 in
theorem wildcard_step (b module_name : Str) :
    (Printer.at_line_start b).step
        (.Print [("module".toList, module_name)] "from $module$ import *\n".toList) =
      Printer.at_line_start (b ++ "from ".toList ++ module_name ++ " import *\n".toList) := by
  have ht : "from $module$ import *\n".toList =
      "from ".toList ++ ('$' :: ("module".toList ++ '$' :: (" import *".toList ++
        ['\n']))) := by decide
  have l1 : lookup_variable [("module".toList, module_name)] ([] ++ "module".toList) =
      some module_name := by
    simp [lookup_variable, List.find?]
  simp only [Printer.step, Printer.Print, Printer.at_line_start]
  rw [ht, Printer.scan_literal _ _ _ _ _ (by decide), Printer.scan, if_neg (by decide),
    if_pos rfl, Printer.scan_varname _ _ _ _ _ _ _ (by decide) (by decide) l1]
  obtain ⟨s1, e1⟩ := Printer.WriteRaw_fresh b ([] ++ "from ".toList) true
  rw [e1]
  obtain ⟨s2, e2⟩ := Printer.WriteRaw_fresh (b ++ ([] ++ "from ".toList)) module_name s1
  rw [e2, Printer.scan_literal _ _ _ _ _ (by decide), Printer.scan, if_pos rfl,
    Printer.WriteRaw_line, Printer.scan]
  simp only [Printer.WriteRaw, List.append_nil, List.nil_append, List.append_assoc]
  rfl

/-- Calls that each write one line, made on a printer without indentation at the
start of a line, write their lines one after the other. -/
theorem Printer.run_lines (line : PrinterCall → Str) (calls : List PrinterCall)
    (h : ∀ c ∈ calls, ∀ b, (Printer.at_line_start b).step c =
      Printer.at_line_start (b ++ line c)) (b : Str) :
    calls.foldl Printer.step (Printer.at_line_start b) =
      Printer.at_line_start (b ++ calls.flatMap line) := by
  induction calls generalizing b with
  | nil => simp only [List.foldl_nil, List.flatMap_nil, List.append_nil]
  | cons c rest ih =>
    rw [List.foldl_cons, h c (List.mem_cons_self _ _),
      ih (fun d hd => h d (List.mem_cons_of_mem _ hd)), List.flatMap_cons, List.append_assoc]

theorem call_line_of_step (c : PrinterCall) (line : Str)
    (h : ∀ b, (Printer.at_line_start b).step c = Printer.at_line_start (b ++ line)) :
    call_line c = line ∧
      ∀ b, (Printer.at_line_start b).step c = Printer.at_line_start (b ++ call_line c) := by
  have e : call_line c = line := by
    unfold call_line
    rw [h []]
    rfl
  exact ⟨e, fun b => by rw [e, h b]⟩

theorem Printer.run_line_calls (calls : List PrinterCall)
    (h : ∀ c ∈ calls, ∀ b, (Printer.at_line_start b).step c =
      Printer.at_line_start (b ++ call_line c)) :
    Printer.run calls = calls.flatMap call_line := by
  have := Printer.run_lines call_line calls h []
  unfold Printer.run
  rw [show ({ buffer := [], indent_ := [], at_start_of_line_ := true } : Printer) =
    Printer.at_line_start [] from rfl, this]
  rfl

theorem dependency_line_call_line (filename : Str) :
    call_line (dependency_line_call filename) =
        ModuleImportStatement filename ++ " as ".toList ++ ModuleAlias filename ++
          "\n".toList ∧
      ∀ b, (Printer.at_line_start b).step (dependency_line_call filename) =
        Printer.at_line_start (b ++ call_line (dependency_line_call filename)) :=
  call_line_of_step _ _ fun b => by
    rw [dependency_line_call, dependency_line_step]
    simp only [List.append_assoc]

theorem alias_copy_call_line (copy_from module_alias : Str) :
    call_line (alias_copy_call copy_from module_alias) =
        alias_copy_line copy_from module_alias ∧
      ∀ b, (Printer.at_line_start b).step (alias_copy_call copy_from module_alias) =
        Printer.at_line_start (b ++ call_line (alias_copy_call copy_from module_alias)) :=
  call_line_of_step _ _ fun b => alias_copy_step b copy_from module_alias

theorem wildcard_call_line (filename : Str) :
    call_line (wildcard_call filename) =
        "from ".toList ++ ModuleName filename ++ " import *\n".toList ∧
      ∀ b, (Printer.at_line_start b).step (wildcard_call filename) =
        Printer.at_line_start (b ++ call_line (wildcard_call filename)) :=
  call_line_of_step _ _ fun b => by
    rw [wildcard_call, wildcard_step]
    simp only [List.append_assoc]

theorem getLastD_cons (name : Str) (p : List Str) (h : p ≠ []) :
    (name :: p).getLastD [] = p.getLastD [] := by
  cases p with
  | nil => exact absurd rfl h
  | cons a rest => rfl

mutual
theorem ImportedFile.public_paths_ne_nil :
    ∀ (f : ImportedFile), ∀ p ∈ f.public_paths, p ≠ []
  | .mk _ public_dependency, p, hp => by
    simp only [ImportedFile.public_paths] at hp
    exact ImportedFile.public_paths_list_ne_nil public_dependency p hp
theorem ImportedFile.public_paths_list_ne_nil :
    ∀ (l : List ImportedFile), ∀ p ∈ ImportedFile.public_paths_list l, p ≠ []
  | [], p, hp => by cases hp
  | .mk name public_dependency :: rest, p, hp => by
    simp only [ImportedFile.public_paths_list, List.cons_append, List.mem_cons,
      List.mem_append, List.mem_map] at hp
    rcases hp with rfl | ⟨q, -, rfl⟩ | h
    · exact List.cons_ne_nil _ _
    · exact List.cons_ne_nil _ _
    · exact ImportedFile.public_paths_list_ne_nil rest p h
end

mutual
theorem CopyPublicDependenciesAliases_paths (copy_from : Str) :
    ∀ (f : ImportedFile),
      CopyPublicDependenciesAliases copy_from f =
        f.public_paths.map fun p => alias_copy_call copy_from (ModuleAlias (p.getLastD []))
  | .mk _ public_dependency => by
    simp only [CopyPublicDependenciesAliases, ImportedFile.public_paths]
    exact CopyPublicDependenciesAliases_loop_paths copy_from public_dependency
theorem CopyPublicDependenciesAliases_loop_paths (copy_from : Str) :
    ∀ (l : List ImportedFile),
      CopyPublicDependenciesAliases.loop copy_from l =
        (ImportedFile.public_paths_list l).map fun p =>
          alias_copy_call copy_from (ModuleAlias (p.getLastD []))
  | [] => rfl
  | .mk name public_dependency :: rest => by
    simp only [CopyPublicDependenciesAliases.loop, ImportedFile.public_paths_list,
      CopyPublicDependenciesAliases_paths copy_from (.mk name public_dependency),
      CopyPublicDependenciesAliases_loop_paths copy_from rest, List.cons_append,
      List.map_append, List.map_cons, List.map_map, List.singleton_append]
    congr 2
    apply List.map_congr_left
    intro p hp
    simp only [Function.comp]
    rw [getLastD_cons _ _ (ImportedFile.public_paths_ne_nil _ p hp)]
end

/-- C23. `PrintImports` prints, for each dependency of the file in declared order, one
line `<ModuleImportStatement(dep)> as <ModuleAlias(dep)>` directly followed by
the alias-copy lines of that dependency (one line per public-dependency path
that starts at it, qualified by the alias of the dependency), and after all
of these one line `from <ModuleName(p)> import *` for each public dependency p
of the file, in declared order; nothing else. -/
theorem C23_PrintImports_lines (file_ : FileDescriptor) :
    PrintImports file_ =
        (file_.dependency.flatMap fun dep =>
          dependency_line_call dep.name ::
            dep.public_paths.map fun p =>
              alias_copy_call (ModuleAlias dep.name) (ModuleAlias (p.getLastD []))) ++
          file_.public_dependency.map (fun p => wildcard_call p.name) ∧
      Printer.run (PrintImports file_) =
        (file_.dependency.flatMap fun dep =>
          ModuleImportStatement dep.name ++ " as ".toList ++ ModuleAlias dep.name ++
            "\n".toList ++
            dep.public_paths.flatMap fun p =>
              alias_copy_line (ModuleAlias dep.name) (ModuleAlias (p.getLastD []))) ++
          file_.public_dependency.flatMap fun p =>
            "from ".toList ++ ModuleName p.name ++ " import *\n".toList := by
  have hcalls : PrintImports file_ =
      (file_.dependency.flatMap fun dep =>
        dependency_line_call dep.name ::
          dep.public_paths.map fun p =>
            alias_copy_call (ModuleAlias dep.name) (ModuleAlias (p.getLastD []))) ++
        file_.public_dependency.map (fun p => wildcard_call p.name) := by
    simp only [PrintImports, CopyPublicDependenciesAliases_paths, List.singleton_append]
    congr 1
    induction file_.public_dependency with
    | nil => rfl
    | cons p rest ih => simp only [List.flatMap_cons, List.map_cons, ih, List.singleton_append]; rfl
  refine ⟨hcalls, ?_⟩
  rw [hcalls, Printer.run_line_calls]
  · simp only [List.flatMap_append, List.flatMap_assoc, List.flatMap_cons,
      (dependency_line_call_line _).1, List.flatMap_map, (alias_copy_call_line _ _).1,
      (wildcard_call_line _).1, List.append_assoc]
  · intro c hc
    simp only [List.mem_append, List.mem_flatMap, List.mem_cons, List.mem_map] at hc
    rcases hc with ⟨dep, -, rfl | ⟨p, -, rfl⟩⟩ | ⟨p, -, rfl⟩
    · exact (dependency_line_call_line _).2
    · exact (alias_copy_call_line _ _).2
    · exact (wildcard_call_line _).2

set_option maxRecDepth 100000 in
/-- Witness of C23: the lines of the imports of "main.proto", which depends on "dir/a.proto" (with
the public dependencies "b.proto", itself with "c.proto", and "c.proto") and
on "c.proto", and publicly on "c.proto". -/
theorem C23_PrintImports_lines_witness :
    Printer.run (PrintImports Example.importing_file) =
      ("from dir import a_pb as dir_dot_a__pb\n" ++
       "b__pb = dir_dot_a__pb.b__pb\n" ++
       "c__pb = dir_dot_a__pb.c__pb\n" ++
       "c__pb = dir_dot_a__pb.c__pb\n" ++
       "import c_pb as c__pb\n" ++
       "from c_pb import *\n").toList :=
  (C23_PrintImports_lines Example.importing_file).2.trans (by decide)

/-! ## `CopyPublicDependenciesAliases` on a graph of public dependencies -/

theorem pool_loop_some (copy_from : Str) (call : Str → Option (List PrinterCall))
    (g : Str → List PrinterCall) (l : List Str) (h : ∀ d ∈ l, call d = some (g d)) :
    CopyPublicDependenciesAliases.pool_loop copy_from call l =
      some (l.flatMap fun d => alias_copy_call copy_from (ModuleAlias d) :: g d) := by
  induction l with
  | nil => rfl
  | cons d rest ih =>
    simp only [CopyPublicDependenciesAliases.pool_loop, h d (List.mem_cons_self _ _),
      ih (fun x hx => h x (List.mem_cons_of_mem _ hx)), List.flatMap_cons]
    rfl

theorem pool_loop_mono (copy_from : Str) (call call' : Str → Option (List PrinterCall))
    (h : ∀ d r, call d = some r → call' d = some r) (l : List Str) (r : List PrinterCall)
    (hr : CopyPublicDependenciesAliases.pool_loop copy_from call l = some r) :
    CopyPublicDependenciesAliases.pool_loop copy_from call' l = some r := by
  induction l generalizing r with
  | nil => exact hr
  | cons d rest ih =>
    unfold CopyPublicDependenciesAliases.pool_loop at hr ⊢
    simp only at hr ⊢
    split at hr
    · cases hr
    · rename_i p1 h1
      split at hr
      · cases hr
      · rename_i p2 h2
        rw [h d p1 h1, ih p2 h2]
        exact hr

theorem on_pool_succ (pool : FilePool) (copy_from : Str) (fuel : Nat) :
    ∀ (file : Str) (r : List PrinterCall),
      CopyPublicDependenciesAliases.on_pool pool copy_from fuel file = some r →
      CopyPublicDependenciesAliases.on_pool pool copy_from (fuel + 1) file = some r := by
  induction fuel with
  | zero =>
    intro file r h
    cases h
  | succ n ih =>
    intro file r h
    rw [CopyPublicDependenciesAliases.on_pool] at h ⊢
    exact pool_loop_mono copy_from _ _ ih _ r h

theorem on_pool_mono (pool : FilePool) (copy_from file : Str) (r : List PrinterCall)
    (fuel fuel' : Nat) (hle : fuel ≤ fuel')
    (h : CopyPublicDependenciesAliases.on_pool pool copy_from fuel file = some r) :
    CopyPublicDependenciesAliases.on_pool pool copy_from fuel' file = some r := by
  induction hle with
  | refl => exact h
  | step _ ih => exact on_pool_succ pool copy_from _ file r ih

theorem FilePool.paths_ne_nil (pool : FilePool) (n : Nat) (file : Str) :
    ∀ p ∈ pool.paths n file, p ≠ [] := by
  cases n with
  | zero =>
    intro p hp
    cases hp
  | succ n =>
    intro p hp
    simp only [FilePool.paths, List.mem_flatMap, List.mem_cons, List.mem_map] at hp
    obtain ⟨d, -, rfl | ⟨q, -, rfl⟩⟩ := hp <;> exact List.cons_ne_nil _ _

theorem on_pool_bounded (pool : FilePool) (copy_from : Str) (n : Nat) :
    ∀ (file : Str), (∀ p, pool.IsPath file p → p.length ≤ n) →
      CopyPublicDependenciesAliases.on_pool pool copy_from (n + 1) file =
        some ((pool.paths n file).map fun p =>
          alias_copy_call copy_from (ModuleAlias (p.getLastD []))) := by
  induction n with
  | zero =>
    intro file hb
    have hnil : pool.public_dependency file = [] := by
      cases hd : pool.public_dependency file with
      | nil => rfl
      | cons d rest =>
        have := hb [d] (List.Chain.cons (by rw [hd]; exact List.mem_cons_self _ _)
          List.Chain.nil)
        exact absurd this (by simp)
    simp only [CopyPublicDependenciesAliases.on_pool, hnil,
      CopyPublicDependenciesAliases.pool_loop, FilePool.paths, List.map_nil]
  | succ n ih =>
    intro file hb
    have hdep : ∀ d ∈ pool.public_dependency file,
        CopyPublicDependenciesAliases.on_pool pool copy_from (n + 1) d =
          some ((pool.paths n d).map fun p =>
            alias_copy_call copy_from (ModuleAlias (p.getLastD []))) := by
      intro d hd
      apply ih
      intro p hp
      have := hb (d :: p) (List.Chain.cons hd hp)
      simpa using this
    rw [CopyPublicDependenciesAliases.on_pool, pool_loop_some copy_from _ _ _ hdep]
    simp only [FilePool.paths, List.map_flatMap, List.map_cons, List.map_map]
    congr 2
    funext d
    congr 1
    apply List.map_congr_left
    intro p hp
    simp only [Function.comp]
    rw [getLastD_cons _ _ (pool.paths_ne_nil n d p hp)]

theorem FilePool.mem_paths (pool : FilePool) (n : Nat) :
    ∀ (file : Str) (p : List Str),
      p ∈ pool.paths n file ↔ p ≠ [] ∧ pool.IsPath file p ∧ p.length ≤ n := by
  induction n with
  | zero =>
    intro file p
    constructor
    · intro h
      cases h
    · rintro ⟨h1, -, h3⟩
      exact absurd (List.length_eq_zero.mp (Nat.le_zero.mp h3)) h1
  | succ n ih =>
    intro file p
    simp only [FilePool.paths, List.mem_flatMap, List.mem_cons, List.mem_map]
    constructor
    · rintro ⟨d, hd, rfl | ⟨q, hq, rfl⟩⟩
      · exact ⟨List.cons_ne_nil _ _, List.Chain.cons hd List.Chain.nil, by simp⟩
      · obtain ⟨-, h2, h3⟩ := (ih d q).mp hq
        exact ⟨List.cons_ne_nil _ _, List.Chain.cons hd h2, by simpa using h3⟩
    · rintro ⟨h1, h2, h3⟩
      cases p with
      | nil => exact absurd rfl h1
      | cons d q =>
        obtain ⟨hd, hq⟩ := List.chain_cons.mp h2
        refine ⟨d, hd, ?_⟩
        cases q with
        | nil => exact Or.inl rfl
        | cons e q' =>
          exact Or.inr ⟨e :: q', (ih d (e :: q')).mpr
            ⟨List.cons_ne_nil _ _, hq, by simpa using h3⟩, rfl⟩

theorem FilePool.paths_stable (pool : FilePool) (n : Nat) :
    ∀ (file : Str), (∀ p, pool.IsPath file p → p.length ≤ n) →
      ∀ k, pool.paths (n + k) file = pool.paths n file := by
  induction n with
  | zero =>
    intro file hb k
    have hnil : pool.public_dependency file = [] := by
      cases hd : pool.public_dependency file with
      | nil => rfl
      | cons d rest =>
        have := hb [d] (List.Chain.cons (by rw [hd]; exact List.mem_cons_self _ _)
          List.Chain.nil)
        exact absurd this (by simp)
    cases k with
    | zero => rfl
    | succ k =>
      rw [Nat.zero_add]
      simp only [FilePool.paths, hnil, List.flatMap_nil]
  | succ n ih =>
    intro file hb k
    rw [Nat.add_right_comm]
    simp only [FilePool.paths]
    apply List.flatMap_congr
    intro d hd
    rw [ih d (fun p hp => by
      have := hb (d :: p) (List.Chain.cons hd hp)
      simpa using this) k]

theorem FilePool.tree_name (pool : FilePool) (n : Nat) (file : Str) :
    (pool.tree n file).name = file := by
  cases n <;> rfl

theorem public_paths_list_map (pool : FilePool) (n : Nat)
    (ih : ∀ file, (pool.tree n file).public_paths = pool.paths n file) (l : List Str) :
    ImportedFile.public_paths_list (l.map (pool.tree n)) =
      l.flatMap fun d => [d] :: (pool.paths n d).map fun p => d :: p := by
  induction l with
  | nil => rfl
  | cons d rest ihl =>
    rw [List.map_cons, List.flatMap_cons, ← ihl, ← ih d]
    cases h : pool.tree n d with
    | mk name public_dependency =>
      have hn : name = d := by
        have := pool.tree_name n d
        rw [h] at this
        exact this
      subst hn
      simp only [ImportedFile.public_paths_list, List.cons_append]

theorem FilePool.tree_public_paths (pool : FilePool) (n : Nat) :
    ∀ (file : Str), (pool.tree n file).public_paths = pool.paths n file := by
  induction n with
  | zero =>
    intro file
    rfl
  | succ n ih =>
    intro file
    simp only [FilePool.tree, ImportedFile.public_paths, FilePool.paths]
    exact public_paths_list_map pool n ih _

theorem FilePool.path_mem (pool : FilePool) (files : List Str)
    (hclosed : ∀ f ∈ files, ∀ d ∈ pool.public_dependency f, d ∈ files) :
    ∀ (p : List Str) (file : Str), file ∈ files → pool.IsPath file p → ∀ x ∈ p, x ∈ files := by
  intro p
  induction p with
  | nil =>
    intro file _ _ x hx
    cases hx
  | cons d q ih =>
    intro file hf hp x hx
    obtain ⟨hd, hq⟩ := List.chain_cons.mp hp
    have hdf := hclosed file hf d hd
    rcases List.mem_cons.mp hx with rfl | h
    · exact hdf
    · exact ih d hdf hq x h

theorem FilePool.path_nodup (pool : FilePool)
    (hacyclic : ∀ f p, p ≠ [] → pool.IsPath f p → p.getLast? ≠ some f) :
    ∀ (p : List Str) (file : Str), pool.IsPath file p → (file :: p).Nodup := by
  intro p
  induction p with
  | nil =>
    intro file _
    exact List.nodup_singleton _
  | cons d q ih =>
    intro file hp
    obtain ⟨hd, hq⟩ := List.chain_cons.mp hp
    refine List.nodup_cons.mpr ⟨fun hmem => ?_, ih d hq⟩
    obtain ⟨l1, l2, e⟩ := List.append_of_mem hmem
    have hp' : pool.IsPath file (l1 ++ file :: l2) := e ▸ hp
    have hc := (List.chain_split.mp hp').1
    exact hacyclic file (l1 ++ [file]) (by simp) hc (by simp)

theorem FilePool.path_length (pool : FilePool) (files : List Str) (file : Str)
    (hfile : file ∈ files)
    (hclosed : ∀ f ∈ files, ∀ d ∈ pool.public_dependency f, d ∈ files)
    (hacyclic : ∀ f p, p ≠ [] → pool.IsPath f p → p.getLast? ≠ some f) :
    ∀ p, pool.IsPath file p → p.length ≤ files.length - 1 := by
  intro p hp
  have hn := pool.path_nodup hacyclic p file hp
  have hs : file :: p ⊆ files := by
    intro x hx
    rcases List.mem_cons.mp hx with rfl | h
    · exact hfile
    · exact pool.path_mem files hclosed p file hfile hp x h
  have := (List.subperm_of_subset hn hs).length_le
  simp only [List.length_cons] at this
  omega

theorem FilePool.paths_nodup (pool : FilePool)
    (hnodup : ∀ f, (pool.public_dependency f).Nodup) (n : Nat) :
    ∀ (file : Str), (pool.paths n file).Nodup := by
  induction n with
  | zero =>
    intro file
    exact List.nodup_nil
  | succ n ih =>
    intro file
    simp only [FilePool.paths]
    rw [List.nodup_flatMap]
    constructor
    · intro d _
      refine List.nodup_cons.mpr ⟨?_, (ih d).map fun a b h => (List.cons.inj h).2⟩
      intro hmem
      obtain ⟨q, hq, e⟩ := List.mem_map.mp hmem
      exact pool.paths_ne_nil n d q hq (List.cons.inj e).2
    · refine (hnodup file).imp ?_
      intro a b hab p hpa hpb
      have ha : p.head? = some a := by
        rcases List.mem_cons.mp hpa with rfl | h
        · rfl
        · obtain ⟨q, -, rfl⟩ := List.mem_map.mp h
          rfl
      have hb : p.head? = some b := by
        rcases List.mem_cons.mp hpb with rfl | h
        · rfl
        · obtain ⟨q, -, rfl⟩ := List.mem_map.mp h
          rfl
      exact hab (Option.some.inj (ha.symm.trans hb))

theorem acyclic_of_rank (pool : FilePool) (rank : Str → Nat)
    (h : ∀ f, ∀ d ∈ pool.public_dependency f, rank d < rank f) :
    ∀ f p, p ≠ [] → pool.IsPath f p → p.getLast? ≠ some f := by
  have key : ∀ (p : List Str) (f : Str), pool.IsPath f p → ∀ x ∈ p, rank x < rank f := by
    intro p
    induction p with
    | nil =>
      intro f _ x hx
      cases hx
    | cons d q ih =>
      intro f hp x hx
      obtain ⟨hd, hq⟩ := List.chain_cons.mp hp
      rcases List.mem_cons.mp hx with rfl | hxq
      · exact h f x hd
      · exact Nat.lt_trans (ih d hq x hxq) (h f d hd)
  intro f p _ hp hlast
  have := key p f hp f (List.mem_of_mem_getLast? hlast)
  omega

/-- C29. The files of a pool are the finitely many of `files`, closed under public
dependency, and no public-dependency path leads from a file back to itself.
Then `CopyPublicDependenciesAliases(copy_from, file)` returns (with any bound
on the depth of recursion from the number of files on), and what it prints
is one line `A = copy_from.A` for each non-empty public-dependency path that
starts at `file`, `A` being the alias of the last file of the path, always with
the `copy_from` of the outermost call.  The paths come in depth-first
pre-order: for each public dependency in declared order the path to it, then
the paths through it; a list of paths without repetition when no file names a
public dependency twice, so that a file reached by several paths gets one
line per path.  It is what the function prints on the file unfolded as a
tree. -/
theorem C29_CopyPublicDependenciesAliases_one_line_per_path (pool : FilePool)
    (files : List Str) (copy_from file : Str) (hfile : file ∈ files)
    (hclosed : ∀ f ∈ files, ∀ d ∈ pool.public_dependency f, d ∈ files)
    (hacyclic : ∀ f p, p ≠ [] → pool.IsPath f p → p.getLast? ≠ some f) :
    (∀ fuel, files.length ≤ fuel →
        CopyPublicDependenciesAliases.on_pool pool copy_from fuel file =
          some ((pool.paths files.length file).map fun p =>
            alias_copy_call copy_from (ModuleAlias (p.getLastD [])))) ∧
      (∀ p, p ∈ pool.paths files.length file ↔ p ≠ [] ∧ pool.IsPath file p) ∧
      ((∀ f, (pool.public_dependency f).Nodup) → (pool.paths files.length file).Nodup) ∧
      pool.paths files.length file =
        ((pool.public_dependency file).flatMap fun d =>
          [d] :: (pool.paths files.length d).map fun p => d :: p) ∧
      Printer.run ((pool.paths files.length file).map fun p =>
          alias_copy_call copy_from (ModuleAlias (p.getLastD []))) =
        ((pool.paths files.length file).flatMap fun p =>
          alias_copy_line copy_from (ModuleAlias (p.getLastD []))) ∧
      CopyPublicDependenciesAliases copy_from (pool.tree files.length file) =
        (pool.paths files.length file).map fun p =>
          alias_copy_call copy_from (ModuleAlias (p.getLastD [])) := by
  have hpos : 0 < files.length := List.length_pos_of_mem hfile
  have hb := pool.path_length files file hfile hclosed hacyclic
  have hN : files.length - 1 + 1 = files.length := by omega
  have hst : pool.paths files.length file = pool.paths (files.length - 1) file := by
    have := pool.paths_stable (files.length - 1) file hb 1
    rw [hN] at this
    exact this
  refine ⟨fun fuel hfuel => ?_, fun p => ?_, fun hnodup => pool.paths_nodup hnodup _ _, ?_,
    ?_, ?_⟩
  · have h1 := on_pool_bounded pool copy_from (files.length - 1) file hb
    rw [hN] at h1
    rw [hst]
    exact on_pool_mono pool copy_from file _ _ _ hfuel h1
  · rw [pool.mem_paths]
    constructor
    · rintro ⟨h1, h2, -⟩
      exact ⟨h1, h2⟩
    · rintro ⟨h1, h2⟩
      exact ⟨h1, h2, Nat.le_trans (hb p h2) (Nat.sub_le _ _)⟩
  · have h1 : pool.paths (files.length + 1) file = pool.paths files.length file :=
      pool.paths_stable files.length file
        (fun p hp => Nat.le_trans (hb p hp) (Nat.sub_le _ _)) 1
    rw [← h1]
    simp only [FilePool.paths]
  · rw [Printer.run_line_calls, List.flatMap_map]
    · simp only [(alias_copy_call_line _ _).1]
    · intro c hc
      obtain ⟨p, -, rfl⟩ := List.mem_map.mp hc
      exact (alias_copy_call_line _ _).2
  · rw [CopyPublicDependenciesAliases_paths, pool.tree_public_paths]

theorem on_pool_cycle (copy_from : Str) :
    ∀ fuel, CopyPublicDependenciesAliases.on_pool Example.cyclic_pool copy_from fuel
      "a.proto".toList = none := by
  intro fuel
  induction fuel with
  | zero => rfl
  | succ n ih =>
    rw [CopyPublicDependenciesAliases.on_pool]
    have : Example.cyclic_pool.public_dependency "a.proto".toList = ["a.proto".toList] := by
      decide
    rw [this]
    simp only [CopyPublicDependenciesAliases.pool_loop, ih]

set_option maxRecDepth 100000 in
/-- Witness of C29: in the pool where "a.proto" publicly depends on "b.proto" and
"c.proto" and both of these on "d.proto", the call on "a.proto" prints four
lines, two of them for "d.proto", which two paths reach. -/
theorem C29_CopyPublicDependenciesAliases_one_line_per_path_witness :
    Example.diamond_pool.paths 4 "a.proto".toList =
        [["b.proto".toList], ["b.proto".toList, "d.proto".toList],
         ["c.proto".toList], ["c.proto".toList, "d.proto".toList]] ∧
      (∀ fuel, 4 ≤ fuel →
        (CopyPublicDependenciesAliases.on_pool Example.diamond_pool "x".toList fuel
            "a.proto".toList).map Printer.run =
          some ("b__pb = x.b__pb\n" ++ "d__pb = x.d__pb\n" ++ "c__pb = x.c__pb\n" ++
            "d__pb = x.d__pb\n").toList) := by
  have hrank : ∀ f, ∀ d ∈ Example.diamond_pool.public_dependency f,
      (if d = "a.proto".toList then 2 else if d = "d.proto".toList then 0 else 1) <
        (if f = "a.proto".toList then 2 else if f = "d.proto".toList then 0 else 1) := by
    intro f d hd
    simp only [Example.diamond_pool] at hd
    split at hd
    · rename_i hf
      subst hf
      simp only [List.mem_cons, List.mem_singleton, List.not_mem_nil, or_false] at hd
      rcases hd with rfl | rfl <;> decide
    · split at hd
      · rename_i hf
        subst hf
        rw [List.mem_singleton] at hd
        subst hd
        decide
      · split at hd
        · rename_i hf
          subst hf
          rw [List.mem_singleton] at hd
          subst hd
          decide
        · cases hd
  have hclosed : ∀ f ∈ ["a.proto".toList, "b.proto".toList, "c.proto".toList,
      "d.proto".toList], ∀ d ∈ Example.diamond_pool.public_dependency f,
      d ∈ ["a.proto".toList, "b.proto".toList, "c.proto".toList, "d.proto".toList] := by
    decide
  have h := C29_CopyPublicDependenciesAliases_one_line_per_path Example.diamond_pool
    ["a.proto".toList, "b.proto".toList, "c.proto".toList, "d.proto".toList] "x".toList
    "a.proto".toList (by decide) hclosed (acyclic_of_rank _ _ hrank)
  refine ⟨by decide, fun fuel hfuel => ?_⟩
  rw [h.1 fuel hfuel, Option.map_some', h.2.2.2.2.1]
  decide

/-! ## The records of enums and messages in the order of the run -/

theorem PrintEnum_values_names (file_ : FileDescriptor) (vs : List EnumValueDescriptor)
    (i : Nat) :
    (PrintEnum.values file_ i vs).filterMap enum_value_name = vs.map fun v => v.name := by
  induction vs generalizing i with
  | nil => rfl
  | cons v rest ih =>
    have h1 : ∀ m : List (Str × Str),
        enum_value_name (PrinterCall.Print m ",".toList) = none := by
      intro m
      simp only [enum_value_name]
      rw [if_neg (by decide)]
    have h2 : enum_value_name (PrinterCall.Print
        [("name".toList, v.name), ("index".toList, SimpleItoa v.index),
         ("number".toList, SimpleItoa v.number),
         ("options".toList, OptionsValue file_ "EnumValueOptions".toList v.options)]
        "\"$name$\"".toList) = some v.name := by
      simp only [enum_value_name, if_true]
      rfl
    simp only [PrintEnum.values, List.filterMap_append, ih, List.map_cons]
    rw [List.filterMap_cons_some h2]
    split
    · rw [List.filterMap_cons_none (h1 _)]
      rfl
    · rfl

theorem EnumRecord_eq (file_ : FileDescriptor) (e : EnumDescriptor) :
    EnumRecord file_ e =
      [.Print [("name".toList, e.name)] enum_open_text, .Indent] ++
        PrintEnum.values file_ 0 e.value ++
        [.Outdent, .Print [("name".toList, e.name)] enum_close_text] :=
  rfl

theorem StructRecord_eq (fmt : FloatFormat) (file_ : FileDescriptor) (d : Descriptor) :
    ∃ tail, StructRecord fmt file_ d =
      [.Print [("name".toList, d.name), ("full_name".toList, d.full_name),
          ("file".toList, "DESCRIPTOR".toList)] struct_open_text, .Indent] ++
        PrintDescriptor.fields fmt file_ d.field " ".toList ++
        [.Print [("name".toList, d.name), ("full_name".toList, d.full_name),
          ("file".toList, "DESCRIPTOR".toList)] struct_close_text] ++ tail :=
  ⟨_, (List.append_assoc _ _ _).trans (List.append_assoc _ _ _)⟩

/-- C3. Ordering: when a top-level message M holds a nested message N that holds an
enum E, and neither M nor N is named "Empty" (the names are compared as C
strings, as `strcmp` compares them; a name without NUL byte is its own C
string), the calls of a run of `Generate` hold, in this order: the Enum
record of E (the opening template with the name of E, its values by name in
declared order, the closing template with the name of E and the type
"Enum"), later the Struct record of N (the opening template, its field
records in declared order, the closing template with the name of N and the
type "Struct"), and later still the Struct record of M. -/
theorem C3_enum_before_nested_before_parent (fmt : FloatFormat) (context : GeneratorContext)
    (g : Generator) (file : FileDescriptor) (r : GenerateResult) (M N : Descriptor)
    (E : EnumDescriptor) (hr : Generate fmt context g file = some r)
    (hM : M ∈ file.message_type) (hN : N ∈ M.nested_type) (hE : E ∈ N.enum_type)
    (hMname : c_str M.name ≠ "Empty".toList) (hNname : c_str N.name ≠ "Empty".toList) :
    ∃ a vs b fN c fM d,
      r.generator.printer_ =
        a ++ ([.Print [("name".toList, E.name)] enum_open_text, .Indent] ++ vs ++
            [.Outdent, .Print [("name".toList, E.name)] enum_close_text]) ++
          b ++ ([.Print [("name".toList, N.name), ("full_name".toList, N.full_name),
                ("file".toList, "DESCRIPTOR".toList)] struct_open_text, .Indent] ++ fN ++
            [.Print [("name".toList, N.name), ("full_name".toList, N.full_name),
                ("file".toList, "DESCRIPTOR".toList)] struct_close_text]) ++
          c ++ ([.Print [("name".toList, M.name), ("full_name".toList, M.full_name),
                ("file".toList, "DESCRIPTOR".toList)] struct_open_text, .Indent] ++ fM ++
            [.Print [("name".toList, M.name), ("full_name".toList, M.full_name),
                ("file".toList, "DESCRIPTOR".toList)] struct_close_text]) ++ d ∧
      vs.filterMap enum_value_name = E.value.map (fun v => v.name) ∧
      fN.filterMap definition_event =
        N.field.map (fun f => DefinitionEvent.field f.name f.resolved_type_name) ∧
      fM.filterMap definition_event =
        M.field.map (fun f => DefinitionEvent.field f.name f.resolved_type_name) := by
  obtain ⟨a, b, c, d, hp⟩ := Generate_enum_nested_parent_records fmt context g file r M N E hr
    hM hN hE hMname hNname
  obtain ⟨tN, hN'⟩ := StructRecord_eq fmt file N
  obtain ⟨tM, hM'⟩ := StructRecord_eq fmt file M
  refine ⟨a, PrintEnum.values file 0 E.value, b, PrintDescriptor.fields fmt file N.field
    " ".toList, tN ++ c, PrintDescriptor.fields fmt file M.field " ".toList, tM ++ d, ?_,
    PrintEnum_values_names file _ _, PrintDescriptor_fields_events fmt file _ _,
    PrintDescriptor_fields_events fmt file _ _⟩
  rw [hp, EnumRecord_eq, hN', hM']
  simp only [List.append_assoc]

set_option maxRecDepth 100000 in
/-- Witness of C3: in "nest.proto" the top-level message `Outer` holds the message
`Inner`, which holds the enum `Kind` with the values A and B. -/
theorem C3_enum_before_nested_before_parent_witness :
    Generate Example.fmt Example.context Example.generator Example.nested_file =
        some (Example.run Example.nested_file) ∧
      Example.Outer ∈ Example.nested_file.message_type ∧
      Example.Inner ∈ Example.Outer.nested_type ∧
      Example.Kind ∈ Example.Inner.enum_type ∧
      c_str Example.Outer.name ≠ "Empty".toList ∧
      c_str Example.Inner.name ≠ "Empty".toList ∧
      (∃ a vs b fN c fM d,
        (Example.run Example.nested_file).generator.printer_ =
          a ++ ([.Print [("name".toList, "Kind".toList)] enum_open_text, .Indent] ++ vs ++
              [.Outdent, .Print [("name".toList, "Kind".toList)] enum_close_text]) ++
            b ++ ([.Print [("name".toList, "Inner".toList),
                  ("full_name".toList, "Outer.Inner".toList),
                  ("file".toList, "DESCRIPTOR".toList)] struct_open_text, .Indent] ++ fN ++
              [.Print [("name".toList, "Inner".toList),
                  ("full_name".toList, "Outer.Inner".toList),
                  ("file".toList, "DESCRIPTOR".toList)] struct_close_text]) ++
            c ++ ([.Print [("name".toList, "Outer".toList),
                  ("full_name".toList, "Outer".toList),
                  ("file".toList, "DESCRIPTOR".toList)] struct_open_text, .Indent] ++ fM ++
              [.Print [("name".toList, "Outer".toList),
                  ("full_name".toList, "Outer".toList),
                  ("file".toList, "DESCRIPTOR".toList)] struct_close_text]) ++ d ∧
        vs.filterMap enum_value_name = ["A".toList, "B".toList] ∧
        fN.filterMap definition_event = [] ∧
        fM.filterMap definition_event = []) ∧
      (Example.run Example.nested_file).text = Example.nested_text :=
  ⟨rfl, List.mem_cons_of_mem _ (List.mem_cons_self _ _),
    List.mem_cons_of_mem _ (List.mem_cons_self _ _), List.mem_cons_self _ _,
    by decide, by decide,
    C3_enum_before_nested_before_parent Example.fmt Example.context Example.generator
      Example.nested_file (Example.run Example.nested_file) Example.Outer Example.Inner
      Example.Kind rfl (List.mem_cons_of_mem _ (List.mem_cons_self _ _))
      (List.mem_cons_of_mem _ (List.mem_cons_self _ _)) (List.mem_cons_self _ _)
      (by decide) (by decide),
    by decide⟩

/-- C19, amended. In a run of `Generate` the records of the top-level enums of the
file come before the records of the enums nested in the messages: for a
top-level enum `T` and an enum `E` nested at any depth in a top-level message,
the calls of the run hold the Enum record of `T` (the opening template with
the name of `T`, its values by name in declared order, the closing template
with the name of `T` and the type "Enum") and, after it, the Enum record of
`E`. -/
theorem C19_top_level_enums_before_nested_enums (fmt : FloatFormat)
    (context : GeneratorContext) (g : Generator) (file : FileDescriptor) (r : GenerateResult)
    (h : Generate fmt context g file = some r) (T E : EnumDescriptor)
    (hT : T ∈ file.enum_type) (hE : E ∈ Descriptor.all_enums_list file.message_type) :
    ∃ a vT b vE c,
      r.generator.printer_ =
        a ++ ([.Print [("name".toList, T.name)] enum_open_text, .Indent] ++ vT ++
            [.Outdent, .Print [("name".toList, T.name)] enum_close_text]) ++
          b ++ ([.Print [("name".toList, E.name)] enum_open_text, .Indent] ++ vE ++
            [.Outdent, .Print [("name".toList, E.name)] enum_close_text]) ++ c ∧
      vT.filterMap enum_value_name = T.value.map (fun v => v.name) ∧
      vE.filterMap enum_value_name = E.value.map (fun v => v.name) := by
  obtain ⟨a, b, c, hp⟩ := Generate_top_level_enum_nested_enum_records fmt context g file r h
    T E hT hE
  refine ⟨a, PrintEnum.values file 0 T.value, b, PrintEnum.values file 0 E.value, c, ?_,
    PrintEnum_values_names file _ _, PrintEnum_values_names file _ _⟩
  rw [hp, EnumRecord_eq, EnumRecord_eq]

set_option maxRecDepth 100000 in
/-- Witness of C19, amended: "nest.proto" with the top-level enum `Top` (value T0) and
the enum `Kind` (values A and B) nested in `Outer.Inner`. -/
theorem C19_top_level_enums_before_nested_enums_witness :
    Generate Example.fmt Example.context Example.generator Example.enums_file =
        some (Example.run Example.enums_file) ∧
      Example.Top ∈ Example.enums_file.enum_type ∧
      Example.Kind ∈ Descriptor.all_enums_list Example.enums_file.message_type ∧
      (∃ a vT b vE c,
        (Example.run Example.enums_file).generator.printer_ =
          a ++ ([.Print [("name".toList, "Top".toList)] enum_open_text, .Indent] ++ vT ++
              [.Outdent, .Print [("name".toList, "Top".toList)] enum_close_text]) ++
            b ++ ([.Print [("name".toList, "Kind".toList)] enum_open_text, .Indent] ++ vE ++
              [.Outdent, .Print [("name".toList, "Kind".toList)] enum_close_text]) ++ c ∧
        vT.filterMap enum_value_name = ["T0".toList] ∧
        vE.filterMap enum_value_name = ["A".toList, "B".toList]) ∧
      (Example.run Example.enums_file).generator.printer_.filterMap enum_record_name =
        ["Top".toList, "Kind".toList] :=
  ⟨rfl, List.mem_singleton.mpr rfl, List.mem_singleton.mpr rfl,
    C19_top_level_enums_before_nested_enums Example.fmt Example.context Example.generator
      Example.enums_file _ rfl Example.Top Example.Kind (List.mem_singleton.mpr rfl)
      (List.mem_singleton.mpr rfl),
    by decide⟩

/-! ## The statements of the options fix-up pass and the descriptors they assign to -/

theorem option_statement_fixing_code (d o : Str) :
    (PrintDescriptorOptionsFixingCode d o).map option_statement = [some (d, o)] := by
  have h1 : lookup_variable [("descriptor".toList, d), ("options".toList, o)]
      "descriptor".toList = some d := by
    simp [lookup_variable, List.find?]
  have h2 : lookup_variable [("descriptor".toList, d), ("options".toList, o)]
      "options".toList = some o := by
    simp [lookup_variable, List.find?]
  simp only [PrintDescriptorOptionsFixingCode, List.map_cons, List.map_nil, option_statement]
  rw [if_pos (show "$descriptor$.has_options = True\n$descriptor$._options = $options$\n".toList =
    option_statement_text from rfl), h1, h2]

/-- What the fix-up pass prints for one descriptor: one statement that assigns to it
when `OptionsValue` is not "None", nothing otherwise. -/
theorem option_statement_of_descriptor (file_ : FileDescriptor) (d c o : Str) :
    (if OptionsValue file_ c o ≠ "None".toList then
        PrintDescriptorOptionsFixingCode d (OptionsValue file_ c o)
      else []).map option_statement =
      if OptionsValue file_ c o ≠ "None".toList then [some (d, OptionsValue file_ c o)]
      else [] := by
  by_cases h : OptionsValue file_ c o = "None".toList
  · simp only [h, ne_eq, not_true_eq_false, if_false, List.map_nil]
  · simp only [h, ne_eq, not_false_eq_true, if_true, option_statement_fixing_code]

theorem FixOptionsForEnum_assignments (file_ : FileDescriptor) (e : EnumDescriptor) :
    (FixOptionsForEnum file_ e).map option_statement =
      (e.fixup_targets file_).flatMap fun t =>
        if OptionsValue file_ t.class_name t.options ≠ "None".toList then
          [some (t.descriptor, OptionsValue file_ t.class_name t.options)]
        else [] := by
  simp only [FixOptionsForEnum, List.map_append, option_statement_of_descriptor,
    EnumDescriptor.fixup_targets, List.flatMap_cons, List.map_flatMap, List.flatMap_map]

theorem FixOptionsForEnum_flatMap_assignments (file_ : FileDescriptor)
    (es : List EnumDescriptor) :
    (es.flatMap (FixOptionsForEnum file_)).map option_statement =
      (es.flatMap (EnumDescriptor.fixup_targets file_)).flatMap fun t =>
        if OptionsValue file_ t.class_name t.options ≠ "None".toList then
          [some (t.descriptor, OptionsValue file_ t.class_name t.options)]
        else [] := by
  induction es with
  | nil => rfl
  | cons e rest ih =>
    simp only [List.flatMap_cons, List.map_append, List.flatMap_append,
      FixOptionsForEnum_assignments, ih]

theorem FieldReferencingExpression_some (file_ : FileDescriptor) (f : FieldDescriptor)
    (s : Str)
    (h : (if f.is_extension then
        if f.extension_scope = DescriptorPtr.NULL then some f.name
        else FieldReferencingExpression file_ f.extension_scope f "extensions_by_name".toList
      else FieldReferencingExpression file_ f.containing_type f "fields_by_name".toList) =
      some s) :
    s = (f.fixup_target file_).descriptor := by
  unfold FieldDescriptor.fixup_target
  simp only
  by_cases he : f.is_extension = true
  · simp only [he, if_true] at h ⊢
    cases hs : f.extension_scope with
    | NULL =>
      rw [hs] at h
      simp only [if_true, Option.some.injEq] at h
      exact h.symm
    | ptr name file outer =>
      rw [hs] at h
      simp only [reduceCtorEq, if_false, FieldReferencingExpression] at h
      split at h
      · cases h
      · simp only [Option.some.injEq] at h
        exact h.symm
  · simp only [he, Bool.false_eq_true, if_false] at h ⊢
    cases hs : f.containing_type with
    | NULL =>
      rw [hs] at h
      simp only [FieldReferencingExpression] at h
      split at h
      · cases h
      · simp only [Option.some.injEq] at h
        exact h.symm
    | ptr name file outer =>
      rw [hs] at h
      simp only [FieldReferencingExpression] at h
      split at h
      · cases h
      · simp only [Option.some.injEq] at h
        exact h.symm

theorem FixOptionsForField_assignments (file_ : FileDescriptor) (f : FieldDescriptor)
    (p : List PrinterCall) (h : FixOptionsForField file_ f = some p) :
    p.map option_statement =
      if OptionsValue file_ "FieldOptions".toList f.options ≠ "None".toList then
        [some ((f.fixup_target file_).descriptor,
          OptionsValue file_ "FieldOptions".toList f.options)]
      else [] := by
  unfold FixOptionsForField at h
  simp only at h
  split at h
  · rename_i hne
    split at h
    · cases h
    · rename_i s hs
      simp only [Option.some.injEq] at h
      rw [← h, if_pos hne, option_statement_fixing_code,
        FieldReferencingExpression_some file_ f s hs]
  · rename_i hne
    simp only [Option.some.injEq] at h
    rw [← h, if_neg hne]
    rfl

theorem FixOptionsForField_loop_assignments (file_ : FileDescriptor)
    (fs : List FieldDescriptor) (p : List PrinterCall)
    (h : FixOptionsForField.loop file_ fs = some p) :
    p.map option_statement =
      (fs.map (FieldDescriptor.fixup_target file_)).flatMap fun t =>
        if OptionsValue file_ t.class_name t.options ≠ "None".toList then
          [some (t.descriptor, OptionsValue file_ t.class_name t.options)]
        else [] := by
  induction fs generalizing p with
  | nil =>
    simp only [FixOptionsForField.loop, Option.some.injEq] at h
    rw [← h]
    rfl
  | cons f rest ih =>
    unfold FixOptionsForField.loop at h
    split at h
    · cases h
    · rename_i p1 h1
      split at h
      · cases h
      · rename_i p2 h2
        simp only [Option.some.injEq] at h
        rw [← h, List.map_append, FixOptionsForField_assignments _ _ _ h1, ih _ h2]
        simp only [List.map_cons, List.flatMap_cons, FieldDescriptor.fixup_target]

mutual
theorem FixOptionsForMessage_assignments (file_ : FileDescriptor) :
    ∀ (d : Descriptor) (p : List PrinterCall), FixOptionsForMessage file_ d = some p →
      p.map option_statement =
        (d.fixup_targets file_).flatMap fun t =>
          if OptionsValue file_ t.class_name t.options ≠ "None".toList then
            [some (t.descriptor, OptionsValue file_ t.class_name t.options)]
          else []
  | .mk name _ file ct field nested_type enum_type extension _ _ options, p, h => by
    unfold FixOptionsForMessage at h
    split at h
    · cases h
    · rename_i p1 h1
      simp only at h
      split at h
      · cases h
      · rename_i p3 h3
        split at h
        · cases h
        · rename_i p4 h4
          simp only [Option.some.injEq] at h
          rw [← h]
          simp only [List.map_append, Descriptor.fixup_targets, List.flatMap_append,
            FixOptionsForMessage_nested_assignments file_ nested_type p1 h1,
            FixOptionsForEnum_flatMap_assignments,
            FixOptionsForField_loop_assignments _ _ _ h3,
            FixOptionsForField_loop_assignments _ _ _ h4, option_statement_of_descriptor,
            List.flatMap_cons, List.flatMap_nil, List.append_nil]
theorem FixOptionsForMessage_nested_assignments (file_ : FileDescriptor) :
    ∀ (ds : List Descriptor) (p : List PrinterCall),
      FixOptionsForMessage.nested file_ ds = some p →
      p.map option_statement =
        (Descriptor.fixup_targets_list file_ ds).flatMap fun t =>
          if OptionsValue file_ t.class_name t.options ≠ "None".toList then
            [some (t.descriptor, OptionsValue file_ t.class_name t.options)]
          else []
  | [], p, h => by
    simp only [FixOptionsForMessage.nested, Option.some.injEq] at h
    rw [← h]
    rfl
  | d :: rest, p, h => by
    unfold FixOptionsForMessage.nested at h
    split at h
    · cases h
    · rename_i p1 h1
      split at h
      · cases h
      · rename_i p2 h2
        simp only [Option.some.injEq] at h
        rw [← h, List.map_append, FixOptionsForMessage_assignments file_ d p1 h1,
          FixOptionsForMessage_nested_assignments file_ rest p2 h2]
        simp only [Descriptor.fixup_targets_list, List.flatMap_append]
end

theorem FixAllDescriptorOptions_assignments (file_ : FileDescriptor) (p : List PrinterCall)
    (h : FixAllDescriptorOptions file_ = some p) :
    p.map option_statement =
      file_.fixup_targets.flatMap fun t =>
        if OptionsValue file_ t.class_name t.options ≠ "None".toList then
          [some (t.descriptor, OptionsValue file_ t.class_name t.options)]
        else [] := by
  unfold FixAllDescriptorOptions at h
  simp only at h
  split at h
  · cases h
  · rename_i p3 h3
    split at h
    · cases h
    · rename_i p4 h4
      simp only [Option.some.injEq] at h
      rw [← h]
      simp only [List.map_append, FileDescriptor.fixup_targets, List.flatMap_cons,
        List.flatMap_append, option_statement_of_descriptor,
        FixOptionsForEnum_flatMap_assignments,
        FixOptionsForField_loop_assignments _ _ _ h3,
        FixOptionsForMessage_nested_assignments _ _ _ h4, List.append_assoc]
      rfl

theorem fixup_targets_statements (file_ : FileDescriptor)
    (h : GeneratingDescriptorProto file_ = false) (l : List OptionTarget) :
    (l.flatMap fun t =>
        if OptionsValue file_ t.class_name t.options ≠ "None".toList then
          [some (t.descriptor, OptionsValue file_ t.class_name t.options)]
        else []) =
      (l.filter fun t => decide (t.options ≠ [])).map fun t => some t.statement := by
  induction l with
  | nil => rfl
  | cons t rest ih =>
    rw [List.flatMap_cons, ih, List.filter_cons]
    by_cases ho : t.options = []
    · rw [ho, OptionsValue_nil]
      simp
    · rw [OptionsValue_eq_parse file_ t.class_name t.options h ho,
        if_pos (parse_options_expression_ne_None _ _)]
      simp [ho, OptionTarget.statement]

/-- C17. For a file that is not descriptor.proto, the calls of
`FixAllDescriptorOptions`, read as option-assignment statements, are exactly
one statement for each descriptor whose serialized options are not empty,
which assigns to that descriptor (the file as `DESCRIPTOR`, an enum or a
message by its module-level name, an enum value by its entry in
`values_by_name` of its enum, a field or an extension by its entry in
`fields_by_name` or `extensions_by_name` of the message that holds it, a
top-level extension by its name) the deferred-parse expression of its
options, in the order: the file; each top-level enum followed by its values;
each top-level extension; each top-level message as (nested messages, own
enums with their values, own fields, own extensions, the message itself).  A
descriptor with empty options gets no statement.  And the pass completes
when every field it visits belongs to the file. -/
theorem C17_FixAllDescriptorOptions_one_statement_per_nonempty_options
    (file : FileDescriptor) (h : GeneratingDescriptorProto file = false) :
    (∀ fix, FixAllDescriptorOptions file = some fix →
      fix.map option_statement =
        (file.fixup_targets.filter fun t => decide (t.options ≠ [])).map fun t =>
          some (t.descriptor, parse_options_expression t.class_name t.options)) ∧
      ((∀ f ∈ file.fixup_fields, f.file = file.name) →
        ∃ fix, FixAllDescriptorOptions file = some fix) := by
  refine ⟨fun fix hf => ?_, FixAllDescriptorOptions_isSome file⟩
  rw [FixAllDescriptorOptions_assignments file fix hf, fixup_targets_statements file h]
  rfl

set_option maxRecDepth 100000 in
/-- Witness of C17: "opt.proto"; the value BLUE and the field y have no options and
get no statement. -/
theorem C17_FixAllDescriptorOptions_one_statement_per_nonempty_options_witness :
    GeneratingDescriptorProto Example.optioned_file = false ∧
      (∃ fix, FixAllDescriptorOptions Example.optioned_file = some fix ∧
        fix.map option_statement =
          [some ("DESCRIPTOR".toList,
            parse_options_expression "FileOptions".toList "\n\x03foo".toList),
           some ("_COLOR".toList,
            parse_options_expression "EnumOptions".toList "\x10\x01".toList),
           some ("_COLOR.values_by_name[\"RED\"]".toList,
            parse_options_expression "EnumValueOptions".toList "\x08\x01".toList),
           some ("ext".toList,
            parse_options_expression "FieldOptions".toList "\x10\x01".toList),
           some ("_MSG_IN".toList,
            parse_options_expression "MessageOptions".toList "\x08\x01".toList),
           some ("_MSG.fields_by_name['x']".toList,
            parse_options_expression "FieldOptions".toList "\x10\x01".toList),
           some ("_MSG".toList,
            parse_options_expression "MessageOptions".toList "\x08\x01".toList)] ∧
        Printer.run fix =
          ("DESCRIPTOR.has_options = True\n" ++
           "DESCRIPTOR._options = _descriptor._ParseOptions(descriptor_pb2.FileOptions(), _b('\\n\\003foo'))\n" ++
           "_COLOR.has_options = True\n" ++
           "_COLOR._options = _descriptor._ParseOptions(descriptor_pb2.EnumOptions(), _b('\\020\\001'))\n" ++
           "_COLOR.values_by_name[\"RED\"].has_options = True\n" ++
           "_COLOR.values_by_name[\"RED\"]._options = _descriptor._ParseOptions(descriptor_pb2.EnumValueOptions(), _b('\\010\\001'))\n" ++
           "ext.has_options = True\n" ++
           "ext._options = _descriptor._ParseOptions(descriptor_pb2.FieldOptions(), _b('\\020\\001'))\n" ++
           "_MSG_IN.has_options = True\n" ++
           "_MSG_IN._options = _descriptor._ParseOptions(descriptor_pb2.MessageOptions(), _b('\\010\\001'))\n" ++
           "_MSG.fields_by_name['x'].has_options = True\n" ++
           "_MSG.fields_by_name['x']._options = _descriptor._ParseOptions(descriptor_pb2.FieldOptions(), _b('\\020\\001'))\n" ++
           "_MSG.has_options = True\n" ++
           "_MSG._options = _descriptor._ParseOptions(descriptor_pb2.MessageOptions(), _b('\\010\\001'))\n").toList) ∧
      (∀ f ∈ Example.optioned_file.fixup_fields, f.file = Example.optioned_file.name) :=
  ⟨rfl,
    ⟨_, rfl,
      ((C17_FixAllDescriptorOptions_one_statement_per_nonempty_options Example.optioned_file
        rfl).1 _ rfl).trans (by decide),
      by decide⟩,
    by decide⟩

end Bsv
